import Mathlib

/-!
# Scheduler, semaphores and process lifecycle of `os_prj3_20171609`

A shallow embedding of `threads/thread.c`, `threads/synch.c`, `userprog/process.c` and
`userprog/syscall.c`.

* A `struct thread *` is the number of the page holding the control block; kernel memory is the
  map `Kernel.threads` from pages to control blocks.
* A `struct list` of threads is the `List` of their pages, front first.
* A `struct semaphore *` is a `sema_ref`; all semaphores live in the map `Kernel.semas`.
* `int` is `Int`, with `toInt32` applied where C truncates to 32 bits; `unsigned` is `Nat`
  reduced modulo `2 ^ 32`.
* A failed `ASSERT` (kernel panic) is `none` / `Outcome.panic`.
* Every function runs with no timer interrupt arriving inside it: the only context switches are
  the ones the code asks for (`thread_block`, `thread_yield`, `thread_exit`).
* Calls to collaborators outside the four files (`file_close`, `pagedir_destroy`, ...) and the
  semaphore operations are recorded, in order, in `Kernel.trace`.
-/

namespace Pintos

/-! ## Data model -/

/-- The `enum thread_status` of `threads/thread.h`. -/
inductive thread_status where
  | THREAD_RUNNING
  | THREAD_READY
  | THREAD_BLOCKED
  | THREAD_DYING
  deriving DecidableEq, Repr

/-- The `struct semaphore`: an `unsigned` count and the list of waiting threads
(front of the list first, `list_push_back` appends). -/
structure semaphore where
  value : Nat
  waiters : List Nat
  deriving DecidableEq, Repr

/-- The address of a semaphore: the three semaphores embedded in a control block
(`&t->exit`, `&t->load`, `&t->wait`), the semaphore embedded in a `struct lock`, or any other
semaphore object (for instance one on a stack), named by its address. -/
inductive sema_ref where
  | exit (t : Nat)
  | load (t : Nat)
  | wait (t : Nat)
  | lock (l : Nat)
  | cell (a : Nat)
  deriving DecidableEq, Repr

/-- Calls recorded in the trace of the kernel, oldest first. -/
inductive Event where
  | sema_down (s : sema_ref)
  | sema_up (s : sema_ref)
  | file_close (f : Nat)
  | filesys_open (found : Bool)
  | pagedir_destroy (pd : Nat)
  | palloc_free_page (page : Nat)
  | load (t : Nat) (success : Bool)
  | putbuf (buffer size : Nat)
  | file_write (f buffer size : Nat)
  | file_length (f : Option Nat)
  | file_seek (f : Option Nat) (position : Nat)
  | file_tell (f : Option Nat)
  deriving DecidableEq, Repr

/-- The `struct thread` of `threads/thread.h`, restricted to the members the scheduler, the
semaphores and the process lifecycle read or write.  `process.c` and `syscall.c` call the
two flags `loaded` and `waiting`, the three semaphores `exit`, `load` and `wait` (kept in
`Kernel.semas`) and the descriptor table `fd`; `thread.h` declares members of the same types
under the names `loadingswitch`, `waitswitch`, `sema_exit`, `sema_load`, `mem_lock` and
`file[130]`, and `init_thread` initialises those.  The names of `process.c` and `syscall.c`
are used here.  A file handle (`struct file *`) is `some` address, `NULL` is `none`. -/
structure thread where
  tid : Int
  status : thread_status
  priority : Int
  pagedir : Option Nat
  parent : Option Nat
  child : List Nat
  loaded : Bool
  waiting : Bool
  exit_status : Int
  nice : Int
  recent_cpu : Int
  fd : Nat → Option Nat
  magic : Nat

/-- The kernel state: thread memory, the globals of `thread.c` (`ready_list`, `all_list`,
`idle_thread`, `initial_thread`, `averageloading`, `thread_ticks`, the static `next_tid` of
`allocate_tid`), the thread whose stack is in use (`running_thread ()`), all semaphores,
the holder of every lock, the flag set by `intr_yield_on_return`, and the trace. -/
structure Kernel where
  threads : Nat → thread
  ready_list : List Nat
  all_list : List Nat
  running : Nat
  idle_thread : Option Nat
  initial_thread : Option Nat
  next_tid : Int
  averageloading : Int
  thread_ticks : Nat
  semas : sema_ref → semaphore
  holder : Nat → Option Nat
  yield_on_return : Bool
  trace : List Event

/-- How a call ends for the thread that made it. -/
inductive Outcome (α : Type) where
  /-- The call returned `v`; `k` is the state at the return (when the call ends in a
  `thread_yield`, the state right after the scheduler has chosen the next thread). -/
  | returned (v : α) (k : Kernel)
  /-- The caller went to sleep in `sema_down`; `k` is the state after the switch. -/
  | blocked (k : Kernel)
  /-- The caller lost the CPU in a `thread_yield` in the middle of the call and resumes
  there later; `k` is the state after the switch. -/
  | switched (k : Kernel)
  /-- The caller died in `thread_exit`; `k` is the state after the switch. -/
  | exited (k : Kernel)
  /-- An `ASSERT` failed. -/
  | panic

def THREAD_MAGIC : Nat := 0xcd6abf4b

def PRI_MIN : Int := 0

def PRI_DEFAULT : Int := 31

def PRI_MAX : Int := 63

def TID_ERROR : Int := -1

/-- Number of slots of the descriptor table (`struct file *file[130]` in `thread.h`). -/
def FD_SLOTS : Nat := 130

/-- The address of the lock `tid_lock` of `thread.c`. -/
def tid_lock : Nat := 0

/-- The address of the lock `lockflag` of `syscall.c`. -/
def lockflag : Nat := 1

/-- Conversion to `int`: the value modulo `2 ^ 32` in the range `[-2^31, 2^31)`. -/
def toInt32 (x : Int) : Int := (x + 2147483648) % 4294967296 - 2147483648

/-- Writes the control block at page `t`. -/
def set_thread (k : Kernel) (t : Nat) (f : thread → thread) : Kernel :=
  { k with threads := fun x => if x = t then f (k.threads x) else k.threads x }

/-- Writes the semaphore at `r`. -/
def set_sema (k : Kernel) (r : sema_ref) (s : semaphore) : Kernel :=
  { k with semas := fun x => if x = r then s else k.semas x }

/-- Appends a call to the trace. -/
def log (k : Kernel) (e : Event) : Kernel :=
  { k with trace := k.trace ++ [e] }

/-! ## `lib/kernel/list.c`: ordered insertion -/

/-- The `list_insert_ordered (list, elem, less, aux)`: walks from the front and inserts `x`
in front of the first element `e` with `less (x, e)`, at the back when there is none. -/
def list_insert_ordered (less : Nat → Nat → Bool) : List Nat → Nat → List Nat
  | [], x => [x]
  | e :: es, x => if less x e then x :: e :: es else e :: list_insert_ordered less es x

/-! ## `threads/thread.c` -/

/-- The comparison `biggerprior (a, b, aux)`: true exactly when the thread of `a` has a
priority strictly greater than the thread of `b`. -/
def biggerprior (k : Kernel) (a b : Nat) : Bool :=
  let firstnum := (k.threads a).priority
  let secondnum := (k.threads b).priority
  if firstnum > secondnum then true else false

/-- The test `is_thread (t)`: the magic number is intact (`t != NULL` holds of every page). -/
def is_thread (k : Kernel) (t : Nat) : Bool :=
  (k.threads t).magic = THREAD_MAGIC

/-- The function `next_thread_to_run`: the idle thread when the ready list is empty, else the
popped front of the ready list. -/
def next_thread_to_run (k : Kernel) : Option Nat × Kernel :=
  match k.ready_list with
  | [] => (k.idle_thread, k)
  | t :: rest => (some t, { k with ready_list := rest })

/-- The function `thread_schedule_tail (prev)`, run on the stack of the new thread: marks it
running, restarts the time slice, and frees the page of a dying predecessor other than the
initial thread. -/
def thread_schedule_tail (k : Kernel) (prev : Option Nat) : Option Kernel :=
  let cur := k.running
  let k1 := { set_thread k cur (fun t => { t with status := .THREAD_RUNNING }) with
              thread_ticks := 0 }
  match prev with
  | none => some k1
  | some p =>
    if (k1.threads p).status = .THREAD_DYING ∧ some p ≠ k1.initial_thread then
      if p = cur then none else some (log k1 (.palloc_free_page p))
    else some k1

/-- The function `schedule`: picks the next thread and switches to it. -/
def schedule (k : Kernel) : Option Kernel :=
  let cur := k.running
  let (next, k1) := next_thread_to_run k
  if (k1.threads cur).status = .THREAD_RUNNING then none
  else
    match next with
    | none => none
    | some n =>
      if is_thread k1 n then
        thread_schedule_tail { k1 with running := n } (if cur ≠ n then some cur else none)
      else none

/-- The function `thread_current`: the running thread, with its two assertions. -/
def thread_current (k : Kernel) : Option Nat :=
  let t := k.running
  if is_thread k t ∧ (k.threads t).status = .THREAD_RUNNING then some t else none

/-- The function `thread_block`: the running thread becomes blocked and the scheduler runs. -/
def thread_block (k : Kernel) : Option Kernel :=
  match thread_current k with
  | none => none
  | some cur => schedule (set_thread k cur (fun t => { t with status := .THREAD_BLOCKED }))

/-- The function `thread_unblock (t)`: a blocked thread is inserted in the ready list in
priority order and becomes ready. -/
def thread_unblock (k : Kernel) (t : Nat) : Option Kernel :=
  if is_thread k t then
    if (k.threads t).status = .THREAD_BLOCKED then
      let k1 := { k with ready_list := list_insert_ordered (biggerprior k) k.ready_list t }
      some (set_thread k1 t (fun x => { x with status := .THREAD_READY }))
    else none
  else none

/-- The function `thread_yield`: the running thread re-enters the ready list in priority
order (unless it is the idle thread), becomes ready, and the scheduler runs. -/
def thread_yield (k : Kernel) : Option Kernel :=
  match thread_current k with
  | none => none
  | some cur =>
    let l := if some cur ≠ k.idle_thread then
        list_insert_ordered (biggerprior k) k.ready_list cur
      else k.ready_list
    schedule (set_thread { k with ready_list := l } cur (fun t => { t with status := .THREAD_READY }))

/-- The function `thread_get_priority`. -/
def thread_get_priority (k : Kernel) : Option Int :=
  (thread_current k).map (fun cur => (k.threads cur).priority)

/-! ## `threads/synch.c` -/

/-- The function `sema_init (sema, value)`. -/
def sema_init (k : Kernel) (sema : sema_ref) (value : Nat) : Kernel :=
  set_sema k sema { value := value, waiters := [] }

/-- The function `sema_down (sema)`.  With a zero count the caller is appended to the waiters
and blocks; it re-runs the test of the `while` loop when it is next scheduled, which is
`sema_down` again.  Otherwise the count is decremented. -/
def sema_down (k : Kernel) (sema : sema_ref) : Outcome Unit :=
  let k0 := log k (.sema_down sema)
  if (k0.semas sema).value = 0 then
    match thread_current k0 with
    | none => .panic
    | some cur =>
      let s := k0.semas sema
      match thread_block (set_sema k0 sema { s with waiters := s.waiters ++ [cur] }) with
      | none => .panic
      | some k1 => .blocked k1
  else
    let s := k0.semas sema
    .returned () (set_sema k0 sema { s with value := s.value - 1 })

/-- The loop of `sema_up` (synch.c 77-88) over the waiters after the first one: `iter` is
the position of the waiter under inspection, and the accumulator holds `maxofthread`, the
position of `maxofelem`, and `numb`. -/
def sema_up_scan (k : Kernel) : List Nat → Nat → Nat × Nat × Int → Nat × Nat × Int
  | [], _, acc => acc
  | threadofcur :: rest, iter, (maxofthread, maxofelem, numb) =>
    if (k.threads threadofcur).priority > numb then
      sema_up_scan k rest (iter + 1) (threadofcur, iter, (k.threads threadofcur).priority)
    else
      sema_up_scan k rest (iter + 1) (maxofthread, maxofelem, numb)

/-- The body of the `if (!list_empty (&sema->waiters))` of `sema_up` (synch.c 70-91): scans
for the waiter to wake, unlinks it (`list_remove (maxofelem)`) and unblocks it. -/
def sema_up_wake (k : Kernel) (sema : sema_ref) : Option Kernel :=
  let s := k.semas sema
  match s.waiters with
  | [] => some k
  | first :: rest =>
    let (maxofthread, maxofelem, _) :=
      sema_up_scan k rest 1 (first, 0, (k.threads first).priority)
    thread_unblock (set_sema k sema { s with waiters := s.waiters.eraseIdx maxofelem })
      maxofthread

/-- The statement `sema->value++` on the `unsigned` count. -/
def sema_incr (k : Kernel) (sema : sema_ref) : Kernel :=
  let s := k.semas sema
  set_sema k sema { s with value := (s.value + 1) % 4294967296 }

/-- The function `sema_up (sema)`: wakes one waiter if there is any, increments the count,
and yields. -/
def sema_up (k : Kernel) (sema : sema_ref) : Option Kernel :=
  match sema_up_wake (log k (.sema_up sema)) sema with
  | none => none
  | some k1 => thread_yield (sema_incr k1 sema)

/-- The function `lock_init (lock)`. -/
def lock_init (k : Kernel) (l : Nat) : Kernel :=
  sema_init { k with holder := fun x => if x = l then none else k.holder x } (.lock l) 1

/-- The function `lock_held_by_current_thread (lock)`. -/
def lock_held_by_current_thread (k : Kernel) (l : Nat) : Option Bool :=
  (thread_current k).map (fun cur => decide (k.holder l = some cur))

/-- The function `lock_acquire (lock)`.  A caller that blocks in `sema_down` takes the lock
when it is woken and the count is positive again. -/
def lock_acquire (k : Kernel) (l : Nat) : Outcome Unit :=
  match lock_held_by_current_thread k l with
  | none => .panic
  | some true => .panic
  | some false =>
    match sema_down k (.lock l) with
    | .returned _ k1 =>
      match thread_current k1 with
      | none => .panic
      | some cur =>
        .returned () { k1 with holder := fun x => if x = l then some cur else k1.holder x }
    | .blocked k1 => .blocked k1
    | .switched k1 => .switched k1
    | .exited k1 => .exited k1
    | .panic => .panic

/-- The function `lock_release (lock)`. -/
def lock_release (k : Kernel) (l : Nat) : Option Kernel :=
  match lock_held_by_current_thread k l with
  | some true =>
    sema_up { k with holder := fun x => if x = l then none else k.holder x } (.lock l)
  | _ => none

/-! ## `threads/thread.c`: thread creation -/

/-- A control block after `memset (t, 0, sizeof *t)`. -/
def thread_zero : thread :=
  { tid := 0, status := .THREAD_RUNNING, priority := 0, pagedir := none, parent := none,
    child := [], loaded := false, waiting := false, exit_status := 0, nice := 0,
    recent_cpu := 0, fd := fun _ => none, magic := 0 }

/-- The function `init_thread (t, name, priority)`, with the part under `USERPROG`: the new
block is blocked, inherits `nice` and `recent_cpu` from the running thread, gets the running
thread as parent, is appended to `all_list` and to the child list of the running thread,
and has slots 0 to 127 of its descriptor table cleared. -/
def init_thread (k : Kernel) (t : Nat) (priority : Int) : Option Kernel :=
  if PRI_MIN ≤ priority ∧ priority ≤ PRI_MAX then
    let k1 := set_thread k t (fun _ =>
      { thread_zero with status := .THREAD_BLOCKED, priority := priority,
                         magic := THREAD_MAGIC })
    let k2 := { k1 with all_list := k1.all_list ++ [t] }
    let k3 := set_thread k2 t (fun x => { x with nice := (k2.threads k2.running).nice })
    let k4 := set_thread k3 t (fun x =>
      { x with recent_cpu := (k3.threads k3.running).recent_cpu })
    let k5 := set_thread k4 t (fun x => { x with parent := some k4.running })
    let k6 := sema_init (sema_init (sema_init k5 (.exit t) 0) (.load t) 0) (.wait t) 0
    let k7 := set_thread k6 t (fun x =>
      { x with loaded := false, waiting := false, child := [] })
    let k8 := set_thread k7 k7.running (fun x => { x with child := x.child ++ [t] })
    some (set_thread k8 t (fun x => { x with fd := fun i => if i < 128 then none else x.fd i }))
  else none

/-- The function `allocate_tid`: takes `tid_lock`, reads and increments the static `next_tid`,
releases the lock (which ends in the `thread_yield` of `sema_up`). -/
def allocate_tid (k : Kernel) : Outcome Int :=
  match lock_acquire k tid_lock with
  | .returned _ k1 =>
    let tid := k1.next_tid
    match lock_release { k1 with next_tid := toInt32 (tid + 1) } tid_lock with
    | none => .panic
    | some k2 => .returned tid k2
  | .blocked k1 => .blocked k1
  | .switched k1 => .switched k1
  | .exited k1 => .exited k1
  | .panic => .panic

/-- The rest of `thread_create` once `allocate_tid` has returned `tid` to the creator
(thread.c 125-142): stores the tid, unblocks the new thread, and yields when the new priority
is strictly greater than the priority of the creator. -/
def thread_create_finish (k : Kernel) (t : Nat) (tid priority : Int) : Outcome Int :=
  match thread_unblock (set_thread k t (fun x => { x with tid := tid })) t with
  | none => .panic
  | some k1 =>
    match thread_get_priority k1 with
    | none => .panic
    | some p =>
      if priority > p then
        match thread_yield k1 with
        | none => .panic
        | some k2 => .returned tid k2
      else .returned tid k1

/-- The function `thread_create (name, priority, function, aux)`; `page` is the result of
`palloc_get_page (PAL_ZERO)`.  When the `thread_yield` inside `allocate_tid` hands the CPU
to another thread the outcome is `switched`, and the creator continues with
`thread_create_finish` when it runs again. -/
def thread_create (k : Kernel) (page : Option Nat) (priority : Int) : Outcome Int :=
  match page with
  | none => .returned TID_ERROR k
  | some t =>
    match init_thread k t priority with
    | none => .panic
    | some k1 =>
      match allocate_tid k1 with
      | .returned tid k2 =>
        if k2.running = k.running then thread_create_finish k2 t tid priority
        else .switched k2
      | .blocked k2 => .blocked k2
      | .switched k2 => .switched k2
      | .exited k2 => .exited k2
      | .panic => .panic

/-- Kernel memory before `thread_init`: zeroed, the loader has put the stack pointer in
`page`, and the static `next_tid` holds its initialiser 1. -/
def boot_memory (page : Nat) : Kernel :=
  { threads := fun _ => thread_zero, ready_list := [], all_list := [], running := page,
    idle_thread := none, initial_thread := none, next_tid := 1, averageloading := 0,
    thread_ticks := 0, semas := fun _ => { value := 0, waiters := [] },
    holder := fun _ => none, yield_on_return := false, trace := [] }

/-- The function `thread_init`. -/
def thread_init (k : Kernel) : Outcome Unit :=
  let k1 := lock_init { k with averageloading := 0 } tid_lock
  let k2 := { k1 with ready_list := [], all_list := [], initial_thread := some k1.running }
  match init_thread k2 k2.running PRI_DEFAULT with
  | none => .panic
  | some k3 =>
    let initial := k3.running
    match allocate_tid (set_thread k3 initial (fun x => { x with status := .THREAD_RUNNING }))
    with
    | .returned tid k4 =>
      .returned () (set_thread k4 initial (fun x =>
        { x with tid := tid, nice := 0, recent_cpu := 0 }))
    | .blocked k4 => .blocked k4
    | .switched k4 => .switched k4
    | .exited k4 => .exited k4
    | .panic => .panic

/-! ## `userprog/process.c` and `userprog/syscall.c`: the process lifecycle -/

/-- The `for` loop of `process_wait` (process.c 96-105) over the rest of the child list:
the value of `i` when the loop ends, which is the position of the first child whose tid is
`child_tid`, or the length of the list when there is none. -/
def process_wait_scan (k : Kernel) (child_tid : Int) : List Nat → Nat → Nat
  | [], i => i
  | tmp_thre :: rest, i =>
    if (k.threads tmp_thre).tid = child_tid then i
    else process_wait_scan k child_tid rest (i + 1)

/-- The lines of `process_wait` after `sema_down (&tmp_thre->exit)` has returned
(process.c 112-115). -/
def process_wait_collect (k : Kernel) (cur tmp_thre : Nat) : Outcome Int :=
  let exit_status := (k.threads tmp_thre).exit_status
  let k1 := set_thread k cur (fun x => { x with child := x.child.erase tmp_thre })
  match sema_up k1 (.wait tmp_thre) with
  | none => .panic
  | some k2 => .returned exit_status k2

/-- The lines of `process_wait` from `sema_down (&tmp_thre->exit)` on (process.c 111-115);
a parent that blocked in the `sema_down` runs them again when it is woken. -/
def process_wait_reap (k : Kernel) (cur tmp_thre : Nat) : Outcome Int :=
  match sema_down k (.exit tmp_thre) with
  | .returned _ k1 => process_wait_collect k1 cur tmp_thre
  | .blocked k1 => .blocked k1
  | .switched k1 => .switched k1
  | .exited k1 => .exited k1
  | .panic => .panic

/-- The function `process_wait (child_tid)`. -/
def process_wait (k : Kernel) (child_tid : Int) : Outcome Int :=
  match thread_current k with
  | none => .panic
  | some cur =>
    let k1 := set_thread k cur (fun x => { x with waiting := true })
    let children := (k1.threads cur).child
    let i := process_wait_scan k1 child_tid children 0
    match children[i]? with
    | none => .returned (-1) k1
    | some tmp_thre =>
      if (k1.threads tmp_thre).parent ≠ some cur ∨ (k1.threads tmp_thre).waiting = true then
        .returned (-1) k1
      else process_wait_reap k1 cur tmp_thre

/-- The lines of `process_exit` from `sema_down (&cur->wait)` on (process.c 128-138). -/
def process_exit_wait (k : Kernel) (cur : Nat) : Outcome Unit :=
  match sema_down k (.wait cur) with
  | .returned _ k1 =>
    match (k1.threads cur).pagedir with
    | none => .returned () k1
    | some pd =>
      .returned () (log (set_thread k1 cur (fun x => { x with pagedir := none }))
        (.pagedir_destroy pd))
  | .blocked k1 => .blocked k1
  | .switched k1 => .switched k1
  | .exited k1 => .exited k1
  | .panic => .panic

/-- The function `process_exit`.  When the `thread_yield` inside `sema_up (&cur->exit)`
hands the CPU to another thread the outcome is `switched`, and the caller continues with
`process_exit_wait` when it runs again. -/
def process_exit (k : Kernel) : Outcome Unit :=
  match thread_current k with
  | none => .panic
  | some cur =>
    match sema_up k (.exit cur) with
    | none => .panic
    | some k1 => if k1.running = cur then process_exit_wait k1 cur else .switched k1

/-- The lines of `thread_exit` after `process_exit` (thread.c 197-201): the thread leaves
`all_list`, becomes dying, and the scheduler runs. -/
def thread_exit_die (k : Kernel) : Outcome Unit :=
  match thread_current k with
  | none => .panic
  | some cur =>
    let k1 := { k with all_list := k.all_list.erase cur }
    match schedule (set_thread k1 cur (fun x => { x with status := .THREAD_DYING })) with
    | none => .panic
    | some k2 => .exited k2

/-- The function `thread_exit`. -/
def thread_exit (k : Kernel) : Outcome Unit :=
  match process_exit k with
  | .returned _ k1 => thread_exit_die k1
  | .blocked k1 => .blocked k1
  | .switched k1 => .switched k1
  | .exited k1 => .exited k1
  | .panic => .panic

/-- The two statements of `close` that follow its `NULL` check (syscall.c 286-287):
the slot is cleared and the handle goes to `file_close`. -/
def close_file (k : Kernel) (cur fd curfd : Nat) : Kernel :=
  log (set_thread k cur (fun x => { x with fd := fun i => if i = fd then none else x.fd i }))
    (.file_close curfd)

/-- The `for` loop of `exit` (syscall.c 129-132) with `n` iterations left, at descriptor
`i`: an occupied slot is closed by `close (i)`, which takes the branch of `close_file`
since the slot is not `NULL`. -/
def exit_close_loop (k : Kernel) (cur : Nat) : Nat → Nat → Kernel
  | 0, _ => k
  | n + 1, i =>
    match (k.threads cur).fd i with
    | some curfd => exit_close_loop (close_file k cur i curfd) cur n (i + 1)
    | none => exit_close_loop k cur n (i + 1)

/-- The lines of `exit` before `thread_exit` (syscall.c 125-132): the status is recorded
and descriptors 3 to 127 are closed.  The `printf` is not modelled. -/
def exit_cleanup (k : Kernel) (cur : Nat) (status : Int) : Kernel :=
  exit_close_loop (set_thread k cur (fun x => { x with exit_status := status })) cur 125 3

/-- The function `exit (status)` of `syscall.c`. -/
def exit (k : Kernel) (status : Int) : Outcome Unit :=
  match thread_current k with
  | none => .panic
  | some cur => thread_exit (exit_cleanup k cur status)

/-- The function `close (fd)` of `syscall.c`, for a descriptor inside the table. -/
def close (k : Kernel) (fd : Nat) : Outcome Unit :=
  match thread_current k with
  | none => .panic
  | some cur =>
    match (k.threads cur).fd fd with
    | none => exit k (-1)
    | some curfd => .returned () (close_file k cur fd curfd)

/-- The `for` loop of `open` (syscall.c 262-272) with `n` iterations left, at slot `i`: the
first free slot receives the handle `filest` and its number is the result; -1 when no slot
is free.  The `file_deny_write` call is not modelled. -/
def open_loop (k : Kernel) (cur filest : Nat) : Nat → Nat → Int × Kernel
  | 0, _ => (-1, k)
  | n + 1, i =>
    match (k.threads cur).fd i with
    | none =>
      ((i : Int), set_thread k cur (fun x =>
        { x with fd := fun j => if j = i then some filest else x.fd j }))
    | some _ => open_loop k cur filest n (i + 1)

/-- The function `process_execute (file_name)`: `fn_copy` is the result of
`palloc_get_page (0)`, `opens` tells whether `filesys_open (command)` finds the program,
and `page` is the page `thread_create` gets for the child. -/
def process_execute (k : Kernel) (fn_copy : Option Nat) (opens : Bool) (page : Option Nat) :
    Outcome Int :=
  match fn_copy with
  | none => .returned TID_ERROR k
  | some copy =>
    let k1 := log k (.filesys_open opens)
    if opens = false then .returned (-1) k1
    else
      match thread_create k1 page PRI_DEFAULT with
      | .returned tid k2 =>
        if tid = TID_ERROR then .returned tid (log k2 (.palloc_free_page copy))
        else .returned tid k2
      | .blocked k2 => .blocked k2
      | .switched k2 => .switched k2
      | .exited k2 => .exited k2
      | .panic => .panic

/-- The function `load` of `process.c` as far as the lifecycle sees it: `pd` is the result of
`pagedir_create ()`, stored in the control block, and `ok` tells whether the executable
can be opened, verified, mapped and given a stack.  The result is the `success` of `load`. -/
def load (k : Kernel) (cur : Nat) (pd : Option Nat) (ok : Bool) : Bool × Kernel :=
  let success := pd.isSome && ok
  (success, log (set_thread k cur (fun x => { x with pagedir := pd })) (.load cur success))

/-- The lines of `start_process` after `sema_up (&thread_current ()->parent->load)`
(process.c 73-81): a failed load records `loaded = 0` and exits with status -1, a
successful one records `loaded = 1` and enters user mode. -/
def start_process_finish (k : Kernel) (cur : Nat) (success : Bool) : Outcome Unit :=
  if success = false then
    exit (set_thread k cur (fun x => { x with loaded := false })) (-1)
  else .returned () (set_thread k cur (fun x => { x with loaded := true }))

/-- The function `start_process (file_name_)`, run by the new thread; `copy` is the page of
the command line, `pd` and `ok` are the inputs of `load`.  When the `thread_yield` inside
the `sema_up` hands the CPU to another thread the outcome is `switched`, and the thread
continues with `start_process_finish` when it runs again. -/
def start_process (k : Kernel) (copy : Nat) (pd : Option Nat) (ok : Bool) : Outcome Unit :=
  match thread_current k with
  | none => .panic
  | some cur =>
    let (success, k1) := load k cur pd ok
    let k2 := log k1 (.palloc_free_page copy)
    match (k2.threads cur).parent with
    | none => .panic
    | some parent =>
      match sema_up k2 (.load parent) with
      | none => .panic
      | some k3 =>
        if k3.running = cur then start_process_finish k3 cur success else .switched k3

/-- The value an outcome returns, if it returns. -/
def Outcome.value {α : Type} (o : Outcome α) : Option α :=
  match o with
  | .returned v _ => some v
  | _ => none

/-- The descriptor tables that `init_thread`, `open` and `close` produce: only slots 3 to
127 are ever occupied, and no handle occupies two slots. -/
def fd_table_ok (fd : Nat → Option Nat) : Prop :=
  (∀ i h, fd i = some h → 3 ≤ i ∧ i < 128) ∧
  (∀ i j h, fd i = some h → fd j = some h → i = j)

/-! ## `threads/thread.c`: fixed-point arithmetic and `thread_aging` -/

/-- Conversion to `int64_t`. -/
def toInt64 (x : Int) : Int :=
  (x + 9223372036854775808) % 18446744073709551616 - 9223372036854775808

/-- The C division of two `int` values: truncation toward zero; a zero divisor and
`INT_MIN / -1` raise a divide error. -/
def int_div (x y : Int) : Option Int :=
  if y = 0 ∨ (x = -2147483648 ∧ y = -1) then none else some (Int.tdiv x y)

/-- The C division of two `int64_t` values. -/
def int64_div (x y : Int) : Option Int :=
  if y = 0 ∨ (x = -9223372036854775808 ∧ y = -1) then none else some (Int.tdiv x y)

/-- The function `CalculatefNumber (a, b, mode, flag)`.  The expressions of the `flag`
branches are evaluated in `int`; the other branches of modes 2 and 3 widen `a` to `int64_t`
first (`tempnum`).  The result is converted back to `int`; `1 << 14` is 16384. -/
def CalculatefNumber (a b : Int) (mode : Int) (flag : Bool) : Option Int :=
  let ansnum : Option Int :=
    if mode = 0 then
      if flag then some (toInt32 (toInt32 (a * 16384) + b)) else some (toInt32 (a + b))
    else if mode = 1 then
      if flag then some (toInt32 (toInt32 (a * 16384) - b)) else some (toInt32 (a - b))
    else if mode = 2 then
      if flag then some (toInt32 (a * b))
      else int64_div (toInt64 (a * b)) 16384
    else if mode = 3 then
      if flag then int_div b a
      else int64_div (toInt64 (a * 16384)) b
    else some 0
  ansnum.map toInt32

/-- The priority expression of `thread_aging` (thread.c 476-479, also 262-265 of
`thread_set_nice`): the nested `CalculatefNumber` calls, the division by `1 << 14`, and the
clamp to `[PRI_MIN, PRI_MAX]`. -/
def aging_priority (recent_cpu nice : Int) : Option Int := do
  let pmax ← CalculatefNumber PRI_MAX 0 0 true
  let quarter ← CalculatefNumber 4 recent_cpu 3 true
  let diff ← CalculatefNumber pmax quarter 1 false
  let fnice ← CalculatefNumber nice 0 0 true
  let twice ← CalculatefNumber 2 fnice 2 true
  let fixed ← CalculatefNumber diff twice 1 false
  let priority ← int_div fixed 16384
  if priority > PRI_MAX then some PRI_MAX
  else if priority < PRI_MIN then some PRI_MIN
  else some priority

/-- The load expression of `thread_aging` (thread.c 456). -/
def aging_load (bulk averageloading : Int) : Option Int := do
  let x ← CalculatefNumber 59 averageloading 2 true
  let y ← CalculatefNumber bulk x 0 true
  CalculatefNumber 60 y 3 true

/-- The usage expression of `thread_aging` (thread.c 464). -/
def aging_recent_cpu (averageloading nice recent_cpu : Int) : Option Int := do
  let twice ← CalculatefNumber 2 averageloading 2 true
  let twice2 ← CalculatefNumber 2 averageloading 2 true
  let denom ← CalculatefNumber 1 twice2 0 true
  let coef ← CalculatefNumber twice denom 3 false
  let decayed ← CalculatefNumber coef recent_cpu 2 false
  CalculatefNumber nice decayed 0 true

/-- The first `while` loop of `thread_aging` (thread.c 458-467) over the rest of
`all_list`: every thread but the idle thread gets a new `recent_cpu`. -/
def thread_aging_usage (k : Kernel) : List Nat → Option Kernel
  | [] => some k
  | operthread :: rest =>
    if some operthread ≠ k.idle_thread then
      match aging_recent_cpu k.averageloading (k.threads operthread).nice
          (k.threads operthread).recent_cpu with
      | none => none
      | some v =>
        thread_aging_usage (set_thread k operthread (fun t => { t with recent_cpu := v })) rest
    else thread_aging_usage k rest

/-- The second `while` loop of `thread_aging` (thread.c 472-482) over the rest of
`all_list`: every thread gets a new priority. -/
def thread_aging_priority (k : Kernel) : List Nat → Option Kernel
  | [] => some k
  | operthread :: rest =>
    match aging_priority (k.threads operthread).recent_cpu (k.threads operthread).nice with
    | none => none
    | some priority =>
      thread_aging_priority (set_thread k operthread (fun t => { t with priority := priority }))
        rest

/-- The function `thread_aging (mode)`. -/
def thread_aging (k : Kernel) (mode : Int) : Option Kernel :=
  match thread_current k with
  | none => none
  | some threadcurr =>
    let bulk := toInt32 k.ready_list.length
    if mode = 0 then
      let bulk := if some threadcurr ≠ k.idle_thread then toInt32 (bulk + 1) else bulk
      match aging_load bulk k.averageloading with
      | none => none
      | some l => thread_aging_usage { k with averageloading := l } k.all_list
    else
      match thread_aging_priority k k.all_list with
      | none => none
      | some k1 =>
        match k1.ready_list with
        | [] => some k1
        | elemfind :: _ =>
          if (k1.threads threadcurr).priority < (k1.threads elemfind).priority then
            some { k1 with yield_on_return := true }
          else some k1

/-! ## Well-formed states -/



/-- The running thread is a thread in state running, as `thread_current` asserts. -/
def running_ok (k : Kernel) : Prop :=
  is_thread k k.running = true ∧ (k.threads k.running).status = .THREAD_RUNNING

/-- Every member of the ready list is a thread in state ready. -/
def ready_ok (k : Kernel) : Prop :=
  ∀ t ∈ k.ready_list, is_thread k t = true ∧ (k.threads t).status = .THREAD_READY

/-- Every waiter of the semaphore is a thread in state blocked. -/
def waiters_ok (k : Kernel) (sema : sema_ref) : Prop :=
  ∀ t ∈ (k.semas sema).waiters,
    is_thread k t = true ∧ (k.threads t).status = .THREAD_BLOCKED

/-- Position `i` of the wait list `ws` holds `m`, no waiter has a higher priority than `m`,
and every waiter in front of position `i` has a strictly lower priority than `m`. -/
def first_max (k : Kernel) (ws : List Nat) (i m : Nat) : Prop :=
  ws[i]? = some m ∧
  (∀ t ∈ ws, (k.threads t).priority ≤ (k.threads m).priority) ∧
  (∀ j t, j < i → ws[j]? = some t → (k.threads t).priority < (k.threads m).priority)

/-! ## States reached by `thread_create`, `thread_block` and `thread_unblock` -/

/-- One call made by the running thread: a `thread_create` (which may fail to get a page,
run to its end, or lose the CPU inside `allocate_tid`), the continuation of a
`thread_create` that lost the CPU inside `allocate_tid`, a `thread_block`, or a
`thread_unblock`.  Calls that fail an assertion make no step.  `allowed k t` restricts the
threads that `thread_unblock` is called on.  The page a `thread_create` receives from
`palloc_get_page` is not in use; the priority the continuation compares is the one
`init_thread` stored in the new block. -/
inductive sched_step (allowed : Kernel → Nat → Prop) : Kernel → Kernel → Prop where
  | create_failed (k k1 : Kernel) (priority tid : Int) :
      thread_create k none priority = .returned tid k1 → sched_step allowed k k1
  | create (k k1 : Kernel) (t : Nat) (priority tid : Int) :
      t ∉ k.all_list → thread_create k (some t) priority = .returned tid k1 →
      sched_step allowed k k1
  | create_switched (k k1 : Kernel) (t : Nat) (priority : Int) :
      t ∉ k.all_list → thread_create k (some t) priority = .switched k1 →
      sched_step allowed k k1
  | create_resumed (k k1 : Kernel) (t : Nat) (tid : Int) :
      thread_create_finish k t tid (k.threads t).priority = .returned tid k1 →
      sched_step allowed k k1
  | block (k k1 : Kernel) :
      thread_block k = some k1 → sched_step allowed k k1
  | unblock (k k1 : Kernel) (t : Nat) :
      allowed k t → thread_unblock k t = some k1 → sched_step allowed k k1

/-- The states reached from the state `thread_init` leaves (on any boot page) by a sequence
of calls of `sched_step`. -/
inductive sched_reachable (allowed : Kernel → Nat → Prop) : Kernel → Prop where
  | init (page : Nat) (k0 : Kernel) :
      thread_init (boot_memory page) = .returned () k0 → sched_reachable allowed k0
  | step (k k1 : Kernel) :
      sched_reachable allowed k → sched_step allowed k k1 → sched_reachable allowed k1

/-- The priority-correctness property: no thread in state ready has a priority above the
priority of the running thread. -/
def priority_correct (k : Kernel) : Prop :=
  ∀ t, (k.threads t).status = .THREAD_READY →
    (k.threads t).priority ≤ (k.threads k.running).priority

/-- The restriction on `thread_unblock` under which priority-correctness is kept: the
unblocked thread has no higher priority than the running thread. -/
def unblock_not_above (k : Kernel) (t : Nat) : Prop :=
  (k.threads t).priority ≤ (k.threads k.running).priority

/-- The invariant of the scheduler that does not mention the priority of the running
thread: the running thread and the ready list are well formed, the ready list has no
repetition, is ordered by non-increasing priority and holds every ready thread, there is
no idle thread, `tid_lock` is free, and every control block is in `all_list`. -/
structure sched_ok (k : Kernel) : Prop where
  run : running_ok k
  ready : ready_ok k
  nodup : k.ready_list.Nodup
  sorted : k.ready_list.Pairwise (fun a b => (k.threads b).priority ≤ (k.threads a).priority)
  complete : ∀ t, (k.threads t).status = .THREAD_READY → t ∈ k.ready_list
  idle : k.idle_thread = none
  lock_free : k.semas (.lock tid_lock) = { value := 1, waiters := [] } ∧
    k.holder tid_lock = none
  registered : ∀ t, is_thread k t = true → t ∈ k.all_list

/-! ## Example states -/

/-- The state an outcome ends in (`k` when the outcome is a panic). -/
def Outcome.state_or {α : Type} (o : Outcome α) (k : Kernel) : Kernel :=
  match o with
  | .returned _ k1 => k1
  | .blocked k1 => k1
  | .switched k1 => k1
  | .exited k1 => k1
  | .panic => k

/-- The state after `thread_init` with the initial thread on page 0. -/
def booted : Kernel := (thread_init (boot_memory 0)).state_or (boot_memory 0)

/-- The initial thread (priority 31) has created a thread of priority 50 on page 1, which
preempted it at once. -/
def after_create : Kernel := (thread_create booted (some 1) 50).state_or booted

/-- The new thread has blocked, the initial thread runs again. -/
def after_block : Kernel := (thread_block after_create).getD after_create

/-- The initial thread has called `thread_unblock` on the blocked thread of priority 50. -/
def after_unblock : Kernel := (thread_unblock after_block 1).getD after_block

/-- A state with a semaphore at address 0 on which three blocked threads wait, of priorities
10, 30 and 20 in order of arrival, while the initial thread runs. -/
def three_waiters : Kernel :=
  { booted with
    threads := fun x =>
      if x = 1 then { thread_zero with status := .THREAD_BLOCKED, priority := 10,
                                       magic := THREAD_MAGIC }
      else if x = 2 then { thread_zero with status := .THREAD_BLOCKED, priority := 30,
                                            magic := THREAD_MAGIC }
      else if x = 3 then { thread_zero with status := .THREAD_BLOCKED, priority := 20,
                                            magic := THREAD_MAGIC }
      else booted.threads x
    all_list := [0, 1, 2, 3]
    semas := fun r => if r = .cell 0 then { value := 0, waiters := [1, 2, 3] }
      else booted.semas r }

/-- The state after `thread_init` with a load of 1.0 and a usage of 10.0 for the initial
thread. -/
def aging_example : Kernel :=
  set_thread { booted with averageloading := 16384 } 0
    (fun t => { t with recent_cpu := 163840 })

/-- The initial thread has created a child (tid 2) on page 1 with the default priority;
the child is ready and the initial thread keeps running. -/
def child_ready : Kernel := (thread_create booted (some 1) PRI_DEFAULT).state_or booted

/-- The initial thread has lost the CPU (`thread_yield`) and the child runs. -/
def child_running : Kernel := (thread_yield child_ready).getD child_ready

/-- The child has called `process_wait (99)` itself, which returned -1. -/
def child_waited : Kernel := (process_wait child_running 99).state_or child_running

/-- The child has called `exit (7)`: it has signalled its exit rendezvous and the initial
thread runs again. -/
def child_exited : Kernel := (exit child_waited 7).state_or child_waited

/-- The initial thread has received tid 2 from `process_execute` for a program that
`filesys_open` finds, with the command line on page 9 and the child on page 1. -/
def exec_returned : Kernel :=
  (process_execute booted (some 9) true (some 1)).state_or booted

/-- The initial thread has called `process_wait (2)` and sleeps; the child runs for the
first time. -/
def exec_parent_waits : Kernel := (process_wait exec_returned 2).state_or exec_returned

/-- The child has run `start_process` with a `load` that fails (page directory 5). -/
def exec_child_failed : Kernel :=
  (start_process exec_parent_waits 9 (some 5) false).state_or exec_parent_waits

/-- The initial thread `P` has created `A` (page 1, tid 2) and sleeps in
`process_wait (2)`; `A` runs. -/
def orphan_1 : Kernel := (process_wait child_ready 2).state_or child_ready

/-- Thread `A` has created `B` (page 2, tid 3). -/
def orphan_2 : Kernel := (thread_create orphan_1 (some 2) PRI_DEFAULT).state_or orphan_1

/-- Thread `A` has called `exit (0)` and signalled its exit rendezvous; `B` runs. -/
def orphan_3 : Kernel := (exit orphan_2 0).state_or orphan_2

/-- Thread `B` has loaded its program (page directory 5) in `start_process`; `P` runs. -/
def orphan_4 : Kernel := (start_process orphan_3 9 (some 5) true).state_or orphan_3

/-- Thread `P` has collected the status of `A` and returned from `process_wait`; `A` runs. -/
def orphan_5 : Kernel := (process_wait_reap orphan_4 0 1).state_or orphan_4

/-- Thread `A` has finished `process_exit`. -/
def orphan_6 : Kernel := (process_exit_wait orphan_5 1).state_or orphan_5

/-- Thread `A` has died in `thread_exit` and its page is freed; `B` runs. -/
def orphan_7 : Kernel := (thread_exit_die orphan_6).state_or orphan_6

/-- Thread `B` has entered user mode. -/
def orphan_8 : Kernel := (start_process_finish orphan_7 2 true).state_or orphan_7

/-- Thread `B`, whose parent `A` is dead, has called `exit (5)` and signalled its exit
rendezvous; `P` runs. -/
def orphan_9 : Kernel := (exit orphan_8 5).state_or orphan_8

/-- Thread `P` has yielded and `B` continues `process_exit` at the `sema_down`. -/
def orphan_10 : Kernel := (thread_yield orphan_9).getD orphan_9

/-- The initial thread has opened two files, with handles 100 and 101. -/
def files_open : Kernel :=
  (open_loop (open_loop booted 0 100 125 3).2 0 101 125 3).2

/-- Thread `B` sleeps on its reaped rendezvous. -/
def orphan_11 : Kernel := (process_exit_wait orphan_10 2).state_or orphan_10

/-! ## `threads/thread.c`: `thread_set_priority` and `thread_set_nice` -/

/-- The function `thread_set_priority (new_priority)`; `thread_mlfqs` is the global flag set
by the kernel command line option `-mlfqs`.  Nothing happens when the flag is set. -/
def thread_set_priority (thread_mlfqs : Bool) (k : Kernel) (new_priority : Int) :
    Option Kernel :=
  if thread_mlfqs = false then
    match thread_current k with
    | none => none
    | some threadofcur =>
      let priority := (k.threads threadofcur).priority
      let k1 := set_thread k threadofcur (fun t => { t with priority := new_priority })
      if priority > new_priority then thread_yield k1 else some k1
  else some k

/-- The function `thread_set_nice (nice)`: stores the niceness, evaluates the priority
expression with its clamp, and hands the result to `thread_set_priority`. -/
def thread_set_nice (thread_mlfqs : Bool) (k : Kernel) (nice : Int) : Option Kernel :=
  match thread_current k with
  | none => none
  | some threadofcur =>
    let k1 := set_thread k threadofcur (fun t => { t with nice := nice })
    match aging_priority (k1.threads threadofcur).recent_cpu (k1.threads threadofcur).nice with
    | none => none
    | some secondpr => thread_set_priority thread_mlfqs k1 secondpr

/-- The child of `child_running` has called `thread_set_nice (5)` in feedback mode. -/
def nice_example : Kernel := (thread_set_nice true child_running 5).getD child_running

/-! ## `userprog/syscall.c`: pointers and descriptors -/

/-- The collaborators of `check_add`: the two address tests of `threads/vaddr.h` and the
test `pagedir_get_page (pd, address) != NULL` of `userprog/pagedir.c`. -/
structure Paging where
  is_user_vaddr : Nat → Bool
  is_kernel_vaddr : Nat → Bool
  pagedir_get_page : Option Nat → Nat → Bool

/-- The outcome of a call that does not return (`exit`) as the outcome of its caller; the
`NOT_REACHED ()` that follows it is a failed assertion. -/
def Outcome.no_return {α β : Type} (o : Outcome α) : Outcome β :=
  match o with
  | .returned _ _ => .panic
  | .blocked k => .blocked k
  | .switched k => .switched k
  | .exited k => .exited k
  | .panic => .panic

/-- The function `syscall_init`; the registration of the interrupt handler is not
modelled. -/
def syscall_init (k : Kernel) : Kernel := lock_init k lockflag

/-- The function `check_add (address)`: returns when the address is a mapped user address
of the caller, and calls `exit (-1)` otherwise. -/
def check_add (m : Paging) (k : Kernel) (address : Nat) : Outcome Unit :=
  match thread_current k with
  | none => .panic
  | some thrmin =>
    if m.is_user_vaddr address && !m.is_kernel_vaddr address
        && m.pagedir_get_page (k.threads thrmin).pagedir address then
      .returned () k
    else exit k (-1)

/-- The function `write (fd, buffer, size)` for a descriptor inside the table; `file_wir`
is the result of `file_write`.  When the `thread_yield` inside `lock_release` hands the CPU
to another thread before the `exit (-1)` of the empty slot, the outcome is `switched`. -/
def write (m : Paging) (k : Kernel) (fd buffer size : Nat) (file_wir : Int) : Outcome Int :=
  match thread_current k with
  | none => .panic
  | some thread_cur =>
    match check_add m k buffer with
    | .returned _ k1 =>
      match lock_acquire k1 lockflag with
      | .returned _ k2 =>
        if fd = 1 then
          match lock_release (log k2 (.putbuf buffer size)) lockflag with
          | none => .panic
          | some k3 => .returned (size : Int) k3
        else
          match (k2.threads thread_cur).fd fd with
          | none =>
            match lock_release k2 lockflag with
            | none => .panic
            | some k3 =>
              if k3.running = thread_cur then (exit k3 (-1)).no_return else .switched k3
          | some f =>
            match lock_release (log k2 (.file_write f buffer size)) lockflag with
            | none => .panic
            | some k3 => .returned file_wir k3
      | .blocked k2 => .blocked k2
      | .switched k2 => .switched k2
      | .exited k2 => .exited k2
      | .panic => .panic
    | .blocked k1 => .blocked k1
    | .switched k1 => .switched k1
    | .exited k1 => .exited k1
    | .panic => .panic

/-- The function `filesize (fd)` for a descriptor inside the table; `len` is the result of
`file_length`. -/
def filesize (k : Kernel) (fd : Nat) (len : Int) : Outcome Int :=
  match thread_current k with
  | none => .panic
  | some cur => .returned len (log k (.file_length ((k.threads cur).fd fd)))

/-- The function `seek (fd, position)` for a descriptor inside the table. -/
def seek (k : Kernel) (fd position : Nat) : Outcome Unit :=
  match thread_current k with
  | none => .panic
  | some cur => .returned () (log k (.file_seek ((k.threads cur).fd fd) position))

/-- The function `tell (fd)` for a descriptor inside the table; `pos` is the result of
`file_tell`. -/
def tell (k : Kernel) (fd : Nat) (pos : Nat) : Outcome Nat :=
  match thread_current k with
  | none => .panic
  | some cur => .returned pos (log k (.file_tell ((k.threads cur).fd fd)))

/-- The state after `thread_init` and `syscall_init`. -/
def sys_booted : Kernel := syscall_init booted

/-- The initial thread has received tid 2 from `process_execute`; the child is on page 1. -/
def sys_exec : Kernel := (process_execute sys_booted (some 9) true (some 1)).state_or sys_booted

/-- The initial thread sleeps in `process_wait (2)` and the child runs. -/
def sys_parent_waits : Kernel := (process_wait sys_exec 2).state_or sys_exec

/-- The child has loaded its program with page directory 5 and is in user mode, with no
file open. -/
def user_running : Kernel :=
  (start_process sys_parent_waits 9 (some 5) true).state_or sys_parent_waits

/-- An address space with one mapped page, at `0x08048000`, below `PHYS_BASE = 0xc0000000`. -/
def one_page : Paging :=
  { is_user_vaddr := fun a => decide (a < 3221225472),
    is_kernel_vaddr := fun a => decide (3221225472 ≤ a),
    pagedir_get_page := fun pd a => pd.isSome && decide (134512640 ≤ a ∧ a < 134516736) }

/-! ## A ready list out of priority order -/

/-- The function `sema_try_down (sema)`: decrements a positive count and reports whether it
did. -/
def sema_try_down (k : Kernel) (sema : sema_ref) : Bool × Kernel :=
  let s := k.semas sema
  if s.value > 0 then (true, set_sema k sema { s with value := s.value - 1 })
  else (false, k)

/-- The function `lock_try_acquire (lock)`; `none` is a failed assertion. -/
def lock_try_acquire (k : Kernel) (l : Nat) : Option (Bool × Kernel) :=
  match lock_held_by_current_thread k l with
  | none => none
  | some true => none
  | some false =>
    let (success, k1) := sema_try_down k (.lock l)
    if success then
      match thread_current k1 with
      | none => none
      | some cur =>
        some (true, { k1 with holder := fun x => if x = l then some cur else k1.holder x })
    else some (false, k1)

/-- The child list example with a lock at address 5 after `lock_init`. -/
def lock_example : Kernel := lock_init child_ready 5

/-! ## Sequences of `lock_try_acquire` and `lock_release` calls -/

/-- One step in the life of the lock `l`: a `lock_try_acquire` or a `lock_release` by the
running thread that passes its assertions, or anything else that leaves the semaphore and
the holder of the lock alone (as a switch to another thread does). -/
inductive lock_step (l : Nat) : Kernel → Kernel → Prop where
  | try_acquire (k k1 : Kernel) (success : Bool) :
      lock_try_acquire k l = some (success, k1) → lock_step l k k1
  | release (k k1 : Kernel) :
      lock_release k l = some k1 → lock_step l k k1
  | other (k k1 : Kernel) :
      k1.semas (.lock l) = k.semas (.lock l) → k1.holder l = k.holder l → lock_step l k k1

/-- The states reached from a `lock_init (l)` by steps of `lock_step`. -/
inductive lock_reachable (l : Nat) : Kernel → Prop where
  | init (k : Kernel) : lock_reachable l (lock_init k l)
  | step (k k1 : Kernel) : lock_reachable l k → lock_step l k k1 → lock_reachable l k1

/-- The lock example after a successful `lock_try_acquire` by the initial thread. -/
def lock_taken : Kernel :=
  ((lock_try_acquire lock_example 5).map Prod.snd).getD lock_example

/-- The lock `l` is consistent: its count is 0 or 1, the count is 0 exactly when a holder
is recorded, and no thread waits for it. -/
def lock_consistent (k : Kernel) (l : Nat) : Prop :=
  ((k.semas (.lock l)).value = 0 ∨ (k.semas (.lock l)).value = 1) ∧
  ((k.semas (.lock l)).value = 0 ↔ ∃ t, k.holder l = some t) ∧
  (k.semas (.lock l)).waiters = []

/-! ## `threads/synch.c`: condition variables -/

/-- The function `cond_signal (cond, lock)`.  The list `cond->waiters` is passed as the
list `waiters` of the addresses of its `semaphore_elem` members, front first; the semaphore
of the element at address `a` is `.cell a`.  The result holds the state and the list after
the call (when the `sema_up` hands the CPU to another thread, the state right after the
switch); `none` is a failed assertion. -/
def cond_signal (k : Kernel) (waiters : List Nat) (l : Nat) : Option (Kernel × List Nat) :=
  match lock_held_by_current_thread k l with
  | some true =>
    match waiters with
    | [] => some (k, [])
    | front :: rest =>
      match sema_up k (.cell front) with
      | none => none
      | some k1 => some (k1, rest)
  | _ => none

/-- How a `cond_broadcast` goes on for its caller. -/
inductive Broadcast where
  /-- The loop has ended; `k` is the state at the return. -/
  | finished (k : Kernel)
  /-- The caller lost the CPU in the `thread_yield` of a `sema_up` with `waiters` still
  queued; `k` is the state after the switch.  When the caller runs again the loop goes on
  with these waiters. -/
  | switched (k : Kernel) (waiters : List Nat)
  /-- An `ASSERT` failed. -/
  | panic

/-- The function `cond_broadcast (cond, lock)`: the `while` loop with at most `fuel` tests
of its condition; `none` when the fuel runs out. -/
def cond_broadcast : Nat → Kernel → List Nat → Nat → Option Broadcast
  | 0, _, _, _ => none
  | fuel + 1, k, waiters, l =>
    match waiters with
    | [] => some (.finished k)
    | _ :: _ =>
      match cond_signal k waiters l with
      | none => some .panic
      | some (k1, waiters1) =>
        if k1.running = k.running then cond_broadcast fuel k1 waiters1 l
        else some (.switched k1 waiters1)

/-- The state `three_waiters` with the lock 5 held by the initial thread and a condition
variable with two elements, at addresses 10 and 11, on whose semaphores the threads 1 and 2
wait. -/
def cond_example : Kernel :=
  { three_waiters with
    semas := fun r =>
      if r = .cell 10 then { value := 0, waiters := [1] }
      else if r = .cell 11 then { value := 0, waiters := [2] }
      else three_waiters.semas r
    holder := fun x => if x = 5 then some 0 else three_waiters.holder x }

/-! ## `userprog/process.c`: `calculate_esp` -/

/-- Pointer subtraction on 32-bit addresses. -/
def sub32 (a n : Nat) : Nat := (4294967296 + a - n % 4294967296) % 4294967296

/-- User memory after the bytes `bs` are written from address `a` on. -/
def store_bytes (mem : Nat → Nat) (a : Nat) (bs : List Nat) : Nat → Nat :=
  fun x => if a ≤ x ∧ x < a + bs.length then bs.getD (x - a) 0 else mem x

/-- The assignment `**(unsigned int **) esp = v`: four bytes, least significant first. -/
def store_word (mem : Nat → Nat) (a v : Nat) : Nat → Nat :=
  store_bytes mem a [v % 256, v / 256 % 256, v / 65536 % 256, v / 16777216 % 256]

/-- The 32-bit word at address `a`. -/
def load_word (mem : Nat → Nat) (a : Nat) : Nat :=
  mem a + 256 * mem (a + 1) + 65536 * mem (a + 2) + 16777216 * mem (a + 3)

/-- Modelled from the spec: the library function `strtok_r (s, " ", &save)` of
`lib/string.c` is not among the sources.  `s` is the text from the scan position to its end;
the call skips the leading spaces, returns `none` (`NULL`) when nothing is left, and
otherwise returns the token that runs to the next space or to the end, together with the
text after the space it overwrites with a terminator (the new scan position). -/
def strtok_r (s : List Nat) : Option (List Nat × List Nat) :=
  match s.dropWhile (fun c => c == 32) with
  | [] => none
  | c :: cs =>
    some ((c :: cs).takeWhile (fun c => c != 32), ((c :: cs).dropWhile (fun c => c != 32)).drop 1)

/-- The `while` loop of `calculate_esp` (process.c 350-354) that counts the tokens:
`cmd_in1` is the last result of `strtok_r`; `none` when the fuel runs out. -/
def count_tokens : Nat → Option (List Nat × List Nat) → Nat → Option Nat
  | _, none, argc => some argc
  | 0, some _, _ => none
  | fuel + 1, some (_, save), argc => count_tokens fuel (strtok_r save) (argc + 1)

/-- The `for` loop of `calculate_esp` (process.c 360-365) that fills `argv`, with `n`
iterations left: the tokens stored, in order. -/
def collect_tokens : Nat → Option (List Nat × List Nat) → List (List Nat)
  | 0, _ => []
  | _ + 1, none => []
  | n + 1, some (token, save) => token :: collect_tokens n (strtok_r save)

/-- The `for` loop of `calculate_esp` (process.c 367-374) over the arguments still to be
copied, last argument first: each is copied with its terminator below the stack pointer.
The result holds the stack pointer, the memory, `total_lengh`, and the addresses of the
copies in the order they were made. -/
def push_strings : List (List Nat) → Nat → (Nat → Nat) → Nat → Nat × (Nat → Nat) × Nat × List Nat
  | [], esp, mem, total_lengh => (esp, mem, total_lengh, [])
  | arg :: rest, esp, mem, total_lengh =>
    let length := arg.length + 1
    let esp1 := sub32 esp length
    let r := push_strings rest esp1 (store_bytes mem esp1 (arg ++ [0])) (total_lengh + length)
    (r.1, r.2.1, r.2.2.1, esp1 :: r.2.2.2)

/-- The `for` loop of `calculate_esp` (process.c 382-385) over the addresses still to be
pushed, the address of the last argument first. -/
def push_words : List Nat → Nat → (Nat → Nat) → Nat × (Nat → Nat)
  | [], esp, mem => (esp, mem)
  | w :: ws, esp, mem => push_words ws (sub32 esp 4) (store_word mem (sub32 esp 4) w)

/-- The alignment step of `calculate_esp` (process.c 376-377). -/
def align_stack (esp total_lengh : Nat) : Nat :=
  if total_lengh % 4 ≠ 0 then sub32 esp (4 - total_lengh % 4) else esp

/-- The last three pushes of `calculate_esp` (process.c 387-394): the address of `argv[0]`
(the stack pointer before this push), `argc`, and a null return address. -/
def push_header (argc esp : Nat) (mem : Nat → Nat) : Nat × (Nat → Nat) :=
  let esp5 := sub32 esp 4
  let mem5 := store_word mem esp5 ((esp5 + 4) % 4294967296)
  let esp6 := sub32 esp5 4
  let mem6 := store_word mem5 esp6 (argc % 4294967296)
  let esp7 := sub32 esp6 4
  (esp7, store_word mem6 esp7 0)

/-- The lines of `calculate_esp` that build the stack (process.c 367-394) from `argc` and
the elements of `argv`: the copies of the arguments, the alignment, the null word, the
addresses of the copies, and the three last words. -/
def stack_frame (argc : Nat) (argv : List (List Nat)) (esp : Nat) (mem : Nat → Nat) :
    Nat × (Nat → Nat) :=
  let r := push_strings argv.reverse esp mem 0
  let esp3 := sub32 (align_stack r.1 r.2.2.1) 4
  let w := push_words r.2.2.2 esp3 (store_word r.2.1 esp3 0)
  push_header argc w.1 w.2

/-- The function `calculate_esp (file_name, esp)`: `file_name` holds the bytes of the
command line before its terminator, `esp` is `*esp` at the call and `mem` the user memory.
The result is `*esp` and the memory at the return; `none` when the command line does not
fit the 256 bytes of `command`, when an element of `argv` is read that was never stored, or
when the fuel of the counting loop runs out. -/
def calculate_esp (fuel : Nat) (file_name : List Nat) (esp : Nat) (mem : Nat → Nat) :
    Option (Nat × (Nat → Nat)) :=
  if 256 ≤ file_name.length then none
  else
    match count_tokens fuel (strtok_r file_name) 0 with
    | none => none
    | some argc =>
      let argv := collect_tokens argc (strtok_r file_name)
      if argv.length ≠ argc then none
      else some (stack_frame argc argv esp mem)

/-- The command line made of the token `first` and, for each pair of `more`, one space,
`p.1` further spaces and the token `p.2`. -/
def command_line (first : List Nat) (more : List (Nat × List Nat)) : List Nat :=
  first ++ (more.map (fun p => List.replicate (p.1 + 1) 32 ++ p.2)).flatten

/-- The rest of `command_line first more` after the space that ends a token, when `more`
is still to come. -/
def after_token (more : List (Nat × List Nat)) : List Nat :=
  ((more.map (fun p => List.replicate (p.1 + 1) 32 ++ p.2)).flatten).drop 1

/-- The tokens of `command_line first more`. -/
def tokens_of (first : List Nat) (more : List (Nat × List Nat)) : List (List Nat) :=
  first :: more.map Prod.snd

/-- A token: not empty, made of bytes other than the space and the terminator. -/
def is_token (arg : List Nat) : Prop :=
  arg ≠ [] ∧ ∀ c ∈ arg, c ≠ 32 ∧ c ≠ 0 ∧ c < 256

/-- The memory holds the bytes of `arg` from address `a` on, followed by a terminator. -/
def is_cstring (mem : Nat → Nat) (a : Nat) (arg : List Nat) : Prop :=
  (∀ j, j < arg.length → mem (a + j) = arg.getD j 0) ∧ mem (a + arg.length) = 0

/-- The bytes of `"prog arg1  x"`. -/
def prog_line : List Nat := command_line [112, 114, 111, 103] [(0, [97, 114, 103, 49]), (1, [120])]

/-- The bytes the copies of the arguments take, terminators included. -/
def strings_size (args : List (List Nat)) : Nat :=
  (args.map (fun arg => arg.length + 1)).sum

/-! ## The order in which threads became ready -/

/-- A scheduler state together with a record of when each thread last entered the ready
list: `clock` counts the entries so far, and `since t` is the count at the last entry of
`t`. -/
structure Timed where
  k : Kernel
  clock : Nat
  since : Nat → Nat

/-- The record after thread `t` has entered the ready list. -/
def Timed.enter (s : Timed) (t : Nat) : Timed :=
  { s with clock := s.clock + 1, since := fun x => if x = t then s.clock else s.since x }

/-- The record with the kernel state replaced. -/
def Timed.move (s : Timed) (k1 : Kernel) : Timed := { s with k := k1 }

/-- One call made by the running thread, with the record of the entries in the ready list
the call makes, in the order in which it makes them: the caller enters it in a
`thread_yield` (inside `allocate_tid`, at the end of `thread_create`, in
`thread_set_priority`), a thread enters it in `thread_unblock`.  An entry is also recorded
for a caller that skips the `thread_yield` at the end of `thread_create` or in
`thread_set_priority`; the caller is not in the ready list then and gets a new entry
before it is.  `thread_aging` is a step only when `with_aging` is set. -/
inductive timed_step (thread_mlfqs with_aging : Bool) : Timed → Timed → Prop where
  | create_failed (s : Timed) (k1 : Kernel) (priority tid : Int) :
      thread_create s.k none priority = .returned tid k1 →
      timed_step thread_mlfqs with_aging s (s.move k1)
  | create (s : Timed) (k1 : Kernel) (t : Nat) (priority tid : Int) :
      t ∉ s.k.all_list → thread_create s.k (some t) priority = .returned tid k1 →
      timed_step thread_mlfqs with_aging s
        ((((s.enter s.k.running).enter t).enter s.k.running).move k1)
  | create_switched (s : Timed) (k1 : Kernel) (t : Nat) (priority : Int) :
      t ∉ s.k.all_list → thread_create s.k (some t) priority = .switched k1 →
      timed_step thread_mlfqs with_aging s ((s.enter s.k.running).move k1)
  | create_resumed (s : Timed) (k1 : Kernel) (t : Nat) (tid : Int) :
      thread_create_finish s.k t tid (s.k.threads t).priority = .returned tid k1 →
      timed_step thread_mlfqs with_aging s (((s.enter t).enter s.k.running).move k1)
  | block (s : Timed) (k1 : Kernel) :
      thread_block s.k = some k1 → timed_step thread_mlfqs with_aging s (s.move k1)
  | unblock (s : Timed) (k1 : Kernel) (t : Nat) :
      thread_unblock s.k t = some k1 →
      timed_step thread_mlfqs with_aging s ((s.enter t).move k1)
  | yield (s : Timed) (k1 : Kernel) :
      thread_yield s.k = some k1 →
      timed_step thread_mlfqs with_aging s ((s.enter s.k.running).move k1)
  | set_priority (s : Timed) (k1 : Kernel) (new_priority : Int) :
      thread_set_priority thread_mlfqs s.k new_priority = some k1 →
      timed_step thread_mlfqs with_aging s ((s.enter s.k.running).move k1)
  | aging (s : Timed) (k1 : Kernel) (mode : Int) :
      with_aging = true → thread_aging s.k mode = some k1 →
      timed_step thread_mlfqs with_aging s (s.move k1)

/-- The states reached from the state `thread_init` leaves by calls of `timed_step`. -/
inductive timed_reachable (thread_mlfqs with_aging : Bool) : Timed → Prop where
  | init (page : Nat) (k0 : Kernel) :
      thread_init (boot_memory page) = .returned () k0 →
      timed_reachable thread_mlfqs with_aging { k := k0, clock := 0, since := fun _ => 0 }
  | step (s s1 : Timed) :
      timed_reachable thread_mlfqs with_aging s → timed_step thread_mlfqs with_aging s s1 →
      timed_reachable thread_mlfqs with_aging s1

/-- Thread `a` goes before thread `b`: it has a strictly higher priority, or the same
priority and an earlier entry in the ready list. -/
def fifo_order (s : Timed) (a b : Nat) : Prop :=
  (s.k.threads b).priority < (s.k.threads a).priority ∨
    ((s.k.threads b).priority = (s.k.threads a).priority ∧ s.since a < s.since b)

/-- What `next_thread_to_run` is to do in the state `s`: with an empty ready list it returns
the idle thread and leaves the state unchanged; otherwise it removes and returns the front
of the ready list, no remaining thread has a higher priority, and every remaining thread of
equal priority entered the ready list later. -/
def picks_first (s : Timed) : Prop :=
  (s.k.ready_list = [] → next_thread_to_run s.k = (s.k.idle_thread, s.k)) ∧
  (∀ h rest, s.k.ready_list = h :: rest →
    next_thread_to_run s.k = (some h, { s.k with ready_list := rest }) ∧
    ∀ x ∈ rest, (s.k.threads x).priority ≤ (s.k.threads h).priority ∧
      ((s.k.threads x).priority = (s.k.threads h).priority → s.since h < s.since x))

/-- The invariant behind `picks_first`: the scheduler invariant, every ready thread has an
entry before the current count, and the ready list is in `fifo_order`. -/
structure timed_ok (s : Timed) : Prop where
  sched : sched_ok s.k
  stamped : ∀ x ∈ s.k.ready_list, s.since x < s.clock
  fifo : s.k.ready_list.Pairwise (fifo_order s)

/-- The initial thread (priority 31) has created thread `L` (page 1) of priority 10. -/
def low_created : Kernel := (thread_create booted (some 1) 10).state_or booted

/-- The initial thread has then created thread `H` (page 2) of priority 20: the ready list
holds `H` in front of `L`. -/
def high_created : Kernel := (thread_create low_created (some 2) 20).state_or low_created

/-- The priorities have been recomputed by `thread_aging (1)`: 63 for all three threads. -/
def both_aged : Kernel := (thread_aging high_created 1).getD high_created

/-- The record at the state `thread_init` leaves. -/
def timed_0 : Timed := { k := booted, clock := 0, since := fun _ => 0 }

/-- The record after the creation of `L`. -/
def timed_1 : Timed :=
  (((timed_0.enter timed_0.k.running).enter 1).enter timed_0.k.running).move low_created

/-- The record after the creation of `H`. -/
def timed_2 : Timed :=
  (((timed_1.enter timed_1.k.running).enter 2).enter timed_1.k.running).move high_created

/-- The record after the recomputation of the priorities. -/
def timed_3 : Timed := timed_2.move both_aged

/-! ## Further example states -/

/-- The initial thread of `high_created` has called `thread_set_priority (20)` in static
mode. -/
def lowered_to_20 : Kernel := (thread_set_priority false high_created 20).getD high_created

/-- The initial thread of `child_ready` has called `thread_create` with priority 10 for a
new thread on page 2, and has lost the CPU inside `allocate_tid`. -/
def create_lost_cpu : Kernel := (thread_create child_ready (some 2) 10).state_or child_ready

/-! ## The static-priority operations on the ready list -/

/-- The ready list is ordered by non-increasing priority. -/
def ready_sorted (k : Kernel) : Prop :=
  k.ready_list.Pairwise (fun a b => (k.threads b).priority ≤ (k.threads a).priority)

/-- No thread of the ready list has a priority above that of its front thread. -/
def head_maximal (k : Kernel) : Prop :=
  ∀ front rest, k.ready_list = front :: rest →
    ∀ x ∈ k.ready_list, (k.threads x).priority ≤ (k.threads front).priority

/-- One call of an operation that touches the ready list in static mode: `thread_unblock`,
`thread_yield`, `next_thread_to_run` (which pops the front of the list), or
`thread_set_priority` with `thread_mlfqs` clear. -/
inductive static_step : Kernel → Kernel → Prop where
  | unblock (k k1 : Kernel) (t : Nat) :
      thread_unblock k t = some k1 → static_step k k1
  | yield (k k1 : Kernel) :
      thread_yield k = some k1 → static_step k k1
  | next_thread (k : Kernel) :
      static_step k (next_thread_to_run k).2
  | set_priority (k k1 : Kernel) (new_priority : Int) :
      thread_set_priority false k new_priority = some k1 → static_step k k1

/-- The states reached by `static_step` from a state with a well-formed running thread and
a ready list of distinct ready threads ordered by non-increasing priority; the empty ready
list `thread_init` leaves is one such list. -/
inductive static_reachable : Kernel → Prop where
  | init (k : Kernel) :
      running_ok k → ready_ok k → k.ready_list.Nodup → ready_sorted k → static_reachable k
  | step (k k1 : Kernel) :
      static_reachable k → static_step k k1 → static_reachable k1

/-- The invariant of the static-priority operations. -/
structure static_ok (k : Kernel) : Prop where
  run : running_ok k
  ready : ready_ok k
  nodup : k.ready_list.Nodup
  sorted : ready_sorted k

/-! ## `thread_start`, the idle thread, and the reachable states of the scheduler -/

/-- The function `thread_start` (thread.c 92-102): creates the idle thread with priority
`PRI_MIN` and waits on the local semaphore `start_idle` for it to initialise `idle_thread`.
`start_idle` is the address of the semaphore and `page` the result of the page allocation
in `thread_create`, whose return value is ignored. -/
def thread_start (k : Kernel) (start_idle : Nat) (page : Option Nat) : Outcome Unit :=
  let k1 := sema_init k (.cell start_idle) 0
  match thread_create k1 page PRI_MIN with
  | .returned _ k2 => sema_down k2 (.cell start_idle)
  | .blocked k2 => .blocked k2
  | .switched k2 => .switched k2
  | .exited k2 => .exited k2
  | .panic => .panic

/-- The function `idle` (thread.c 284-309) up to its loop: the idle thread records itself
in `idle_thread` and signals `idle_started`.  The loop that follows calls `thread_block`
each time the idle thread runs again. -/
def idle (k : Kernel) (idle_started : Nat) : Option Kernel :=
  match thread_current k with
  | none => none
  | some cur => sema_up { k with idle_thread := some cur } (.cell idle_started)

/-- The state an outcome ends in, if the call did not fail an assertion. -/
def Outcome.state {α : Type} (o : Outcome α) : Option Kernel :=
  match o with
  | .returned _ k1 => some k1
  | .blocked k1 => some k1
  | .switched k1 => some k1
  | .exited k1 => some k1
  | .panic => none

/-- Two states agree on everything the scheduler reads to pick a thread: the status and the
magic number of every control block, the ready list, the all-threads list, the running
thread and `idle_thread`. -/
def same_queue (k k1 : Kernel) : Prop :=
  (∀ t, (k1.threads t).status = (k.threads t).status ∧
    (k1.threads t).magic = (k.threads t).magic) ∧
  k1.ready_list = k.ready_list ∧ k1.all_list = k.all_list ∧ k1.running = k.running ∧
  k1.idle_thread = k.idle_thread

/-- One step of the kernel after `thread_init`: a call of `thread_start`, the start of the
idle thread (once, while `idle_thread` is still null), `thread_create` on a fresh page or
with a failed allocation, the rest of `thread_create` for a creator that lost the CPU
inside `allocate_tid`, `thread_block`, `thread_unblock`, `thread_yield` (by any thread, the
idle thread included), `sema_up`, `sema_down`, or any other statements that leave the data
of `same_queue` as they are.  A call that blocks or loses the CPU ends the step in the
state after the switch. -/
inductive queue_step : Kernel → Kernel → Prop where
  | start (k k1 : Kernel) (start_idle : Nat) (page : Option Nat) :
      (∀ t, page = some t → t ∉ k.all_list) →
      (thread_start k start_idle page).state = some k1 → queue_step k k1
  | idle (k k1 : Kernel) (idle_started : Nat) :
      k.idle_thread = none → idle k idle_started = some k1 → queue_step k k1
  | create (k k1 : Kernel) (page : Option Nat) (priority : Int) :
      (∀ t, page = some t → t ∉ k.all_list) →
      (thread_create k page priority).state = some k1 → queue_step k k1
  | create_resumed (k k1 : Kernel) (t : Nat) (tid priority : Int) :
      (thread_create_finish k t tid priority).state = some k1 → queue_step k k1
  | block (k k1 : Kernel) :
      thread_block k = some k1 → queue_step k k1
  | unblock (k k1 : Kernel) (t : Nat) :
      thread_unblock k t = some k1 → queue_step k k1
  | yield (k k1 : Kernel) :
      thread_yield k = some k1 → queue_step k k1
  | sema_up (k k1 : Kernel) (sema : sema_ref) :
      sema_up k sema = some k1 → queue_step k k1
  | sema_down (k k1 : Kernel) (sema : sema_ref) :
      (sema_down k sema).state = some k1 → queue_step k k1
  | other (k k1 : Kernel) :
      same_queue k k1 → queue_step k k1

/-- The states reached from the state `thread_init` leaves (on any boot page) by a sequence
of steps of `queue_step`. -/
inductive queue_reachable : Kernel → Prop where
  | init (page : Nat) (k0 : Kernel) :
      thread_init (boot_memory page) = .returned () k0 → queue_reachable k0
  | step (k k1 : Kernel) :
      queue_reachable k → queue_step k k1 → queue_reachable k1

/-- The invariant that relates the ready list to the thread states: the running thread and
the ready list are well formed, the ready list has no repetition, every control block is in
`all_list`, every ready thread of `all_list` other than the idle thread is in the ready
list, and the running thread is the only thread of `all_list` in state running. -/
structure queue_ok (k : Kernel) : Prop where
  run : running_ok k
  ready : ready_ok k
  nodup : k.ready_list.Nodup
  registered : ∀ t, is_thread k t = true → t ∈ k.all_list
  complete : ∀ t ∈ k.all_list, some t ≠ k.idle_thread →
    (k.threads t).status = .THREAD_READY → t ∈ k.ready_list
  single : ∀ t ∈ k.all_list, (k.threads t).status = .THREAD_RUNNING → t = k.running

/-- The initial thread has called `thread_start` (semaphore at address 0, idle thread on
page 1) and sleeps in its `sema_down`; the idle thread runs. -/
def start_blocked : Kernel := (thread_start booted 0 (some 1)).state_or booted

/-- The idle thread has set `idle_thread` and signalled the semaphore; the `thread_yield`
of `sema_up` has given the CPU back to the initial thread. -/
def idle_yielded : Kernel := (idle start_blocked 0).getD start_blocked

/-- The initial thread has completed its `sema_down`: `thread_start` has returned. -/
def started : Kernel := (sema_down idle_yielded (.cell 0)).state_or idle_yielded

/-! # Theorems -/

/-! ## Memory updates -/

@[simp] theorem set_thread_threads_same (k : Kernel) (t : Nat) (f : thread → thread) :
    (set_thread k t f).threads t = f (k.threads t) := by
  simp [set_thread]

theorem set_thread_threads_other (k : Kernel) (t x : Nat) (f : thread → thread) (h : x ≠ t) :
    (set_thread k t f).threads x = k.threads x := by
  simp [set_thread, h]

@[simp] theorem set_sema_same (k : Kernel) (r : sema_ref) (s : semaphore) :
    (set_sema k r s).semas r = s := by
  simp [set_sema]

theorem set_sema_other (k : Kernel) (r x : sema_ref) (s : semaphore) (h : x ≠ r) :
    (set_sema k r s).semas x = k.semas x := by
  simp [set_sema, h]

/-! ## The scan of `sema_up` -/

theorem sema_up_scan_spec (k : Kernel) (rest : List Nat) :
    ∀ (pre : List Nat) (m0 i0 : Nat), first_max k pre i0 m0 →
      first_max k (pre ++ rest)
        (sema_up_scan k rest pre.length (m0, i0, (k.threads m0).priority)).2.1
        (sema_up_scan k rest pre.length (m0, i0, (k.threads m0).priority)).1 := by
  induction rest with
  | nil => intro pre m0 i0 h; simpa [sema_up_scan] using h
  | cons t rest ih =>
    intro pre m0 i0 h
    obtain ⟨hget, hmax, hlt⟩ := h
    have hi0 : i0 < pre.length := by
      rcases Nat.lt_or_ge i0 pre.length with h1 | h1
      · exact h1
      · rw [List.getElem?_eq_none h1] at hget; cases hget
    have hstep : pre ++ t :: rest = (pre ++ [t]) ++ rest := by simp
    have hlen : (pre ++ [t]).length = pre.length + 1 := by simp
    by_cases hgt : (k.threads t).priority > (k.threads m0).priority
    · have key := ih (pre ++ [t]) t pre.length (by
        refine ⟨by simp, ?_, ?_⟩
        · intro x hx
          rcases List.mem_append.1 hx with hx | hx
          · exact le_of_lt (lt_of_le_of_lt (hmax x hx) hgt)
          · simp at hx; subst hx; exact le_refl _
        · intro j x hj hx
          rw [List.getElem?_append_left hj] at hx
          exact lt_of_le_of_lt (hmax x (List.getElem?_mem hx)) hgt)
      rw [hlen] at key
      rw [hstep]
      simpa [sema_up_scan, hgt] using key
    · have key := ih (pre ++ [t]) m0 i0 (by
        refine ⟨by rw [List.getElem?_append_left hi0]; exact hget, ?_, ?_⟩
        · intro x hx
          rcases List.mem_append.1 hx with hx | hx
          · exact hmax x hx
          · simp at hx; subst hx; exact not_lt.1 hgt
        · intro j x hj hx
          rw [List.getElem?_append_left (lt_trans hj hi0)] at hx
          exact hlt j x hj hx)
      rw [hlen] at key
      rw [hstep]
      simpa [sema_up_scan, hgt] using key


/-! ## The scheduler -/

/-- The state after a switch to `n` with `rest` left in the ready list. -/
theorem schedule_cons (k : Kernel) (n : Nat) (rest : List Nat)
    (hl : k.ready_list = n :: rest) (hn : is_thread k n = true)
    (hs : (k.threads k.running).status ≠ .THREAD_RUNNING)
    (hd : (k.threads k.running).status ≠ .THREAD_DYING) :
    schedule k = some { set_thread { k with ready_list := rest, running := n } n
        (fun t => { t with status := .THREAD_RUNNING }) with thread_ticks := 0 } := by
  unfold schedule next_thread_to_run
  simp only [hl]
  simp only [hs, if_false]
  have hn2 : is_thread { k with ready_list := rest } n = true := hn
  simp only [hn2, if_true]
  unfold thread_schedule_tail
  by_cases hc : k.running = n
  · simp [hc]
  · simp [hc, set_thread, hd]

theorem schedule_nil (k : Kernel) (n : Nat)
    (hl : k.ready_list = []) (hi : k.idle_thread = some n) (hn : is_thread k n = true)
    (hs : (k.threads k.running).status ≠ .THREAD_RUNNING)
    (hd : (k.threads k.running).status ≠ .THREAD_DYING) :
    schedule k = some { set_thread { k with running := n } n
        (fun t => { t with status := .THREAD_RUNNING }) with thread_ticks := 0 } := by
  unfold schedule next_thread_to_run
  simp only [hl, hi]
  simp only [hs, if_false]
  simp only [hn, if_true]
  unfold thread_schedule_tail
  by_cases hc : k.running = n
  · simp [hc]
  · simp [hc, set_thread, hd]


theorem mem_list_insert_ordered (less : Nat → Nat → Bool) (l : List Nat) (a x : Nat) :
    x ∈ list_insert_ordered less l a ↔ x = a ∨ x ∈ l := by
  induction l with
  | nil => simp [list_insert_ordered]
  | cons e es ih =>
    unfold list_insert_ordered
    split
    · simp
    · simp [ih]; tauto

theorem list_insert_ordered_ne_nil (less : Nat → Nat → Bool) (l : List Nat) (a : Nat) :
    list_insert_ordered less l a ≠ [] := by
  cases l with
  | nil => simp [list_insert_ordered]
  | cons e es => unfold list_insert_ordered; split <;> simp

@[simp] theorem is_thread_set_status (k : Kernel) (t x : Nat) (s : thread_status) :
    is_thread (set_thread k t (fun y => { y with status := s })) x = is_thread k x := by
  unfold is_thread set_thread
  by_cases h : x = t <;> simp [h]

/-- The list the scheduler pops from in `thread_yield`. -/
theorem thread_yield_eq (k : Kernel) (hrun : running_ok k) (hready : ready_ok k)
    (l : List Nat)
    (hl : l = if some k.running ≠ k.idle_thread then
        list_insert_ordered (biggerprior k) k.ready_list k.running else k.ready_list) :
    (∀ n rest, l = n :: rest →
      thread_yield k = some { set_thread { set_thread k k.running
          (fun t => { t with status := .THREAD_READY }) with ready_list := rest, running := n } n
          (fun t => { t with status := .THREAD_RUNNING }) with thread_ticks := 0 }) ∧
    (l = [] →
      thread_yield k = some { set_thread (set_thread k k.running
          (fun t => { t with status := .THREAD_READY })) k.running
          (fun t => { t with status := .THREAD_RUNNING }) with thread_ticks := 0 }) := by
  obtain ⟨hr1, hr2⟩ := hrun
  have hcur : thread_current k = some k.running := by simp [thread_current, hr1, hr2]
  constructor
  · intro n rest hnr
    have hn : is_thread k n = true := by
      have : n ∈ l := by rw [hnr]; simp
      rw [hl] at this
      split at this
      · rcases (mem_list_insert_ordered _ _ _ _).1 this with h | h
        · rw [h]; exact hr1
        · exact (hready n h).1
      · exact (hready n this).1
    unfold thread_yield
    simp only [hcur]
    rw [schedule_cons _ n rest]
    · rfl
    · rw [← hnr, hl]; simp [set_thread]
    · simpa using hn
    · simp [set_thread]
    · simp [set_thread]
  · intro hnil
    have hidle : k.idle_thread = some k.running := by
      by_contra hne
      rw [if_pos (fun h => hne h.symm)] at hl
      exact list_insert_ordered_ne_nil _ _ _ (hl ▸ hnil)
    have hlist : (if some k.running ≠ k.idle_thread then
        list_insert_ordered (biggerprior k) k.ready_list k.running else k.ready_list)
        = k.ready_list := if_neg (by simp [hidle])
    have hrl : k.ready_list = [] := by
      rw [hlist] at hl
      rw [← hl]; exact hnil
    unfold thread_yield
    simp only [hcur, hlist]
    rw [schedule_nil _ k.running]
    · rfl
    · exact hrl
    · exact hidle
    · simpa using hr1
    · simp [set_thread]
    · simp [set_thread]


/-- What `thread_yield` leaves behind: `n` is the thread now running, `rest` the ready list. -/
theorem thread_yield_facts (k : Kernel) (hrun : running_ok k) (hready : ready_ok k) :
    ∃ k' n rest, thread_yield k = some k' ∧
      ((if some k.running ≠ k.idle_thread then
          list_insert_ordered (biggerprior k) k.ready_list k.running else k.ready_list)
          = n :: rest ∨
        (k.ready_list = [] ∧ k.idle_thread = some k.running ∧ n = k.running ∧ rest = [])) ∧
      (n = k.running ∨ n ∈ k.ready_list) ∧
      (∀ t ∈ rest, t = k.running ∨ t ∈ k.ready_list) ∧
      (∀ t ∈ k.ready_list, t = n ∨ t ∈ rest) ∧
      k'.running = n ∧ k'.ready_list = rest ∧ k'.semas = k.semas ∧ k'.trace = k.trace ∧
      k'.idle_thread = k.idle_thread ∧ k'.all_list = k.all_list ∧
      k'.initial_thread = k.initial_thread ∧ k'.next_tid = k.next_tid ∧
      k'.holder = k.holder ∧ k'.averageloading = k.averageloading ∧
      k'.yield_on_return = k.yield_on_return ∧
      (∀ t, k'.threads t =
        if t = n then { k.threads t with status := .THREAD_RUNNING }
        else if t = k.running then { k.threads t with status := .THREAD_READY }
        else k.threads t) := by
  obtain ⟨h1, h2⟩ := thread_yield_eq k hrun hready _ rfl
  cases hl : (if some k.running ≠ k.idle_thread then
      list_insert_ordered (biggerprior k) k.ready_list k.running else k.ready_list) with
  | nil =>
    have hidle : k.idle_thread = some k.running := by
      by_contra hne
      rw [if_pos (fun h => hne h.symm)] at hl
      exact list_insert_ordered_ne_nil _ _ _ hl
    have hrl : k.ready_list = [] := by
      rw [if_neg (by simp [hidle])] at hl
      exact hl
    refine ⟨_, k.running, [], h2 hl, Or.inr ⟨hrl, hidle, rfl, rfl⟩, Or.inl rfl, ?_, ?_,
      rfl, ?_, rfl, rfl, rfl,
      rfl, rfl, rfl, rfl, rfl, rfl, ?_⟩
    · intro t ht; cases ht
    · intro t ht; rw [hrl] at ht; cases ht
    · simp [set_thread, hrl]
    · intro t
      by_cases ht : t = k.running <;> simp [set_thread, ht]
  | cons n rest =>
    have hmem : ∀ t, t ∈ n :: rest ↔ (t = k.running ∧ some k.running ≠ k.idle_thread) ∨
        t ∈ k.ready_list := by
      intro t
      rw [← hl]
      split
      · rename_i hc
        rw [mem_list_insert_ordered]
        constructor
        · rintro (h | h)
          · exact Or.inl ⟨h, hc⟩
          · exact Or.inr h
        · rintro (⟨h, -⟩ | h)
          · exact Or.inl h
          · exact Or.inr h
      · rename_i hc
        constructor
        · intro h; exact Or.inr h
        · rintro (⟨-, h⟩ | h)
          · exact absurd h hc
          · exact h
    refine ⟨_, n, rest, h1 n rest hl, Or.inl rfl, ?_, ?_, ?_, rfl, rfl, rfl, rfl, rfl, rfl,
      rfl, rfl, rfl, rfl, rfl, ?_⟩
    · rcases (hmem n).1 (by simp) with ⟨h, -⟩ | h
      · exact Or.inl h
      · exact Or.inr h
    · intro t ht
      rcases (hmem t).1 (List.mem_cons_of_mem _ ht) with ⟨h, -⟩ | h
      · exact Or.inl h
      · exact Or.inr h
    · intro t ht
      exact List.mem_cons.1 ((hmem t).2 (Or.inr ht))
    intro t
    clear h1 h2
    by_cases ht : t = n
    · subst ht
      by_cases hc : t = k.running
      · simp [set_thread, ← hc]
      · simp [set_thread, hc]
    · by_cases hc : t = k.running
      · subst hc; simp [set_thread, ht]
      · simp [set_thread, ht, hc]


theorem thread_unblock_eq (k : Kernel) (t : Nat) (h1 : is_thread k t = true)
    (h2 : (k.threads t).status = .THREAD_BLOCKED) :
    thread_unblock k t = some (set_thread
      { k with ready_list := list_insert_ordered (biggerprior k) k.ready_list t } t
      (fun x => { x with status := .THREAD_READY })) := by
  simp [thread_unblock, h1, h2]

/-! ## `sema_up` -/

/-- The wake-up half of `sema_up` on a non-empty wait list. -/
theorem sema_up_wake_cons (k : Kernel) (sema : sema_ref) (hwait : waiters_ok k sema)
    (hne : (k.semas sema).waiters ≠ []) :
    ∃ i m, first_max k (k.semas sema).waiters i m ∧
      sema_up_wake k sema = some (set_thread
        { set_sema k sema { k.semas sema with
            waiters := (k.semas sema).waiters.eraseIdx i } with
          ready_list := list_insert_ordered (biggerprior k) k.ready_list m } m
        (fun x => { x with status := .THREAD_READY })) := by
  cases hws : (k.semas sema).waiters with
  | nil => exact absurd hws hne
  | cons first rest =>
    have hscan := sema_up_scan_spec k rest [first] first 0
      ⟨by simp, by simp, by intro j t hj; omega⟩
    simp only [List.length_singleton, List.singleton_append] at hscan
    refine ⟨_, _, hscan, ?_⟩
    have hm : (sema_up_scan k rest 1 (first, 0, (k.threads first).priority)).1 ∈
        (k.semas sema).waiters := by
      rw [hws]; exact List.getElem?_mem hscan.1
    obtain ⟨hm1, hm2⟩ := hwait _ hm
    unfold sema_up_wake
    simp only [hws]
    rw [thread_unblock_eq _ _ (by simpa [is_thread, set_sema] using hm1)
      (by simpa [set_sema] using hm2)]
    rfl


/-- The state after the wake-up half of `sema_up` on a non-empty wait list. -/
theorem sema_up_wake_facts (k : Kernel) (sema : sema_ref) (hwait : waiters_ok k sema)
    (hne : (k.semas sema).waiters ≠ []) :
    ∃ i m k1, first_max k (k.semas sema).waiters i m ∧
      sema_up_wake k sema = some k1 ∧
      (k1.threads m).status = .THREAD_READY ∧
      k1.ready_list = list_insert_ordered (biggerprior k) k.ready_list m ∧
      (∀ t, t ≠ m → k1.threads t = k.threads t) ∧
      (∀ t, is_thread k1 t = is_thread k t) ∧
      k1.running = k.running ∧
      k1.semas sema = { value := (k.semas sema).value,
                        waiters := (k.semas sema).waiters.eraseIdx i } ∧
      (∀ r, r ≠ sema → k1.semas r = k.semas r) := by
  obtain ⟨i, m, hfm, hwake⟩ := sema_up_wake_cons k sema hwait hne
  refine ⟨i, m, _, hfm, hwake, by simp [set_thread], rfl, ?_, ?_, rfl, ?_, ?_⟩
  · intro t ht; simp [set_thread, ht, set_sema]
  · intro t
    by_cases h : t = m
    · subst h; simp [is_thread, set_thread, set_sema]
    · simp [is_thread, set_thread, h, set_sema]
  · simp [set_thread, set_sema]
  · intro r hr; simp [set_thread, set_sema, hr]

/-- The second half of `sema_up`: the increment of the count and the `thread_yield`. -/
theorem sema_up_finish (k1 : Kernel) (sema : sema_ref)
    (hrun : running_ok k1) (hready : ready_ok k1) :
    ∃ k', thread_yield (sema_incr k1 sema) = some k' ∧
      k'.semas sema = { value := ((k1.semas sema).value + 1) % 4294967296,
                        waiters := (k1.semas sema).waiters } ∧
      (∀ r, r ≠ sema → k'.semas r = k1.semas r) ∧
      (∀ t, (k1.threads t).status = .THREAD_BLOCKED →
        (k'.threads t).status = .THREAD_BLOCKED) ∧
      (∀ m ∈ k1.ready_list,
        k'.running = m ∨ (m ∈ k'.ready_list ∧ (k'.threads m).status = .THREAD_READY)) := by
  have hrun2 : running_ok (sema_incr k1 sema) := hrun
  have hready2 : ready_ok (sema_incr k1 sema) := hready
  obtain ⟨k', n, rest, hy, -, hn, -, hrest, hrn, hrl, hsem, -, -, -, -, -, -, -, -, hth⟩ :=
    thread_yield_facts (sema_incr k1 sema) hrun2 hready2
  have hk : ∀ t, (sema_incr k1 sema).threads t = k1.threads t := fun _ => rfl
  have hkr : (sema_incr k1 sema).running = k1.running := rfl
  have hrl0 : (sema_incr k1 sema).ready_list = k1.ready_list := rfl
  rw [hkr, hrl0] at hn
  rw [hrl0] at hrest
  refine ⟨k', hy, ?_, ?_, ?_, ?_⟩
  · rw [hsem]; simp [sema_incr]
  · intro r hr; rw [hsem]; simp [sema_incr, set_sema, hr]
  · intro t ht
    have hne1 : t ≠ k1.running := by
      intro h; rw [h, hrun.2] at ht; cases ht
    have hne2 : t ≠ n := by
      intro h
      rcases hn with h2 | h2
      · exact hne1 (h.trans h2)
      · have := (hready n h2).2; rw [← h, ht] at this; cases this
    rw [hth t, if_neg hne2, hkr, if_neg hne1, hk]; exact ht
  · intro m hm
    by_cases hmn : m = n
    · left; rw [hrn, hmn]
    · right
      have hmr : m ∈ rest := by
        rcases hrest m hm with h | h
        · exact absurd h hmn
        · exact h
      refine ⟨by rw [hrl]; exact hmr, ?_⟩
      have hne1 : m ≠ k1.running := by
        intro h; have := (hready m hm).2; rw [h, hrun.2] at this; cases this
      rw [hth m, if_neg hmn, hkr, if_neg hne1, hk]; exact (hready m hm).2

/-- C1: `sema_up` on a non-empty wait list removes exactly the waiter of maximal priority that
was enqueued earliest, makes it ready, leaves all other waiters blocked and in their order,
and adds one to the count; on an empty wait list the semaphore only gains one count. -/
theorem sema_up_wakes_first_max (k : Kernel) (sema : sema_ref)
    (hrun : running_ok k) (hready : ready_ok k) (hwait : waiters_ok k sema)
    (hval : (k.semas sema).value + 1 < 4294967296) :
    ((k.semas sema).waiters = [] →
      ∃ k', sema_up k sema = some k' ∧
        k'.semas sema = { value := (k.semas sema).value + 1, waiters := [] } ∧
        (∀ r, r ≠ sema → k'.semas r = k.semas r) ∧
        (∀ t, (k.threads t).status = .THREAD_BLOCKED →
          (k'.threads t).status = .THREAD_BLOCKED)) ∧
    ((k.semas sema).waiters ≠ [] →
      ∃ i m k1 k', first_max k (k.semas sema).waiters i m ∧
        sema_up_wake (log k (.sema_up sema)) sema = some k1 ∧
        (k1.threads m).status = .THREAD_READY ∧
        k1.ready_list = list_insert_ordered (biggerprior k) k.ready_list m ∧
        (∀ t, t ≠ m → k1.threads t = k.threads t) ∧
        sema_up k sema = some k' ∧
        k'.semas sema = { value := (k.semas sema).value + 1,
                          waiters := (k.semas sema).waiters.eraseIdx i } ∧
        (∀ r, r ≠ sema → k'.semas r = k.semas r) ∧
        (∀ t, t ≠ m → (k.threads t).status = .THREAD_BLOCKED →
          (k'.threads t).status = .THREAD_BLOCKED) ∧
        (k'.running = m ∨ (m ∈ k'.ready_list ∧ (k'.threads m).status = .THREAD_READY))) := by
  have hmod : ((k.semas sema).value + 1) % 4294967296 = (k.semas sema).value + 1 :=
    Nat.mod_eq_of_lt hval
  constructor
  · intro hnil
    have hwake : sema_up_wake (log k (.sema_up sema)) sema = some (log k (.sema_up sema)) := by
      unfold sema_up_wake
      have : ((log k (.sema_up sema)).semas sema).waiters = [] := hnil
      simp only [this]
    obtain ⟨k', hy, hs1, hs2, hb, -⟩ :=
      sema_up_finish (log k (.sema_up sema)) sema hrun hready
    refine ⟨k', ?_, ?_, hs2, hb⟩
    · unfold sema_up; rw [hwake]; exact hy
    · rw [hs1]
      show ({ value := ((k.semas sema).value + 1) % 4294967296,
              waiters := (k.semas sema).waiters } : semaphore) = _
      rw [hmod, hnil]
  · intro hne
    obtain ⟨i, m, k1, hfm, hwake, hst, hrl, hth, hist, hrn, hsm, hso⟩ :=
      sema_up_wake_facts (log k (.sema_up sema)) sema hwait hne
    have hmw : m ∈ (k.semas sema).waiters := List.getElem?_mem hfm.1
    obtain ⟨hm1, hm2⟩ := hwait m hmw
    have hrunm : k.running ≠ m := by
      intro h; rw [← h, hrun.2] at hm2; cases hm2
    have hrun1 : running_ok k1 := by
      constructor
      · rw [hrn, hist]; exact hrun.1
      · rw [hrn]
        have := hth k.running hrunm
        rw [show (log k (.sema_up sema)).running = k.running from rfl, this]
        exact hrun.2
    have hready1 : ready_ok k1 := by
      intro t ht
      rw [hrl] at ht
      have ht2 : t = m ∨ t ∈ k.ready_list :=
        (mem_list_insert_ordered _ _ _ _).1 ht
      by_cases htm : t = m
      · subst htm
        exact ⟨by rw [hist]; exact hm1, hst⟩
      · rcases ht2 with h | h
        · exact absurd h htm
        · have := hready t h
          exact ⟨by rw [hist]; exact this.1, by rw [hth t htm]; exact this.2⟩
    obtain ⟨k', hy, hs1, hs2, hb, hrd⟩ := sema_up_finish k1 sema hrun1 hready1
    refine ⟨i, m, k1, k', hfm, hwake, hst, hrl, hth, ?_, ?_, ?_, ?_, ?_⟩
    · unfold sema_up; rw [hwake]; exact hy
    · rw [hs1, hsm]
      show ({ value := ((k.semas sema).value + 1) % 4294967296,
              waiters := (k.semas sema).waiters.eraseIdx i } : semaphore) = _
      rw [hmod]
    · intro r hr; rw [hs2 r hr, hso r hr]; rfl
    · intro t htm ht
      apply hb
      rw [hth t htm]; exact ht
    · apply hrd
      rw [hrl]
      exact (mem_list_insert_ordered _ _ _ _).2 (Or.inl rfl)

/-! ## Fixed-point arithmetic -/

theorem toInt32_of_range (x : Int) (h1 : -2147483648 ≤ x) (h2 : x < 2147483648) :
    toInt32 x = x := by
  unfold toInt32; omega

theorem toInt64_of_range (x : Int) (h1 : -9223372036854775808 ≤ x)
    (h2 : x < 9223372036854775808) : toInt64 x = x := by
  unfold toInt64; omega

theorem tdiv_pos_eq (a b : Int) (hb : 0 < b) :
    Int.tdiv a b = if 0 ≤ a then a / b else -((-a) / b) := by
  split
  · rename_i h; exact Int.tdiv_eq_ediv h (le_of_lt hb)
  · rename_i h
    have h2 := Int.neg_tdiv (-a) b
    rw [neg_neg] at h2
    rw [h2, Int.tdiv_eq_ediv (by omega) (le_of_lt hb)]

theorem CalculatefNumber_scale_add (a b : Int)
    (h1 : -2147483648 ≤ a * 16384) (h2 : a * 16384 < 2147483648)
    (h3 : -2147483648 ≤ a * 16384 + b) (h4 : a * 16384 + b < 2147483648) :
    CalculatefNumber a b 0 true = some (a * 16384 + b) := by
  simp [CalculatefNumber, toInt32_of_range _ h1 h2, toInt32_of_range _ h3 h4]

theorem CalculatefNumber_sub (a b : Int)
    (h1 : -2147483648 ≤ a - b) (h2 : a - b < 2147483648) :
    CalculatefNumber a b 1 false = some (a - b) := by
  simp [CalculatefNumber, toInt32_of_range _ h1 h2]

theorem CalculatefNumber_int_mul (a b : Int)
    (h1 : -2147483648 ≤ a * b) (h2 : a * b < 2147483648) :
    CalculatefNumber a b 2 true = some (a * b) := by
  simp [CalculatefNumber, toInt32_of_range _ h1 h2]

theorem CalculatefNumber_int_div (a b : Int) (ha : 0 < a)
    (h1 : -2147483648 ≤ b) (h2 : b < 2147483648) :
    CalculatefNumber a b 3 true = some (Int.tdiv b a) := by
  have hne : ¬ (a = 0 ∨ (b = -2147483648 ∧ a = -1)) := by omega
  have hr : toInt32 (Int.tdiv b a) = Int.tdiv b a := by
    apply toInt32_of_range
    · rcases le_or_lt 0 b with hb | hb
      · have := Int.tdiv_nonneg hb (le_of_lt ha); omega
      · have h := Int.neg_tdiv (-b) a
        rw [neg_neg] at h
        have h3 : (-b).tdiv a ≤ -b := by
          rw [Int.tdiv_eq_ediv (by omega) (le_of_lt ha)]
          exact Int.ediv_le_self _ (by omega)
        omega
    · rcases le_or_lt 0 b with hb | hb
      · have h3 : b.tdiv a ≤ b := by
          rw [Int.tdiv_eq_ediv hb (le_of_lt ha)]
          exact Int.ediv_le_self _ hb
        omega
      · have h := Int.neg_tdiv (-b) a
        rw [neg_neg] at h
        have := Int.tdiv_nonneg (show 0 ≤ -b by omega) (le_of_lt ha)
        omega
  simp [CalculatefNumber, int_div, hne, hr]


/-- The priority expression of `thread_aging` in closed form. -/
theorem aging_priority_eq (u n : Int) (hu1 : -2147483648 ≤ u) (hu2 : u < 2147483648)
    (hn1 : -20 ≤ n) (hn2 : n ≤ 20) :
    aging_priority u n =
      some (max 0 (min 63 (Int.tdiv (63 * 16384 - Int.tdiv u 4 - 2 * n * 16384) 16384))) := by
  have hq : Int.tdiv u 4 = if 0 ≤ u then u / 4 else -((-u) / 4) := tdiv_pos_eq u 4 (by omega)
  have hq1 : -536870912 ≤ Int.tdiv u 4 := by rw [hq]; split <;> omega
  have hq2 : Int.tdiv u 4 ≤ 536870912 := by rw [hq]; split <;> omega
  have e1 : CalculatefNumber PRI_MAX 0 0 true = some 1032192 := by
    rw [CalculatefNumber_scale_add] <;> simp [PRI_MAX]
  have e2 : CalculatefNumber 4 u 3 true = some (Int.tdiv u 4) :=
    CalculatefNumber_int_div 4 u (by omega) hu1 hu2
  have e3 : CalculatefNumber 1032192 (Int.tdiv u 4) 1 false = some (1032192 - Int.tdiv u 4) :=
    CalculatefNumber_sub _ _ (by omega) (by omega)
  have e4 : CalculatefNumber n 0 0 true = some (n * 16384) := by
    have := CalculatefNumber_scale_add n 0 (by omega) (by omega) (by omega) (by omega)
    simpa using this
  have e5 : CalculatefNumber 2 (n * 16384) 2 true = some (2 * (n * 16384)) :=
    CalculatefNumber_int_mul _ _ (by omega) (by omega)
  have e6 : CalculatefNumber (1032192 - Int.tdiv u 4) (2 * (n * 16384)) 1 false
      = some (1032192 - Int.tdiv u 4 - 2 * (n * 16384)) :=
    CalculatefNumber_sub _ _ (by omega) (by omega)
  have e7 : int_div (1032192 - Int.tdiv u 4 - 2 * (n * 16384)) 16384
      = some (Int.tdiv (1032192 - Int.tdiv u 4 - 2 * (n * 16384)) 16384) := by
    simp [int_div]
  have e8 : (63 : Int) * 16384 - Int.tdiv u 4 - 2 * n * 16384
      = 1032192 - Int.tdiv u 4 - 2 * (n * 16384) := by ring
  unfold aging_priority
  simp only [e1, e2, e3, e4, e5, e6, e7, e8, Option.bind_eq_bind, Option.some_bind]
  generalize Int.tdiv (1032192 - Int.tdiv u 4 - 2 * (n * 16384)) 16384 = q
  simp only [PRI_MAX, PRI_MIN]
  split
  · rw [min_eq_left (by omega), max_eq_right (by omega)]
  · split
    · congr 1
      rw [min_eq_right (by omega), max_eq_left (by omega)]
    · congr 1
      rw [min_eq_right (by omega), max_eq_right (by omega)]


theorem aging_priority_total (u n : Int) : ∃ p, aging_priority u n = some p := by
  unfold aging_priority
  simp only [CalculatefNumber, int_div, Option.bind_eq_bind]
  simp
  split_ifs <;> exact ⟨_, rfl⟩

theorem thread_aging_priority_spec (l : List Nat) :
    ∀ k : Kernel, ∃ k1, thread_aging_priority k l = some k1 ∧
      k1.ready_list = k.ready_list ∧ k1.running = k.running ∧
      k1.yield_on_return = k.yield_on_return ∧
      (∀ t, (k1.threads t).recent_cpu = (k.threads t).recent_cpu ∧
        (k1.threads t).nice = (k.threads t).nice ∧
        (k1.threads t).status = (k.threads t).status) ∧
      (∀ t, t ∉ l → (k1.threads t).priority = (k.threads t).priority) ∧
      (∀ t, t ∈ l → some (k1.threads t).priority =
        aging_priority (k.threads t).recent_cpu (k.threads t).nice) := by
  induction l with
  | nil => intro k; exact ⟨k, rfl, rfl, rfl, rfl, fun _ => ⟨rfl, rfl, rfl⟩, fun _ _ => rfl,
      fun _ h => by cases h⟩
  | cons op rest ih =>
    intro k
    obtain ⟨p, hp⟩ := aging_priority_total (k.threads op).recent_cpu (k.threads op).nice
    obtain ⟨k1, h1, h2, h3, h3b, h4, h5, h6⟩ :=
      ih (set_thread k op (fun t => { t with priority := p }))
    have hsame : ∀ t, ((set_thread k op (fun t => { t with priority := p })).threads t).recent_cpu
          = (k.threads t).recent_cpu ∧
        ((set_thread k op (fun t => { t with priority := p })).threads t).nice
          = (k.threads t).nice ∧
        ((set_thread k op (fun t => { t with priority := p })).threads t).status
          = (k.threads t).status := by
      intro t
      by_cases h : t = op <;> simp [set_thread, h]
    refine ⟨k1, ?_, h2, h3, h3b, ?_, ?_, ?_⟩
    · simp only [thread_aging_priority, hp]; exact h1
    · intro t
      obtain ⟨a, b, c⟩ := h4 t
      obtain ⟨a2, b2, c2⟩ := hsame t
      exact ⟨a.trans a2, b.trans b2, c.trans c2⟩
    · intro t ht
      have h1 : t ≠ op := fun h => ht (by simp [h])
      have h2 : t ∉ rest := fun h => ht (by simp [h])
      rw [h5 t h2]; simp [set_thread, h1]
    · intro t ht
      by_cases hr : t ∈ rest
      · rw [h6 t hr, (hsame t).1, (hsame t).2.1]
      · have hto : t = op := by
          rcases List.mem_cons.1 ht with h | h
          · exact h
          · exact absurd h hr
        rw [h5 t hr, hto, hp]; simp [set_thread]


theorem thread_current_of_running_ok (k : Kernel) (h : running_ok k) :
    thread_current k = some k.running := by
  simp [thread_current, h.1, h.2]

/-- The priorities after `thread_aging (1)`. -/
theorem thread_aging_one (k : Kernel) (hrun : running_ok k) :
    ∃ k', thread_aging k 1 = some k' ∧
      ∀ t, t ∈ k.all_list → some (k'.threads t).priority =
        aging_priority (k.threads t).recent_cpu (k.threads t).nice := by
  obtain ⟨k1, h1, -, -, -, -, -, h6⟩ := thread_aging_priority_spec k.all_list k
  unfold thread_aging
  rw [thread_current_of_running_ok k hrun]
  simp only [h1]
  have h10 : ¬ ((1 : Int) = 0) := by decide
  simp only [h10, if_false]
  cases k1.ready_list with
  | nil => exact ⟨k1, rfl, h6⟩
  | cons e es =>
    simp only
    split
    · exact ⟨_, rfl, h6⟩
    · exact ⟨_, rfl, h6⟩

/-- C8: `thread_aging (1)` sets the priority of every thread with usage `u` (an `int`) and
niceness `n` in `[-20, 20]` to `clamp (q, 0, 63)`, where `q` is
`63 * 2^14 - u / 4 - 2 * n * 2^14` divided by `2^14`, both divisions truncating toward zero;
the result lies in `[0, 63]` and is the same for any thread of any state with the same
usage and niceness. -/
theorem thread_aging_priority_formula (k : Kernel) (hrun : running_ok k) (t : Nat)
    (ht : t ∈ k.all_list)
    (hu1 : -2 ^ 31 ≤ (k.threads t).recent_cpu) (hu2 : (k.threads t).recent_cpu < 2 ^ 31)
    (hn1 : -20 ≤ (k.threads t).nice) (hn2 : (k.threads t).nice ≤ 20) :
    ∃ k', thread_aging k 1 = some k' ∧
      (k'.threads t).priority =
        max 0 (min 63 (Int.tdiv (63 * 2 ^ 14 - Int.tdiv (k.threads t).recent_cpu 4
          - 2 * (k.threads t).nice * 2 ^ 14) (2 ^ 14))) ∧
      0 ≤ (k'.threads t).priority ∧ (k'.threads t).priority ≤ 63 ∧
      (∀ (j j' : Kernel) (s : Nat), running_ok j → s ∈ j.all_list →
        (j.threads s).recent_cpu = (k.threads t).recent_cpu →
        (j.threads s).nice = (k.threads t).nice →
        thread_aging j 1 = some j' →
        (j'.threads s).priority = (k'.threads t).priority) := by
  obtain ⟨k', hk, hp⟩ := thread_aging_one k hrun
  have hpt := hp t ht
  have hform := aging_priority_eq (k.threads t).recent_cpu (k.threads t).nice
    (by simpa using hu1) (by simpa using hu2) hn1 hn2
  rw [hform] at hpt
  have hpt2 := Option.some.inj hpt
  have h14 : (2 : Int) ^ 14 = 16384 := by norm_num
  refine ⟨k', hk, by rw [h14]; exact hpt2, ?_, ?_, ?_⟩
  · rw [hpt2]; exact le_max_left _ _
  · rw [hpt2]; exact max_le (by norm_num) (min_le_left _ _)
  · intro j j' s hj hs hu hn hj'
    obtain ⟨j2, hj2, hp2⟩ := thread_aging_one j hj
    rw [hj'] at hj2
    have := hp2 s hs
    rw [← Option.some.inj hj2, hu, hn, ← hp t ht] at this
    exact Option.some.inj this


/-- The load expression of `thread_aging` in closed form. -/
theorem aging_load_eq (bulk l : Int) (hb : 0 ≤ bulk) (hl : 0 ≤ l)
    (h : 59 * l + bulk * 16384 < 2147483648) :
    aging_load bulk l = some (Int.tdiv (59 * l + bulk * 16384) 60) := by
  have e1 : CalculatefNumber 59 l 2 true = some (59 * l) :=
    CalculatefNumber_int_mul _ _ (by omega) (by omega)
  have e2 : CalculatefNumber bulk (59 * l) 0 true = some (bulk * 16384 + 59 * l) :=
    CalculatefNumber_scale_add _ _ (by omega) (by omega) (by omega) (by omega)
  have e3 : CalculatefNumber 60 (bulk * 16384 + 59 * l) 3 true
      = some (Int.tdiv (bulk * 16384 + 59 * l) 60) :=
    CalculatefNumber_int_div _ _ (by omega) (by omega) (by omega)
  unfold aging_load
  simp only [e1, e2, e3, Option.bind_eq_bind, Option.some_bind]
  rw [add_comm]

theorem int64_div_pos (x y : Int) (hy : 0 < y) : int64_div x y = some (Int.tdiv x y) := by
  have hne : ¬ (y = 0 ∨ (x = -9223372036854775808 ∧ y = -1)) := by omega
  simp [int64_div, hne]

/-- The decay coefficient `(2 * load * 2^14) / (2 * load + 2^14)` of `thread_aging`. -/
theorem aging_coef (l : Int) (h0 : 0 ≤ l) (h1 : 2 * l + 16384 < 2147483648) :
    CalculatefNumber (2 * l) (16384 + 2 * l) 3 false
      = some (Int.tdiv (2 * l * 16384) (2 * l + 16384)) ∧
    0 ≤ Int.tdiv (2 * l * 16384) (2 * l + 16384) ∧
    Int.tdiv (2 * l * 16384) (2 * l + 16384) < 16384 := by
  have hc : Int.tdiv (2 * l * 16384) (2 * l + 16384) = (2 * l * 16384) / (2 * l + 16384) :=
    Int.tdiv_eq_ediv (by omega) (by omega)
  have hlo : 0 ≤ (2 * l * 16384) / (2 * l + 16384) :=
    Int.ediv_nonneg (by omega) (by omega)
  have hhi : (2 * l * 16384) / (2 * l + 16384) < 16384 :=
    Int.ediv_lt_of_lt_mul (by omega) (by omega)
  refine ⟨?_, by rw [hc]; exact hlo, by rw [hc]; exact hhi⟩
  have h64 : toInt64 (2 * l * 16384) = 2 * l * 16384 :=
    toInt64_of_range _ (by omega) (by omega)
  have hadd : 16384 + 2 * l = 2 * l + 16384 := by ring
  have h32 : toInt32 ((2 * l * 16384) / (2 * l + 16384)) = (2 * l * 16384) / (2 * l + 16384) :=
    toInt32_of_range _ (by omega) (by omega)
  have hmode : CalculatefNumber (2 * l) (16384 + 2 * l) 3 false
      = (int64_div (toInt64 (2 * l * 16384)) (16384 + 2 * l)).map toInt32 := by
    simp [CalculatefNumber]
  rw [hmode, h64, hadd, int64_div_pos _ _ (by omega), hc]
  simp [h32]


/-- The usage expression of `thread_aging` never divides by zero for a load that is
non-negative and small enough for `2 * load + 2^14` to fit an `int`. -/
theorem aging_recent_cpu_total (l n u : Int) (h0 : 0 ≤ l) (h1 : 2 * l + 16384 < 2147483648) :
    ∃ v, aging_recent_cpu l n u = some v := by
  have e1 : CalculatefNumber 2 l 2 true = some (2 * l) :=
    CalculatefNumber_int_mul _ _ (by omega) (by omega)
  have e2 : CalculatefNumber 1 (2 * l) 0 true = some (16384 + 2 * l) := by
    have := CalculatefNumber_scale_add 1 (2 * l) (by omega) (by omega) (by omega) (by omega)
    simpa using this
  obtain ⟨e3, -, -⟩ := aging_coef l h0 h1
  have e4 : ∀ c, CalculatefNumber c u 2 false
      = some (toInt32 (Int.tdiv (toInt64 (c * u)) 16384)) := by
    intro c
    have hmode : CalculatefNumber c u 2 false
        = (int64_div (toInt64 (c * u)) 16384).map toInt32 := by
      simp [CalculatefNumber]
    rw [hmode, int64_div_pos _ _ (by omega)]; rfl
  have e5 : ∀ d, CalculatefNumber n d 0 true = some (toInt32 (toInt32 (toInt32 (n * 16384) + d))) := by
    intro d; simp [CalculatefNumber]
  unfold aging_recent_cpu
  simp only [e1, e2, e3, e4, e5, Option.bind_eq_bind, Option.some_bind]
  exact ⟨_, rfl⟩

/-- The usage expression of `thread_aging` in closed form, for niceness 0. -/
theorem aging_recent_cpu_eq (l u : Int) (h0 : 0 ≤ l) (h1 : 2 * l + 16384 < 2147483648)
    (hu1 : -2147483648 ≤ u) (hu2 : u < 2147483648) :
    aging_recent_cpu l 0 u
      = some (Int.tdiv (Int.tdiv (2 * l * 16384) (2 * l + 16384) * u) 16384) := by
  have e1 : CalculatefNumber 2 l 2 true = some (2 * l) :=
    CalculatefNumber_int_mul _ _ (by omega) (by omega)
  have e2 : CalculatefNumber 1 (2 * l) 0 true = some (16384 + 2 * l) := by
    have := CalculatefNumber_scale_add 1 (2 * l) (by omega) (by omega) (by omega) (by omega)
    simpa using this
  obtain ⟨e3, hc0, hc1⟩ := aging_coef l h0 h1
  generalize Int.tdiv (2 * l * 16384) (2 * l + 16384) = c at e3 hc0 hc1
  have hp1 : -35184372088832 ≤ c * u := by nlinarith
  have hp2 : c * u ≤ 35184372088832 - 16384 := by nlinarith
  have hq : Int.tdiv (c * u) 16384 = if 0 ≤ c * u then (c * u) / 16384 else -((-(c * u)) / 16384) :=
    tdiv_pos_eq _ _ (by omega)
  have hq1 : -2147483648 ≤ Int.tdiv (c * u) 16384 := by rw [hq]; split <;> omega
  have hq2 : Int.tdiv (c * u) 16384 < 2147483648 := by rw [hq]; split <;> omega
  have e4 : CalculatefNumber c u 2 false = some (Int.tdiv (c * u) 16384) := by
    have hmode : CalculatefNumber c u 2 false
        = (int64_div (toInt64 (c * u)) 16384).map toInt32 := by
      simp [CalculatefNumber]
    rw [hmode, toInt64_of_range _ (by omega) (by omega), int64_div_pos _ _ (by omega)]
    simp [toInt32_of_range _ hq1 hq2]
  have e5 : CalculatefNumber 0 (Int.tdiv (c * u) 16384) 0 true
      = some (Int.tdiv (c * u) 16384) := by
    have := CalculatefNumber_scale_add 0 (Int.tdiv (c * u) 16384) (by omega) (by omega)
      (by omega) (by omega)
    simpa using this
  unfold aging_recent_cpu
  simp only [e1, e2, e3, e4, e5, Option.bind_eq_bind, Option.some_bind]


theorem thread_aging_usage_cons (k : Kernel) (op : Nat) (rest : List Nat) :
    thread_aging_usage k (op :: rest) =
      if some op ≠ k.idle_thread then
        match aging_recent_cpu k.averageloading (k.threads op).nice
            (k.threads op).recent_cpu with
        | none => none
        | some v =>
          thread_aging_usage (set_thread k op (fun t => { t with recent_cpu := v })) rest
      else thread_aging_usage k rest := rfl

theorem thread_aging_usage_spec (l : List Nat) :
    ∀ k : Kernel, 0 ≤ k.averageloading → 2 * k.averageloading + 16384 < 2147483648 →
      l.Nodup →
      ∃ k1, thread_aging_usage k l = some k1 ∧
        k1.averageloading = k.averageloading ∧
        (∀ t, (k1.threads t).nice = (k.threads t).nice) ∧
        (∀ t, t ∉ l ∨ some t = k.idle_thread →
          (k1.threads t).recent_cpu = (k.threads t).recent_cpu) ∧
        (∀ t, t ∈ l → some t ≠ k.idle_thread → some (k1.threads t).recent_cpu =
          aging_recent_cpu k.averageloading (k.threads t).nice (k.threads t).recent_cpu) := by
  induction l with
  | nil =>
    intro k _ _ _
    exact ⟨k, rfl, rfl, fun _ => rfl, fun _ _ => rfl, fun _ h => by cases h⟩
  | cons op rest ih =>
    intro k h0 h1 hnd
    have hop : op ∉ rest := (List.nodup_cons.1 hnd).1
    have hnd2 : rest.Nodup := (List.nodup_cons.1 hnd).2
    by_cases hidle : some op ≠ k.idle_thread
    · obtain ⟨v, hv⟩ := aging_recent_cpu_total k.averageloading (k.threads op).nice
        (k.threads op).recent_cpu h0 h1
      have hav : (set_thread k op (fun t => { t with recent_cpu := v })).averageloading
          = k.averageloading := rfl
      have hid : (set_thread k op (fun t => { t with recent_cpu := v })).idle_thread
          = k.idle_thread := rfl
      obtain ⟨k1, e1, e2, e3, e4, e5⟩ :=
        ih (set_thread k op (fun t => { t with recent_cpu := v }))
          (by rw [hav]; exact h0) (by rw [hav]; exact h1) hnd2
      rw [hav] at e2 e5
      rw [hid] at e4 e5
      have hother : ∀ t, t ≠ op →
          (set_thread k op (fun t => { t with recent_cpu := v })).threads t = k.threads t :=
        fun t ht => set_thread_threads_other k op t _ ht
      refine ⟨k1, ?_, e2, ?_, ?_, ?_⟩
      · rw [thread_aging_usage_cons, if_pos hidle, hv]
        exact e1
      · intro t
        rw [e3 t]
        by_cases h : t = op <;> simp [set_thread, h]
      · intro t ht
        have hne : t ≠ op := by
          rcases ht with h | h
          · exact fun h2 => h (by simp [h2])
          · intro h2; rw [h2] at h; exact hidle h
        have hr : t ∉ rest ∨ some t = k.idle_thread := by
          rcases ht with h | h
          · exact Or.inl (fun h2 => h (by simp [h2]))
          · exact Or.inr h
        rw [e4 t hr, hother t hne]
      · intro t ht hti
        by_cases hr : t ∈ rest
        · have hne : t ≠ op := fun h => hop (h ▸ hr)
          have := e5 t hr hti
          rw [hother t hne] at this
          exact this
        · have hto : t = op := by
            rcases List.mem_cons.1 ht with h | h
            · exact h
            · exact absurd h hr
          rw [e4 t (Or.inl hr), hto, hv]; simp [set_thread]
    · obtain ⟨k1, e1, e2, e3, e4, e5⟩ := ih k h0 h1 hnd2
      have hidle2 : some op = k.idle_thread := not_not.1 hidle
      refine ⟨k1, ?_, e2, e3, ?_, ?_⟩
      · rw [thread_aging_usage_cons, if_neg hidle]
        exact e1
      · intro t ht
        by_cases hr : t ∈ rest
        · have hto : some t = k.idle_thread := by
            rcases ht with h | h
            · exact absurd (List.mem_cons_of_mem _ hr) h
            · exact h
          exact e4 t (Or.inr hto)
        · exact e4 t (Or.inl hr)
      · intro t ht hti
        have hr : t ∈ rest := by
          rcases List.mem_cons.1 ht with h | h
          · rw [h] at hti; exact absurd hidle2 hti
          · exact h
        exact e5 t hr hti


/-- The state after `thread_aging (0)`, for a non-negative load and in the absence of `int`
overflow: `bulk` is the ready-list length, plus one when the running thread is not idle. -/
theorem thread_aging_zero (k : Kernel) (hrun : running_ok k) (hnd : k.all_list.Nodup)
    (bulk : Int)
    (hbulk : bulk = if some k.running = k.idle_thread then (k.ready_list.length : Int)
      else (k.ready_list.length : Int) + 1)
    (hl : 0 ≤ k.averageloading)
    (hov : 59 * k.averageloading + ((k.ready_list.length : Int) + 1) * 16384 < 2147483648) :
    ∃ k', thread_aging k 0 = some k' ∧
      k'.averageloading = Int.tdiv (59 * k.averageloading + bulk * 16384) 60 ∧
      0 ≤ k'.averageloading ∧ 2 * k'.averageloading + 16384 < 2147483648 ∧
      (∀ t, t ∈ k.all_list → some t ≠ k.idle_thread → some (k'.threads t).recent_cpu =
        aging_recent_cpu k'.averageloading (k.threads t).nice (k.threads t).recent_cpu) := by
  have hlen : (0 : Int) ≤ (k.ready_list.length : Int) := Int.ofNat_nonneg _
  have hb0 : 0 ≤ bulk := by rw [hbulk]; split <;> omega
  have hb1 : bulk ≤ (k.ready_list.length : Int) + 1 := by rw [hbulk]; split <;> omega
  have hload := aging_load_eq bulk k.averageloading hb0 hl (by omega)
  have hq : Int.tdiv (59 * k.averageloading + bulk * 16384) 60
      = (59 * k.averageloading + bulk * 16384) / 60 :=
    Int.tdiv_eq_ediv (by omega) (by omega)
  have hbulk2 : (if some k.running ≠ k.idle_thread then
      toInt32 (toInt32 (k.ready_list.length : Int) + 1)
      else toInt32 (k.ready_list.length : Int)) = bulk := by
    have hr : toInt32 (k.ready_list.length : Int) = (k.ready_list.length : Int) :=
      toInt32_of_range _ (by omega) (by omega)
    rw [hbulk, hr]
    by_cases h : some k.running = k.idle_thread
    · rw [if_neg (not_not.2 h), if_pos h]
    · rw [if_pos h, if_neg h, toInt32_of_range _ (by omega) (by omega)]
  obtain ⟨k1, e1, e2, -, -, e5⟩ := thread_aging_usage_spec k.all_list
    { k with averageloading := Int.tdiv (59 * k.averageloading + bulk * 16384) 60 }
    (by show 0 ≤ Int.tdiv (59 * k.averageloading + bulk * 16384) 60; rw [hq]; omega)
    (by show 2 * Int.tdiv (59 * k.averageloading + bulk * 16384) 60 + 16384 < 2147483648
        rw [hq]; omega) hnd
  have e2' : k1.averageloading = Int.tdiv (59 * k.averageloading + bulk * 16384) 60 := e2
  refine ⟨k1, ?_, e2', by rw [e2', hq]; omega, by rw [e2', hq]; omega, ?_⟩
  · unfold thread_aging
    rw [thread_current_of_running_ok k hrun]
    simp only [if_true, hbulk2, hload]
    exact e1
  · intro t ht hti
    rw [e2']
    exact e5 t ht hti

/-- C9: `thread_aging (0)` replaces the load `L` by `(59 * L + k * 2^14) / 60` (division
truncating toward zero), where `k` is the ready-list length `r`, plus one when the running
thread is not the idle thread; for a non-negative load and in the absence of `int`
overflow. -/
theorem thread_aging_load_formula (k : Kernel) (hrun : running_ok k) (hnd : k.all_list.Nodup)
    (hl : 0 ≤ k.averageloading)
    (hov : 59 * k.averageloading + ((k.ready_list.length : Int) + 1) * 2 ^ 14 < 2 ^ 31) :
    ∃ k', thread_aging k 0 = some k' ∧
      k'.averageloading = Int.tdiv (59 * k.averageloading +
        (if some k.running = k.idle_thread then (k.ready_list.length : Int)
          else (k.ready_list.length : Int) + 1) * 2 ^ 14) 60 := by
  have h14 : (2 : Int) ^ 14 = 16384 := by norm_num
  have h31 : (2 : Int) ^ 31 = 2147483648 := by norm_num
  rw [h14, h31] at hov
  obtain ⟨k', e1, e2, -⟩ := thread_aging_zero k hrun hnd _ rfl hl hov
  exact ⟨k', e1, by rw [h14]; exact e2⟩

/-- C10: for a non-idle thread of niceness 0 and usage `u`, `thread_aging (0)` sets the
usage to `((2 * L * 2^14) / (2 * L + 2^14)) * u / 2^14`, where `L` is the load just
updated by the same call, `L` is non-negative, both products are exact and both divisions
truncate toward zero; the divisor `2 * L + 2^14` is not zero. -/
theorem thread_aging_usage_formula (k : Kernel) (hrun : running_ok k)
    (hnd : k.all_list.Nodup) (hl : 0 ≤ k.averageloading)
    (hov : 59 * k.averageloading + ((k.ready_list.length : Int) + 1) * 2 ^ 14 < 2 ^ 31)
    (t : Nat) (ht : t ∈ k.all_list) (hidle : some t ≠ k.idle_thread)
    (hnice : (k.threads t).nice = 0)
    (hu1 : -2 ^ 31 ≤ (k.threads t).recent_cpu) (hu2 : (k.threads t).recent_cpu < 2 ^ 31) :
    ∃ k', thread_aging k 0 = some k' ∧
      0 ≤ k'.averageloading ∧
      2 * k'.averageloading + 2 ^ 14 ≠ 0 ∧
      (k'.threads t).recent_cpu =
        Int.tdiv (Int.tdiv (2 * k'.averageloading * 2 ^ 14) (2 * k'.averageloading + 2 ^ 14)
          * (k.threads t).recent_cpu) (2 ^ 14) := by
  have h14 : (2 : Int) ^ 14 = 16384 := by norm_num
  have h31 : (2 : Int) ^ 31 = 2147483648 := by norm_num
  rw [h14, h31] at hov
  rw [h31] at hu1 hu2
  obtain ⟨k', e1, -, e3, e4, e5⟩ := thread_aging_zero k hrun hnd _ rfl hl hov
  have h := e5 t ht hidle
  rw [hnice, aging_recent_cpu_eq _ _ e3 e4 hu1 hu2] at h
  refine ⟨k', e1, e3, by rw [h14]; omega, ?_⟩
  rw [h14]
  exact Option.some.inj h


/-! ## Priority-correctness of the scheduler -/

theorem list_insert_ordered_sorted (k : Kernel) (l : List Nat) (x : Nat)
    (hs : l.Pairwise (fun a b => (k.threads b).priority ≤ (k.threads a).priority)) :
    (list_insert_ordered (biggerprior k) l x).Pairwise
      (fun a b => (k.threads b).priority ≤ (k.threads a).priority) := by
  induction l with
  | nil => simp [list_insert_ordered]
  | cons e es ih =>
    obtain ⟨he, hes⟩ := List.pairwise_cons.1 hs
    unfold list_insert_ordered
    by_cases hgt : (k.threads x).priority > (k.threads e).priority
    · have hb : biggerprior k x e = true := by simp [biggerprior, hgt]
      rw [if_pos hb]
      refine List.pairwise_cons.2 ⟨?_, hs⟩
      intro y hy
      rcases List.mem_cons.1 hy with h | h
      · rw [h]; exact le_of_lt hgt
      · exact le_trans (he y h) (le_of_lt hgt)
    · have hb : ¬ (biggerprior k x e = true) := by simp [biggerprior, hgt]
      rw [if_neg hb]
      refine List.pairwise_cons.2 ⟨?_, ih hes⟩
      intro y hy
      rcases (mem_list_insert_ordered _ _ _ _).1 hy with h | h
      · rw [h]; exact not_lt.1 hgt
      · exact he y h

theorem list_insert_ordered_nodup (less : Nat → Nat → Bool) (l : List Nat) (x : Nat)
    (hn : l.Nodup) (hx : x ∉ l) : (list_insert_ordered less l x).Nodup := by
  induction l with
  | nil => simp [list_insert_ordered]
  | cons e es ih =>
    obtain ⟨he, hes⟩ := List.nodup_cons.1 hn
    unfold list_insert_ordered
    split
    · exact List.nodup_cons.2 ⟨hx, hn⟩
    · refine List.nodup_cons.2 ⟨?_, ih hes (fun h => hx (List.mem_cons_of_mem _ h))⟩
      intro h
      rcases (mem_list_insert_ordered _ _ _ _).1 h with h2 | h2
      · exact hx (by rw [h2]; simp)
      · exact he h2

/-- The property `priority_correct` together with the invariant `sched_ok`. -/
theorem priority_correct_of_top (k : Kernel) (h : sched_ok k)
    (htop : ∀ t ∈ k.ready_list, (k.threads t).priority ≤ (k.threads k.running).priority) :
    priority_correct k :=
  fun t ht => htop t (h.complete t ht)

/-- A `thread_unblock` keeps the invariant. -/
theorem sched_ok_unblock (k k1 : Kernel) (t : Nat) (h : sched_ok k)
    (hu : thread_unblock k t = some k1) :
    sched_ok k1 ∧ k1.running = k.running ∧ k1.all_list = k.all_list ∧
      (∀ x, (k1.threads x).priority = (k.threads x).priority) ∧
      (∀ x, x ∈ k1.ready_list ↔ x = t ∨ x ∈ k.ready_list) := by
  have hth : is_thread k t = true := by
    by_contra hc; simp [thread_unblock, hc] at hu
  have hst : (k.threads t).status = .THREAD_BLOCKED := by
    by_contra hc; simp [thread_unblock, hth, hc] at hu
  rw [thread_unblock_eq k t hth hst] at hu
  have hk1 := Option.some.inj hu
  have htr : t ≠ k.running := by
    intro hc; rw [hc, h.run.2] at hst; cases hst
  have htl : t ∉ k.ready_list := by
    intro hc; have := (h.ready t hc).2; rw [hst] at this; cases this
  have hprio : ∀ x, (k1.threads x).priority = (k.threads x).priority := by
    intro x; rw [← hk1]
    by_cases hx : x = t <;> simp [set_thread, hx]
  have hmem : ∀ x, x ∈ k1.ready_list ↔ x = t ∨ x ∈ k.ready_list := by
    intro x; rw [← hk1]; exact mem_list_insert_ordered _ _ _ _
  have hstat : ∀ x, x ≠ t → (k1.threads x).status = (k.threads x).status := by
    intro x hx; rw [← hk1]; simp [set_thread, hx]
  have hstt : (k1.threads t).status = .THREAD_READY := by
    rw [← hk1]; simp [set_thread]
  have hist : ∀ x, is_thread k1 x = is_thread k x := by
    intro x; rw [← hk1]; exact is_thread_set_status _ _ _ _
  have hrun : k1.running = k.running := by rw [← hk1]; rfl
  have hall : k1.all_list = k.all_list := by rw [← hk1]; rfl
  have hrl : k1.ready_list = list_insert_ordered (biggerprior k) k.ready_list t := by
    rw [← hk1]; rfl
  refine ⟨⟨?_, ?_, ?_, ?_, ?_, ?_, ?_, ?_⟩, hrun, hall, hprio, hmem⟩
  · exact ⟨by rw [hrun, hist]; exact h.run.1,
      by rw [hrun, hstat _ (Ne.symm htr)]; exact h.run.2⟩
  · intro x hx
    rcases (hmem x).1 hx with hxt | hxl
    · rw [hxt]; exact ⟨by rw [hist]; exact hth, hstt⟩
    · have hne : x ≠ t := fun hc => htl (hc ▸ hxl)
      exact ⟨by rw [hist]; exact (h.ready x hxl).1, by rw [hstat x hne]; exact (h.ready x hxl).2⟩
  · rw [hrl]; exact list_insert_ordered_nodup _ _ _ h.nodup htl
  · have := list_insert_ordered_sorted k k.ready_list t h.sorted
    rw [hrl]
    refine this.imp ?_
    intro a b hab; rw [hprio a, hprio b]; exact hab
  · intro x hx
    by_cases hxt : x = t
    · exact (hmem x).2 (Or.inl hxt)
    · rw [hstat x hxt] at hx
      exact (hmem x).2 (Or.inr (h.complete x hx))
  · rw [← hk1]; exact h.idle
  · rw [← hk1]; exact h.lock_free
  · intro x hx; rw [hall]; rw [hist] at hx; exact h.registered x hx


/-- A `thread_yield` in a state with the invariant succeeds, keeps the invariant, and
leaves a running thread that no ready thread exceeds in priority. -/
theorem sched_ok_yield (k : Kernel) (h : sched_ok k) :
    ∃ k1, thread_yield k = some k1 ∧ sched_ok k1 ∧
      (∀ t ∈ k1.ready_list, (k1.threads t).priority ≤ (k1.threads k1.running).priority) ∧
      k1.all_list = k.all_list ∧ k1.next_tid = k.next_tid ∧
      (∀ x, (k1.threads x).priority = (k.threads x).priority) ∧
      (∀ x, is_thread k1 x = is_thread k x) ∧
      (∀ x, x ≠ k.running → x ≠ k1.running → (k1.threads x).status = (k.threads x).status) ∧
      (k1.running = k.running ∨ (k1.running ∈ k.ready_list ∧
        (k1.threads k.running).status = .THREAD_READY)) := by
  obtain ⟨k1, n, rest, hy, hlist, -, -, -, hrn, hrl, hsem, -, hidle, hall, -, hnt, hhold, -,
    -, hth⟩ := thread_yield_facts k h.run h.ready
  have hL : list_insert_ordered (biggerprior k) k.ready_list k.running = n :: rest := by
    rcases hlist with hl | ⟨-, hi, -, -⟩
    · rw [if_pos (by rw [h.idle]; simp)] at hl; exact hl
    · rw [h.idle] at hi; cases hi
  have hcur_notin : k.running ∉ k.ready_list := by
    intro hc; have := (h.ready _ hc).2; rw [h.run.2] at this; cases this
  have hLnodup : (n :: rest).Nodup := by
    rw [← hL]; exact list_insert_ordered_nodup _ _ _ h.nodup hcur_notin
  have hLsorted := list_insert_ordered_sorted k k.ready_list k.running h.sorted
  rw [hL] at hLsorted
  have hmem : ∀ x, x ∈ n :: rest ↔ x = k.running ∨ x ∈ k.ready_list := by
    intro x; rw [← hL]; exact mem_list_insert_ordered _ _ _ _
  have hn_notin : n ∉ rest := (List.nodup_cons.1 hLnodup).1
  have hprio : ∀ x, (k1.threads x).priority = (k.threads x).priority := by
    intro x; rw [hth x]; split
    · rfl
    · split <;> rfl
  have hist : ∀ x, is_thread k1 x = is_thread k x := by
    intro x; unfold is_thread; rw [hth x]; split
    · rfl
    · split <;> rfl
  have hn_thread : is_thread k n = true := by
    rcases (hmem n).1 (by simp) with hc | hc
    · rw [hc]; exact h.run.1
    · exact (h.ready n hc).1
  have hstn : (k1.threads n).status = .THREAD_RUNNING := by rw [hth n, if_pos rfl]
  refine ⟨k1, hy, ⟨?_, ?_, ?_, ?_, ?_, ?_, ?_, ?_⟩, ?_, hall, hnt, hprio, hist, ?_, ?_⟩
  · exact ⟨by rw [hrn, hist]; exact hn_thread, by rw [hrn]; exact hstn⟩
  · intro x hx
    rw [hrl] at hx
    have hxn : x ≠ n := fun hc => hn_notin (hc ▸ hx)
    refine ⟨?_, ?_⟩
    · rw [hist]
      rcases (hmem x).1 (List.mem_cons_of_mem _ hx) with hc | hc
      · rw [hc]; exact h.run.1
      · exact (h.ready x hc).1
    · rw [hth x, if_neg hxn]
      split
      · rfl
      · rename_i hxc
        rcases (hmem x).1 (List.mem_cons_of_mem _ hx) with hc | hc
        · exact absurd hc hxc
        · exact (h.ready x hc).2
  · rw [hrl]; exact (List.nodup_cons.1 hLnodup).2
  · rw [hrl]
    refine (List.pairwise_cons.1 hLsorted).2.imp ?_
    intro a b hab; rw [hprio a, hprio b]; exact hab
  · intro x hx
    rw [hrl]
    have hxn : x ≠ n := by
      intro hc; rw [hc, hstn] at hx; cases hx
    have hxL : x ∈ n :: rest := by
      rw [hmem]
      by_cases hxc : x = k.running
      · exact Or.inl hxc
      · rw [hth x, if_neg hxn, if_neg hxc] at hx
        exact Or.inr (h.complete x hx)
    rcases List.mem_cons.1 hxL with hc | hc
    · exact absurd hc hxn
    · exact hc
  · rw [hidle]; exact h.idle
  · rw [hsem, hhold]; exact h.lock_free
  · intro x hx; rw [hall]; rw [hist] at hx; exact h.registered x hx
  · intro x hx
    rw [hrl] at hx
    rw [hprio, hprio, hrn]
    exact (List.pairwise_cons.1 hLsorted).1 x hx
  · intro x hx1 hx2
    rw [hrn] at hx2
    rw [hth x, if_neg hx2, if_neg hx1]
  · by_cases hc : n = k.running
    · left; rw [hrn, hc]
    · right
      rw [hrn]
      refine ⟨?_, ?_⟩
      · rcases (hmem n).1 (by simp) with h2 | h2
        · exact absurd h2 hc
        · exact h2
      · rw [hth k.running, if_neg (Ne.symm hc), if_pos rfl]


/-- A `thread_block` that does not panic keeps the invariant and leaves a running thread
that no ready thread exceeds in priority. -/
theorem sched_ok_block (k k1 : Kernel) (h : sched_ok k) (hb : thread_block k = some k1) :
    sched_ok k1 ∧
      (∀ t ∈ k1.ready_list, (k1.threads t).priority ≤ (k1.threads k1.running).priority) := by
  unfold thread_block at hb
  rw [thread_current_of_running_ok k h.run] at hb
  simp only at hb
  cases hl : k.ready_list with
  | nil =>
    exfalso
    unfold schedule next_thread_to_run at hb
    simp [set_thread, hl, h.idle] at hb
  | cons n rest =>
    have hn := h.ready n (by rw [hl]; simp)
    have hnc : n ≠ k.running := by
      intro hc; have := hn.2; rw [hc, h.run.2] at this; cases this
    rw [schedule_cons _ n rest (by simpa [set_thread] using hl)
      (by simpa using hn.1) (by simp [set_thread]) (by simp [set_thread])] at hb
    have hk1 := Option.some.inj hb
    have hnodup : (n :: rest).Nodup := hl ▸ h.nodup
    have hsorted := h.sorted
    rw [hl] at hsorted
    have hn_notin : n ∉ rest := (List.nodup_cons.1 hnodup).1
    have hth : ∀ x, k1.threads x =
        if x = n then { k.threads x with status := .THREAD_RUNNING }
        else if x = k.running then { k.threads x with status := .THREAD_BLOCKED }
        else k.threads x := by
      intro x; rw [← hk1]
      by_cases hx : x = n
      · subst hx; simp [set_thread, hnc]
      · by_cases hx2 : x = k.running
        · subst hx2; simp [set_thread, hx]
        · simp [set_thread, hx, hx2]
    have hrn : k1.running = n := by rw [← hk1]; rfl
    have hrl : k1.ready_list = rest := by rw [← hk1]; rfl
    have hprio : ∀ x, (k1.threads x).priority = (k.threads x).priority := by
      intro x; rw [hth x]; split
      · rfl
      · split <;> rfl
    have hist : ∀ x, is_thread k1 x = is_thread k x := by
      intro x; unfold is_thread; rw [hth x]; split
      · rfl
      · split <;> rfl
    refine ⟨⟨?_, ?_, ?_, ?_, ?_, ?_, ?_, ?_⟩, ?_⟩
    · exact ⟨by rw [hrn, hist]; exact hn.1, by rw [hrn, hth n, if_pos rfl]⟩
    · intro x hx
      rw [hrl] at hx
      have hxn : x ≠ n := fun hc => hn_notin (hc ▸ hx)
      have hxl : x ∈ k.ready_list := by rw [hl]; exact List.mem_cons_of_mem _ hx
      have hxc : x ≠ k.running := by
        intro hc; have := (h.ready x hxl).2; rw [hc, h.run.2] at this; cases this
      exact ⟨by rw [hist]; exact (h.ready x hxl).1,
        by rw [hth x, if_neg hxn, if_neg hxc]; exact (h.ready x hxl).2⟩
    · rw [hrl]; exact (List.nodup_cons.1 hnodup).2
    · rw [hrl]
      refine (List.pairwise_cons.1 hsorted).2.imp ?_
      intro a b hab; rw [hprio a, hprio b]; exact hab
    · intro x hx
      rw [hrl]
      have hxn : x ≠ n := by
        intro hc; rw [hc, hth n, if_pos rfl] at hx; cases hx
      have hxc : x ≠ k.running := by
        intro hc; rw [hc, hth k.running, if_neg (Ne.symm hnc), if_pos rfl] at hx; cases hx
      rw [hth x, if_neg hxn, if_neg hxc] at hx
      have := h.complete x hx
      rw [hl] at this
      rcases List.mem_cons.1 this with hc | hc
      · exact absurd hc hxn
      · exact hc
    · rw [← hk1]; exact h.idle
    · rw [← hk1]; exact h.lock_free
    · intro x hx
      have : k1.all_list = k.all_list := by rw [← hk1]; rfl
      rw [this]; rw [hist] at hx; exact h.registered x hx
    · intro x hx
      rw [hrl] at hx
      rw [hprio, hprio, hrn]
      exact (List.pairwise_cons.1 hsorted).1 x hx


/-- The state `init_thread` leaves when `t` is not the page of the running thread. -/
theorem init_thread_facts (k : Kernel) (t : Nat) (p : Int) (ht : t ≠ k.running)
    (hp1 : PRI_MIN ≤ p) (hp2 : p ≤ PRI_MAX) :
    ∃ k1, init_thread k t p = some k1 ∧
      k1.ready_list = k.ready_list ∧ k1.running = k.running ∧
      k1.idle_thread = k.idle_thread ∧ k1.all_list = k.all_list ++ [t] ∧
      k1.next_tid = k.next_tid ∧ k1.holder = k.holder ∧
      (∀ l, k1.semas (.lock l) = k.semas (.lock l)) ∧
      (∀ x, x ≠ t → (k1.threads x).status = (k.threads x).status ∧
        (k1.threads x).priority = (k.threads x).priority ∧
        (k1.threads x).magic = (k.threads x).magic) ∧
      (k1.threads t).status = .THREAD_BLOCKED ∧ (k1.threads t).priority = p ∧
      is_thread k1 t = true := by
  cases hk : init_thread k t p with
  | none => simp [init_thread, hp1, hp2] at hk
  | some k1 =>
    simp only [init_thread, hp1, hp2, and_self, if_true] at hk
    have hk1 := Option.some.inj hk
    subst hk1
    refine ⟨_, rfl, rfl, rfl, rfl, rfl, rfl, rfl, ?_, ?_, ?_, ?_, ?_⟩
    · intro l; simp [set_thread, sema_init, set_sema]
    · intro x hx
      by_cases hxr : x = k.running
      · subst hxr; simp [set_thread, sema_init, set_sema, hx]
      · simp [set_thread, sema_init, set_sema, hx, hxr]
    · simp [set_thread, sema_init, set_sema, ht]
    · simp [set_thread, sema_init, set_sema, ht]
    · simp [is_thread, set_thread, sema_init, set_sema, ht]

/-- The function `allocate_tid` with `tid_lock` free: the state `kmid` in which the
`thread_yield` of `lock_release` starts differs from `k` in `next_tid` and the trace. -/
theorem allocate_tid_facts (k : Kernel) (hrun : running_ok k)
    (hlock : k.semas (.lock tid_lock) = { value := 1, waiters := [] } ∧
      k.holder tid_lock = none) :
    ∃ kmid, allocate_tid k = (match thread_yield kmid with
        | none => .panic
        | some k2 => .returned k.next_tid k2) ∧
      kmid.threads = k.threads ∧ kmid.ready_list = k.ready_list ∧
      kmid.running = k.running ∧ kmid.idle_thread = k.idle_thread ∧
      kmid.all_list = k.all_list ∧
      kmid.semas (.lock tid_lock) = { value := 1, waiters := [] } ∧
      kmid.holder tid_lock = none := by
  have hcur := thread_current_of_running_ok k hrun
  have hheld : lock_held_by_current_thread k tid_lock = some false := by
    simp [lock_held_by_current_thread, hcur, hlock.2]
  have hdown : sema_down k (.lock tid_lock) = .returned ()
      (set_sema (log k (.sema_down (.lock tid_lock))) (.lock tid_lock)
        { value := 0, waiters := [] }) := by
    unfold sema_down
    have : ((log k (.sema_down (.lock tid_lock))).semas (.lock tid_lock))
        = { value := 1, waiters := [] } := hlock.1
    simp [this]
  have hcur2 : thread_current (set_sema (log k (.sema_down (.lock tid_lock))) (.lock tid_lock)
      { value := 0, waiters := [] }) = some k.running := hcur
  have hacq : lock_acquire k tid_lock = .returned ()
      { set_sema (log k (.sema_down (.lock tid_lock))) (.lock tid_lock)
          { value := 0, waiters := [] } with
        holder := fun x => if x = tid_lock then some k.running else k.holder x } := by
    unfold lock_acquire
    rw [hheld]
    simp only [hdown, hcur2]
    rfl
  unfold allocate_tid
  rw [hacq]
  simp only
  unfold lock_release lock_held_by_current_thread
  simp only [thread_current, is_thread, set_sema, log]
  have hr1 := hrun.1
  have hr2 := hrun.2
  unfold is_thread at hr1
  simp only [hr1, hr2]
  simp only [sema_up, sema_up_wake, log, set_sema, sema_incr]
  simp only [List.append_assoc, List.singleton_append, Nat.reduceAdd, Nat.reduceMod,
    decide_True, Bool.and_self, and_self, if_true, Option.map_some']
  exact ⟨_, rfl, rfl, rfl, rfl, rfl, rfl, by simp, by simp⟩


/-- The invariant only reads the status, priority and magic number of the control blocks,
the ready list, the running thread, the idle thread, `all_list` and `tid_lock`. -/
theorem sched_ok_congr (k k1 : Kernel) (h : sched_ok k)
    (hth : ∀ x, (k1.threads x).status = (k.threads x).status ∧
      (k1.threads x).priority = (k.threads x).priority ∧
      (k1.threads x).magic = (k.threads x).magic)
    (hrl : k1.ready_list = k.ready_list) (hrun : k1.running = k.running)
    (hidle : k1.idle_thread = k.idle_thread) (hall : ∀ x, x ∈ k.all_list → x ∈ k1.all_list)
    (hlock : k1.semas (.lock tid_lock) = { value := 1, waiters := [] } ∧
      k1.holder tid_lock = none) :
    sched_ok k1 ∧
      ((∀ t ∈ k.ready_list, (k.threads t).priority ≤ (k.threads k.running).priority) →
        ∀ t ∈ k1.ready_list, (k1.threads t).priority ≤ (k1.threads k1.running).priority) := by
  have hist : ∀ x, is_thread k1 x = is_thread k x := by
    intro x; unfold is_thread; rw [(hth x).2.2]
  refine ⟨⟨?_, ?_, ?_, ?_, ?_, ?_, hlock, ?_⟩, ?_⟩
  · exact ⟨by rw [hrun, hist]; exact h.run.1, by rw [hrun, (hth _).1]; exact h.run.2⟩
  · intro x hx; rw [hrl] at hx
    exact ⟨by rw [hist]; exact (h.ready x hx).1, by rw [(hth x).1]; exact (h.ready x hx).2⟩
  · rw [hrl]; exact h.nodup
  · rw [hrl]; refine h.sorted.imp ?_
    intro a b hab; rw [(hth a).2.1, (hth b).2.1]; exact hab
  · intro x hx; rw [hrl]; rw [(hth x).1] at hx; exact h.complete x hx
  · rw [hidle]; exact h.idle
  · intro x hx; rw [hist] at hx; exact hall x (h.registered x hx)
  · intro htop t ht
    rw [hrl] at ht
    rw [(hth t).2.1, hrun, (hth _).2.1]; exact htop t ht

/-- The invariant after `init_thread` has set up a control block on a page that is not in
`all_list`. -/
theorem sched_ok_init_thread (k k1 : Kernel) (t : Nat) (p : Int) (h : sched_ok k)
    (ht : t ∉ k.all_list) (hi : init_thread k t p = some k1) :
    sched_ok k1 ∧ (k1.threads t).status = .THREAD_BLOCKED ∧ (k1.threads t).priority = p ∧
      is_thread k1 t = true ∧ k1.running = k.running ∧ t ≠ k.running ∧
      k1.all_list = k.all_list ++ [t] ∧
      ((∀ x ∈ k.ready_list, (k.threads x).priority ≤ (k.threads k.running).priority) →
        ∀ x ∈ k1.ready_list, (k1.threads x).priority ≤ (k1.threads k1.running).priority) := by
  have hnt : is_thread k t ≠ true := fun hc => ht (h.registered t hc)
  have htr : t ≠ k.running := fun hc => hnt (hc ▸ h.run.1)
  have htl : t ∉ k.ready_list := fun hc => hnt (h.ready t hc).1
  have hp : PRI_MIN ≤ p ∧ p ≤ PRI_MAX := by
    by_contra hc; simp [init_thread, hc] at hi
  obtain ⟨k2, e0, hrl, hrun, hidle, hall, -, hhold, hsem, hth, hst, hpr, hit⟩ :=
    init_thread_facts k t p htr hp.1 hp.2
  rw [hi] at e0
  have := Option.some.inj e0
  subst this
  have hist : ∀ x, x ≠ t → is_thread k1 x = is_thread k x := by
    intro x hx; unfold is_thread; rw [(hth x hx).2.2]
  refine ⟨⟨?_, ?_, ?_, ?_, ?_, ?_, ?_, ?_⟩, hst, hpr, hit, hrun, htr, hall, ?_⟩
  · exact ⟨by rw [hrun, hist _ (Ne.symm htr)]; exact h.run.1,
      by rw [hrun, (hth _ (Ne.symm htr)).1]; exact h.run.2⟩
  · intro x hx; rw [hrl] at hx
    have hxt : x ≠ t := fun hc => htl (hc ▸ hx)
    exact ⟨by rw [hist x hxt]; exact (h.ready x hx).1,
      by rw [(hth x hxt).1]; exact (h.ready x hx).2⟩
  · rw [hrl]; exact h.nodup
  · rw [hrl]; refine h.sorted.imp_of_mem ?_
    intro a b ha hb hab
    have hat : a ≠ t := fun hc => htl (hc ▸ ha)
    have hbt : b ≠ t := fun hc => htl (hc ▸ hb)
    rw [(hth a hat).2.1, (hth b hbt).2.1]; exact hab
  · intro x hx; rw [hrl]
    have hxt : x ≠ t := by
      intro hc; rw [hc, hst] at hx; cases hx
    rw [(hth x hxt).1] at hx; exact h.complete x hx
  · rw [hidle]; exact h.idle
  · rw [hsem, hhold]; exact h.lock_free
  · intro x hx
    rw [hall]
    by_cases hxt : x = t
    · rw [hxt]; simp
    · rw [hist x hxt] at hx
      exact List.mem_append_left _ (h.registered x hx)
  · intro htop x hx
    rw [hrl] at hx
    have hxt : x ≠ t := fun hc => htl (hc ▸ hx)
    rw [(hth x hxt).2.1, hrun, (hth _ (Ne.symm htr)).2.1]; exact htop x hx


/-- The last part of `thread_create` keeps the invariant and priority-correctness, when the
priority it compares is the priority of the new thread. -/
theorem sched_ok_create_finish (k k1 : Kernel) (t : Nat) (tid tid1 p : Int) (h : sched_ok k)
    (htop : ∀ x ∈ k.ready_list, (k.threads x).priority ≤ (k.threads k.running).priority)
    (hp : p = (k.threads t).priority)
    (hf : thread_create_finish k t tid p = .returned tid1 k1) :
    sched_ok k1 ∧
      ∀ x ∈ k1.ready_list, (k1.threads x).priority ≤ (k1.threads k1.running).priority := by
  obtain ⟨hs, hstop⟩ := sched_ok_congr k (set_thread k t (fun x => { x with tid := tid })) h
    (by intro x; by_cases hx : x = t <;> simp [set_thread, hx]) rfl rfl rfl
    (fun x hx => hx) h.lock_free
  have hstop2 := hstop htop
  have hps : ((set_thread k t (fun x => { x with tid := tid })).threads t).priority = p := by
    rw [hp]; simp [set_thread]
  unfold thread_create_finish at hf
  cases hu : thread_unblock (set_thread k t (fun x => { x with tid := tid })) t with
  | none => rw [hu] at hf; cases hf
  | some k2 =>
    rw [hu] at hf
    obtain ⟨h2, hrun2, -, hprio2, hmem2⟩ := sched_ok_unblock _ k2 t hs hu
    have hgp : thread_get_priority k2 = some (k2.threads k2.running).priority := by
      simp [thread_get_priority, thread_current_of_running_ok k2 h2.run]
    simp only [hgp] at hf
    by_cases hgt : p > (k2.threads k2.running).priority
    · rw [if_pos hgt] at hf
      obtain ⟨k3, hy, h3, htop3, -⟩ := sched_ok_yield k2 h2
      rw [hy] at hf
      simp only [Outcome.returned.injEq] at hf
      rw [← hf.2]
      exact ⟨h3, htop3⟩
    · rw [if_neg hgt] at hf
      simp only [Outcome.returned.injEq] at hf
      rw [← hf.2]
      refine ⟨h2, ?_⟩
      intro x hx
      rcases (hmem2 x).1 hx with hxt | hxl
      · rw [hxt, hprio2 t, hps]; exact not_lt.1 hgt
      · rw [hprio2 x, hrun2, hprio2]; exact hstop2 x hxl

/-- Every outcome of `thread_create` on a page that is not in use keeps the invariant and
priority-correctness. -/
theorem sched_ok_create (k : Kernel) (t : Nat) (p : Int) (h : sched_ok k)
    (htop : ∀ x ∈ k.ready_list, (k.threads x).priority ≤ (k.threads k.running).priority)
    (ht : t ∉ k.all_list) :
    (∀ tid k1, thread_create k (some t) p = .returned tid k1 →
      sched_ok k1 ∧
        ∀ x ∈ k1.ready_list, (k1.threads x).priority ≤ (k1.threads k1.running).priority) ∧
    (∀ k1, thread_create k (some t) p = .switched k1 →
      sched_ok k1 ∧
        ∀ x ∈ k1.ready_list, (k1.threads x).priority ≤ (k1.threads k1.running).priority) := by
  unfold thread_create
  cases hi : init_thread k t p with
  | none => simp only [hi]; constructor <;> intros <;> contradiction
  | some ka =>
    obtain ⟨ha, hsta, hpra, hita, hruna, htr, -, htopa⟩ := sched_ok_init_thread k ka t p h ht hi
    obtain ⟨kmid, hal, e1, e2, e3, e4, e5, e6, e7⟩ := allocate_tid_facts ka ha.run ha.lock_free
    obtain ⟨hm, htopm⟩ := sched_ok_congr ka kmid ha (by intro x; rw [e1]; exact ⟨rfl, rfl, rfl⟩)
      e2 e3 e4 (by intro x hx; rw [e5]; exact hx) ⟨e6, e7⟩
    obtain ⟨kb, hy, hb, htopb, -, -, hpriob, -, hstb, -⟩ := sched_ok_yield kmid hm
    simp only [hi, hal, hy]
    constructor
    · intro tid k1 hc
      by_cases hr : kb.running = k.running
      · rw [if_pos hr] at hc
        refine sched_ok_create_finish kb k1 t _ tid p hb htopb ?_ hc
        rw [hpriob, e1, hpra]
      · rw [if_neg hr] at hc; cases hc
    · intro k1 hc
      by_cases hr : kb.running = k.running
      · rw [if_pos hr] at hc
        exfalso
        unfold thread_create_finish at hc
        revert hc
        split
        · intro hc; cases hc
        · split
          · intro hc; cases hc
          · split
            · split <;> intro hc <;> cases hc
            · intro hc; cases hc
      · rw [if_neg hr] at hc
        simp only [Outcome.switched.injEq] at hc
        rw [← hc]; exact ⟨hb, htopb⟩


/-- The state after `thread_init`: the initial thread runs with the default priority, the
ready list is empty, there is no idle thread. -/
theorem thread_init_boot (page : Nat) :
    ∃ k0, thread_init (boot_memory page) = .returned () k0 ∧ sched_ok k0 ∧
      k0.ready_list = [] ∧ k0.running = page ∧ k0.all_list = [page] ∧
      (k0.threads page).priority = PRI_DEFAULT ∧ (k0.threads page).tid = 1 := by
  have hinit : ∀ kb, kb = lock_init { boot_memory page with averageloading := 0 } tid_lock →
      ∃ ka, init_thread
        { kb with ready_list := [], all_list := [], initial_thread := some kb.running }
        kb.running PRI_DEFAULT = some ka ∧
      ka.ready_list = [] ∧ ka.running = page ∧ ka.all_list = [page] ∧
      ka.idle_thread = none ∧ ka.next_tid = 1 ∧
      ka.semas (.lock tid_lock) = { value := 1, waiters := [] } ∧
      ka.holder tid_lock = none ∧
      (ka.threads page).priority = PRI_DEFAULT ∧ (ka.threads page).magic = THREAD_MAGIC ∧
      (∀ x, x ≠ page → (ka.threads x).magic = 0 ∧
        (ka.threads x).status = .THREAD_RUNNING) := by
    intro kb hkb
    subst hkb
    refine ⟨_, by simp [init_thread, PRI_MIN, PRI_DEFAULT, PRI_MAX]; rfl, rfl, rfl, rfl, rfl,
      rfl, ?_, ?_, ?_, ?_, ?_⟩
    · simp [set_thread, sema_init, set_sema, lock_init, boot_memory]
    · simp [set_thread, sema_init, set_sema, lock_init, boot_memory]
    · simp [set_thread, sema_init, set_sema, lock_init, boot_memory, PRI_DEFAULT]
    · simp [set_thread, sema_init, set_sema, lock_init, boot_memory]
    · intro x hx
      simp [set_thread, sema_init, set_sema, lock_init, boot_memory, hx, thread_zero]
  obtain ⟨ka, hka, a1, a2, a3, a4, a5, a6, a7, a8, a9, a10⟩ := hinit _ rfl
  have hrunb : running_ok (set_thread ka ka.running
      (fun x => { x with status := .THREAD_RUNNING })) := by
    constructor
    · simp [is_thread, set_thread, a2, a9]
    · simp [set_thread]
  obtain ⟨kmid, hal, e1, e2, e3, e4, e5, e6, e7⟩ := allocate_tid_facts _ hrunb ⟨a6, a7⟩
  have hthm : ∀ x, kmid.threads x = if x = page then
      { ka.threads x with status := .THREAD_RUNNING } else ka.threads x := by
    intro x; rw [e1]; simp [set_thread, a2]
  have hrunm : running_ok kmid := by
    constructor
    · unfold is_thread; rw [e3, hthm]; simp [set_thread, a2, a9]
    · rw [e3, hthm]; simp [set_thread, a2]
  have hreadym : ready_ok kmid := by
    intro x hx; rw [e2] at hx; simp [set_thread, a1] at hx
  obtain ⟨k2, n, rest, hy, hlist, -, -, -, hrn, hrl, hsem, -, hidle, hall, -, hnt, hhold, -,
    -, hth⟩ := thread_yield_facts kmid hrunm hreadym
  have hidm : kmid.idle_thread = none := by rw [e4]; exact a4
  have hrlm : kmid.ready_list = [] := by rw [e2]; exact a1
  have hrunm2 : kmid.running = page := by rw [e3]; exact a2
  have hn : n = page ∧ rest = [] := by
    rcases hlist with hl | ⟨-, hi, -, -⟩
    · rw [if_pos (by rw [hidm]; simp), hrlm, hrunm2] at hl
      simp [list_insert_ordered] at hl
      exact ⟨hl.1.symm, hl.2⟩
    · rw [hidm] at hi; cases hi
  obtain ⟨hn1, hn2⟩ := hn
  subst hn1 hn2
  have hth2 : ∀ x, k2.threads x = if x = n then
      { ka.threads x with status := .THREAD_RUNNING } else ka.threads x := by
    intro x; rw [hth x, hthm x]
    by_cases hx : x = n
    · simp [hx]
    · simp [hx, hrunm2]
  refine ⟨set_thread k2 n (fun x => { x with tid := ka.next_tid, nice := 0, recent_cpu := 0 }),
    ?_, ⟨?_, ?_, ?_, ?_, ?_, ?_, ?_, ?_⟩, ?_, ?_, ?_, ?_, ?_⟩
  · unfold thread_init
    simp only [hka]
    rw [hal, hy]
    simp only [a2]
    rfl
  · constructor
    · show is_thread _ k2.running = true
      rw [hrn]; simp [is_thread, set_thread, hth2, a9]
    · show (_ : thread).status = _
      simp [set_thread, hrn, hth2]
  · intro x hx
    have : x ∈ k2.ready_list := hx
    rw [hrl] at this; cases this
  · show k2.ready_list.Nodup
    rw [hrl]; exact List.nodup_nil
  · show k2.ready_list.Pairwise _
    rw [hrl]; exact List.Pairwise.nil
  · intro x hx
    exfalso
    by_cases hxn : x = n
    · subst hxn; simp [set_thread, hth2] at hx
    · have h2 : (k2.threads x).status = .THREAD_READY := by
        simpa [set_thread, hxn] using hx
      rw [hth2 x, if_neg hxn, (a10 x hxn).2] at h2; cases h2
  · show k2.idle_thread = none
    rw [hidle]; exact hidm
  · show k2.semas _ = _ ∧ k2.holder _ = _
    rw [hsem, hhold]; exact ⟨e6, e7⟩
  · intro x hx
    show x ∈ k2.all_list
    rw [hall, e5]
    show x ∈ ka.all_list
    rw [a3]
    by_cases hxn : x = n
    · simp [hxn]
    · exfalso
      have h2 : (k2.threads x).magic = THREAD_MAGIC := by
        simpa [is_thread, set_thread, hxn] using hx
      rw [hth2 x, if_neg hxn, (a10 x hxn).1] at h2
      simp [THREAD_MAGIC] at h2
  · exact hrl
  · exact hrn
  · show k2.all_list = _
    rw [hall, e5]; exact a3
  · simp [set_thread, hth2, a8]
  · simp [set_thread, a5]

/-- The invariant and priority-correctness hold in every state reached when
`thread_unblock` is only called on threads that are not above the running thread. -/
theorem sched_reachable_ok (k : Kernel) (hr : sched_reachable unblock_not_above k) :
    sched_ok k ∧
      ∀ x ∈ k.ready_list, (k.threads x).priority ≤ (k.threads k.running).priority := by
  induction hr with
  | init page k0 h0 =>
    obtain ⟨k1, e1, e2, e3, -⟩ := thread_init_boot page
    rw [h0] at e1
    simp only [Outcome.returned.injEq, true_and] at e1
    subst e1
    refine ⟨e2, ?_⟩
    intro x hx; rw [e3] at hx; cases hx
  | step k k1 _ hs ih =>
    obtain ⟨hok, htop⟩ := ih
    cases hs with
    | create_failed priority tid hc =>
      simp only [thread_create, Outcome.returned.injEq] at hc
      rw [← hc.2]; exact ⟨hok, htop⟩
    | create t priority tid ht hc => exact (sched_ok_create k t priority hok htop ht).1 tid k1 hc
    | create_switched t priority ht hc => exact (sched_ok_create k t priority hok htop ht).2 k1 hc
    | create_resumed t tid hc => exact sched_ok_create_finish k k1 t tid tid _ hok htop rfl hc
    | block hb => exact sched_ok_block k k1 hok hb
    | unblock t hal hu =>
      obtain ⟨h1, hrun, -, hprio, hmem⟩ := sched_ok_unblock k k1 t hok hu
      refine ⟨h1, ?_⟩
      intro x hx
      rw [hprio, hrun, hprio]
      rcases (hmem x).1 hx with hxt | hxl
      · rw [hxt]; exact hal
      · exact htop x hxl

/-- C2 (as amended): in every state reached from the state after `thread_init` by
`thread_create`, `thread_block` and `thread_unblock` calls within their assertions, where
`thread_unblock` is only called on threads whose priority does not exceed the priority of
the running thread, no ready thread has a priority above the running thread. -/
theorem priority_correct_of_reachable (k : Kernel)
    (hr : sched_reachable unblock_not_above k) : priority_correct k :=
  priority_correct_of_top k (sched_reachable_ok k hr).1 (sched_reachable_ok k hr).2

theorem booted_eq : thread_init (boot_memory 0) = .returned () booted := rfl

theorem after_create_eq : thread_create booted (some 1) 50 = .returned 2 after_create := rfl

theorem after_block_eq : thread_block after_create = some after_block := rfl

theorem after_unblock_eq : thread_unblock after_block 1 = some after_unblock := rfl

theorem booted_running_ok : running_ok booted := ⟨rfl, rfl⟩

theorem three_waiters_running_ok : running_ok three_waiters := ⟨rfl, rfl⟩

theorem three_waiters_ready_ok : ready_ok three_waiters := by
  intro t ht; cases ht

theorem three_waiters_waiters_ok : waiters_ok three_waiters (.cell 0) := by
  unfold waiters_ok; decide

theorem aging_example_running_ok : running_ok aging_example := ⟨rfl, rfl⟩

/-- Witness of C1: with waiters of priorities 10, 30, 20 one `sema_up` succeeds and removes
one position of the wait list, which holds a waiter of maximal priority. -/
theorem sema_up_wakes_first_max_witness :
    ∃ i m k1, first_max three_waiters [1, 2, 3] i m ∧
      sema_up three_waiters (.cell 0) = some k1 ∧
      k1.semas (.cell 0) = { value := 1, waiters := [1, 2, 3].eraseIdx i } := by
  obtain ⟨i, m, -, k1, h1, -, -, -, -, h6, h7, -⟩ :=
    (sema_up_wakes_first_max three_waiters (.cell 0) three_waiters_running_ok
      three_waiters_ready_ok three_waiters_waiters_ok (by decide)).2 (by decide)
  exact ⟨i, m, k1, h1, h6, h7⟩

/-- The example of the specification: after one `sema_up` by the initial thread (priority
31) the waiter of priority 30 is the only ready thread and the waiters of priorities 10 and
20 are left. -/
theorem sema_up_three_waiters :
    (sema_up three_waiters (.cell 0)).map
        (fun k => (k.running, (k.semas (.cell 0)).waiters, (k.semas (.cell 0)).value,
          k.ready_list))
      = some (0, [1, 3], 1, [2]) := by
  decide

/-- C2 as stated fails: after a `thread_create` of priority 50, a `thread_block` by the new
thread and a `thread_unblock` of it by the initial thread (priority 31), all within their
assertions, the thread of priority 50 is ready while the thread of priority 31 runs. -/
theorem priority_correct_fails_after_unblock :
    sched_reachable (fun _ _ => True) after_unblock ∧ ¬ priority_correct after_unblock := by
  refine ⟨?_, ?_⟩
  · exact .step after_block after_unblock
      (.step after_create after_block
        (.step booted after_create (.init 0 booted booted_eq)
          (.create booted after_create 1 50 2 (by decide) after_create_eq))
        (.block after_create after_block after_block_eq))
      (.unblock after_block after_unblock 1 trivial after_unblock_eq)
  · intro h
    have := h 1 rfl
    revert this
    decide

/-- Witness of C2 (as amended): the state after a `thread_create` of priority 50 and a
`thread_block` by the new thread. -/
theorem priority_correct_of_reachable_witness :
    sched_reachable unblock_not_above after_block ∧ priority_correct after_block :=
  have hr : sched_reachable unblock_not_above after_block :=
    .step after_create after_block
      (.step booted after_create (.init 0 booted booted_eq)
        (.create booted after_create 1 50 2 (by decide) after_create_eq))
      (.block after_create after_block after_block_eq)
  ⟨hr, priority_correct_of_reachable after_block hr⟩

/-- Witness of C8: the initial thread with usage 10.0 and niceness 0 gets priority 60. -/
theorem thread_aging_priority_formula_witness :
    ∃ k1, thread_aging aging_example 1 = some k1 ∧ (k1.threads 0).priority = 60 := by
  obtain ⟨k1, h1, h2, -⟩ := thread_aging_priority_formula aging_example
    aging_example_running_ok 0 (by decide) (by decide) (by decide) (by decide) (by decide)
  refine ⟨k1, h1, ?_⟩
  rw [h2]
  decide

/-- Witness of C9: a load of 1.0 with one running thread and an empty ready list stays
1.0. -/
theorem thread_aging_load_formula_witness :
    ∃ k1, thread_aging aging_example 0 = some k1 ∧ k1.averageloading = 16384 := by
  obtain ⟨k1, h1, h2⟩ := thread_aging_load_formula aging_example
    aging_example_running_ok (by decide) (by decide) (by decide)
  refine ⟨k1, h1, ?_⟩
  rw [h2]
  decide

/-- Witness of C10: with the load 1.0 a usage of 10.0 decays to 2/3 of it. -/
theorem thread_aging_usage_formula_witness :
    ∃ k1, thread_aging aging_example 0 = some k1 ∧ (k1.threads 0).recent_cpu = 109220 := by
  obtain ⟨k1, h1, -, -, h4⟩ := thread_aging_usage_formula aging_example
    aging_example_running_ok (by decide) (by decide) (by decide) 0 (by decide) (by decide)
    (by decide) (by decide) (by decide)
  obtain ⟨k2, h6, h7, -⟩ := thread_aging_zero aging_example aging_example_running_ok
    (by decide) _ rfl (by decide) (by decide)
  rw [h1] at h6
  have := Option.some.inj h6
  subst this
  refine ⟨k1, h1, ?_⟩
  rw [h4, h7]
  decide


/-! ## `process_wait` -/

theorem process_wait_scan_none (k : Kernel) (child_tid : Int) (l : List Nat) :
    ∀ i, (∀ c ∈ l, (k.threads c).tid ≠ child_tid) →
      process_wait_scan k child_tid l i = i + l.length := by
  induction l with
  | nil => intro i _; rfl
  | cons c rest ih =>
    intro i h
    have hc : (k.threads c).tid ≠ child_tid := h c (by simp)
    rw [process_wait_scan, if_neg hc, ih (i + 1) (fun x hx => h x (List.mem_cons_of_mem _ hx))]
    simp only [List.length_cons]; omega

/-- C4: when no member of the child list of the caller has the tid `child_tid`,
`process_wait` returns -1; it calls no semaphore operation (the trace and all semaphores
are unchanged), blocks no thread, and leaves every child list as it was. -/
theorem process_wait_not_child (k : Kernel) (child_tid : Int) (hrun : running_ok k)
    (hno : ∀ c ∈ (k.threads k.running).child, (k.threads c).tid ≠ child_tid) :
    ∃ k1, process_wait k child_tid = .returned (-1) k1 ∧
      k1.trace = k.trace ∧ k1.semas = k.semas ∧
      k1.running = k.running ∧ k1.ready_list = k.ready_list ∧
      (∀ t, (k1.threads t).child = (k.threads t).child ∧
        (k1.threads t).status = (k.threads t).status) := by
  refine ⟨set_thread k k.running (fun x => { x with waiting := true }), ?_, rfl, rfl, rfl, rfl,
    ?_⟩
  · unfold process_wait
    rw [thread_current_of_running_ok k hrun]
    simp only
    have hchild : ((set_thread k k.running (fun x => { x with waiting := true })).threads
        k.running).child = (k.threads k.running).child := by simp [set_thread]
    have hscan := process_wait_scan_none
      (set_thread k k.running (fun x => { x with waiting := true })) child_tid
      (k.threads k.running).child 0 (by
        intro c hc
        have := hno c hc
        by_cases hcr : c = k.running
        · subst hcr; simpa [set_thread] using this
        · simpa [set_thread, hcr] using this)
    rw [hchild, hscan]
    simp
  · intro t
    by_cases ht : t = k.running
    · subst ht; simp [set_thread]
    · simp [set_thread, ht]


/-! ## `process_exit` -/

/-- A `thread_block` with another thread to run: the caller is blocked and another thread
runs; semaphores, trace and page directories are untouched. -/
theorem thread_block_facts (k : Kernel) (hrun : running_ok k) (hready : ready_ok k)
    (hnext : k.ready_list ≠ [] ∨
      ∃ i, k.idle_thread = some i ∧ is_thread k i = true ∧ i ≠ k.running) :
    ∃ k1, thread_block k = some k1 ∧ k1.semas = k.semas ∧ k1.trace = k.trace ∧
      (k1.threads k.running).status = .THREAD_BLOCKED ∧
      (∀ t, (k1.threads t).pagedir = (k.threads t).pagedir) ∧
      k1.running ≠ k.running := by
  unfold thread_block
  rw [thread_current_of_running_ok k hrun]
  simp only
  have hpd : ∀ (n : Nat) (rl : List Nat) (t : Nat),
      (({ set_thread { set_thread k k.running (fun t => { t with status := .THREAD_BLOCKED })
          with ready_list := rl, running := n } n
          (fun t => { t with status := .THREAD_RUNNING }) with thread_ticks := 0 } :
          Kernel).threads t).pagedir = (k.threads t).pagedir := by
    intro n rl t
    simp only [set_thread]
    split <;> split <;> rfl
  cases hl : k.ready_list with
  | nil =>
    rcases hnext with h | ⟨i, hi, hit, hic⟩
    · exact absurd hl h
    · rw [schedule_nil _ i (by simpa [set_thread] using hl) (by simpa [set_thread] using hi)
        (by simpa using hit) (by simp [set_thread]) (by simp [set_thread])]
      refine ⟨_, rfl, rfl, rfl, ?_, ?_, hic⟩
      · simp [set_thread, Ne.symm hic]
      · intro t
        have := hpd i k.ready_list t
        exact this
  | cons n rest =>
    have hn := hready n (by rw [hl]; simp)
    have hnc : n ≠ k.running := by
      intro hc; have := hn.2; rw [hc, hrun.2] at this; cases this
    rw [schedule_cons _ n rest (by simpa [set_thread] using hl)
      (by simpa using hn.1) (by simp [set_thread]) (by simp [set_thread])]
    refine ⟨_, rfl, rfl, rfl, ?_, ?_, hnc⟩
    · simp [set_thread, Ne.symm hnc]
    · intro t; exact hpd n rest t


/-- C6 (as amended): `process_exit` never looks at the parent.  It signals the exit
rendezvous and then always performs the down on the reaped rendezvous `wait` (at once, or
when it runs again after the `thread_yield` of the `sema_up`).  In any state `k` in which
the caller runs that down with another thread available to run: if the count of `wait` is
zero the caller blocks on it, with its page directory and the trace of teardown calls
untouched; if the count is positive the caller takes one count, runs to completion and
tears down its page directory. -/
theorem process_exit_waits_for_reap (k : Kernel) (hrun : running_ok k) (hready : ready_ok k)
    (hnext : k.ready_list ≠ [] ∨
      ∃ i, k.idle_thread = some i ∧ is_thread k i = true ∧ i ≠ k.running) :
    (∀ k0, thread_current k0 = some k.running →
      process_exit k0 = match sema_up k0 (.exit k.running) with
        | none => .panic
        | some k1 =>
          if k1.running = k.running then process_exit_wait k1 k.running else .switched k1) ∧
    ((k.semas (.wait k.running)).value = 0 →
      ∃ k1, process_exit_wait k k.running = .blocked k1 ∧
        (k1.threads k.running).status = .THREAD_BLOCKED ∧
        k1.running ≠ k.running ∧
        k1.semas (.wait k.running) =
          { value := 0, waiters := (k.semas (.wait k.running)).waiters ++ [k.running] } ∧
        (k1.threads k.running).pagedir = (k.threads k.running).pagedir ∧
        k1.trace = k.trace ++ [.sema_down (.wait k.running)]) ∧
    ((k.semas (.wait k.running)).value ≠ 0 →
      ∃ k1, process_exit_wait k k.running = .returned () k1 ∧
        k1.semas (.wait k.running) =
          { value := (k.semas (.wait k.running)).value - 1,
            waiters := (k.semas (.wait k.running)).waiters } ∧
        (k1.threads k.running).pagedir = none ∧
        k1.trace = k.trace ++ .sema_down (.wait k.running) ::
          (match (k.threads k.running).pagedir with
            | none => []
            | some pd => [.pagedir_destroy pd])) := by
  refine ⟨?_, ?_, ?_⟩
  · intro k0 h0
    unfold process_exit
    rw [h0]
  · intro hv
    have hv0 : ((log k (.sema_down (.wait k.running))).semas (.wait k.running)).value = 0 := hv
    obtain ⟨k1, hb, hs, ht, hst, hpd, hr⟩ := thread_block_facts
      (set_sema (log k (.sema_down (.wait k.running))) (.wait k.running)
        { value := 0,
          waiters := ((log k (.sema_down (.wait k.running))).semas (.wait k.running)).waiters
            ++ [k.running] })
      hrun hready hnext
    refine ⟨k1, ?_, hst, hr, ?_, hpd _, ?_⟩
    · unfold process_exit_wait sema_down
      simp only [hv0, if_true]
      have hc : thread_current (log k (.sema_down (.wait k.running))) = some k.running :=
        thread_current_of_running_ok k hrun
      simp only [hc, hb]
    · rw [hs]
      simp only [set_sema_same]
      rfl
    · rw [ht]; rfl
  · intro hv
    have hv0 : ¬ ((log k (.sema_down (.wait k.running))).semas (.wait k.running)).value = 0 :=
      hv
    have hsd : sema_down k (.wait k.running) = .returned ()
        (set_sema (log k (.sema_down (.wait k.running))) (.wait k.running)
          { value := (k.semas (.wait k.running)).value - 1,
            waiters := (k.semas (.wait k.running)).waiters }) := by
      unfold sema_down
      simp only [hv0, if_false]
      rfl
    unfold process_exit_wait
    rw [hsd]
    simp only
    have hpdk : ((set_sema (log k (.sema_down (.wait k.running))) (.wait k.running)
          { value := (k.semas (.wait k.running)).value - 1,
            waiters := (k.semas (.wait k.running)).waiters }).threads k.running).pagedir
        = (k.threads k.running).pagedir := rfl
    rw [hpdk]
    cases hp : (k.threads k.running).pagedir with
    | none =>
      refine ⟨_, rfl, by simp, ?_, ?_⟩
      · rw [hpdk, hp]
      · simp [set_sema, log]
    | some pd =>
      refine ⟨_, rfl, by simp [log, set_thread], ?_, ?_⟩
      · simp [log, set_thread]
      · simp [set_sema, log, set_thread]


/-! ## `exit` and the descriptor table -/

/-- The state after the `for` loop of `exit` run for `n` iterations from descriptor `i`. -/
theorem exit_close_loop_spec (cur : Nat) :
    ∀ (n i : Nat) (k : Kernel),
      (exit_close_loop k cur n i).semas = k.semas ∧
      (exit_close_loop k cur n i).running = k.running ∧
      (∀ t, ((exit_close_loop k cur n i).threads t).exit_status = (k.threads t).exit_status ∧
        ((exit_close_loop k cur n i).threads t).status = (k.threads t).status ∧
        ((exit_close_loop k cur n i).threads t).magic = (k.threads t).magic) ∧
      (∀ j, ((exit_close_loop k cur n i).threads cur).fd j =
        if i ≤ j ∧ j < i + n then none else (k.threads cur).fd j) ∧
      (exit_close_loop k cur n i).trace = k.trace ++
        ((List.range' i n).filterMap (fun j => (k.threads cur).fd j)).map Event.file_close := by
  intro n
  induction n with
  | zero =>
    intro i k
    refine ⟨rfl, rfl, fun _ => ⟨rfl, rfl, rfl⟩, ?_, by simp [exit_close_loop]⟩
    intro j
    rw [if_neg (by omega)]; rfl
  | succ n ih =>
    intro i k
    cases hfd : (k.threads cur).fd i with
    | none =>
      have hstep : exit_close_loop k cur (n + 1) i = exit_close_loop k cur n (i + 1) := by
        rw [exit_close_loop]; simp only [hfd]
      obtain ⟨h1, h2, h3, h4, h5⟩ := ih (i + 1) k
      rw [hstep]
      refine ⟨h1, h2, h3, ?_, ?_⟩
      · intro j
        rw [h4 j]
        by_cases hj : j = i
        · subst hj
          rw [if_neg (by omega), hfd]; simp
        · by_cases hc : i + 1 ≤ j ∧ j < i + 1 + n
          · rw [if_pos hc, if_pos (by omega)]
          · rw [if_neg hc, if_neg (by omega)]
      · rw [h5, List.range'_succ, List.filterMap_cons, hfd]
    | some curfd =>
      have hstep : exit_close_loop k cur (n + 1) i
          = exit_close_loop (close_file k cur i curfd) cur n (i + 1) := by
        rw [exit_close_loop]; simp only [hfd]
      obtain ⟨h1, h2, h3, h4, h5⟩ := ih (i + 1) (close_file k cur i curfd)
      have hcf : ∀ j, ((close_file k cur i curfd).threads cur).fd j
          = if j = i then none else (k.threads cur).fd j := by
        intro j; simp [close_file, log, set_thread]
      rw [hstep]
      refine ⟨h1, h2, ?_, ?_, ?_⟩
      · intro t
        obtain ⟨a, b, c⟩ := h3 t
        rw [a, b, c]
        by_cases ht : t = cur
        · subst ht; simp [close_file, log, set_thread]
        · simp [close_file, log, set_thread, ht]
      · intro j
        rw [h4 j, hcf j]
        by_cases hj : j = i
        · subst hj
          rw [if_neg (by omega), if_pos rfl, if_pos (by omega)]
        · rw [if_neg hj]
          by_cases hc : i + 1 ≤ j ∧ j < i + 1 + n
          · rw [if_pos hc, if_pos (by omega)]
          · rw [if_neg hc, if_neg (by omega)]
      · rw [h5, List.range'_succ, List.filterMap_cons, hfd]
        have hcong : (List.range' (i + 1) n).filterMap
              (fun j => ((close_file k cur i curfd).threads cur).fd j)
            = (List.range' (i + 1) n).filterMap (fun j => (k.threads cur).fd j) := by
          apply List.filterMap_congr
          intro j hj
          have : i + 1 ≤ j := (List.mem_range'_1.1 hj).1
          rw [hcf j, if_neg (by omega)]
        rw [hcong]
        simp [close_file, log, set_thread]


/-- C7: `exit (status)` records the status, clears every descriptor slot and calls
`file_close` exactly once on each handle that occupied a slot and on nothing else (`closed`
lists the handles in the order of the calls), all before `thread_exit` starts; the exit
rendezvous is signalled by the `sema_up` that `process_exit` then runs first, on the state
`k1` in which the cleanup is complete and no semaphore has been touched. -/
theorem exit_closes_descriptors (k : Kernel) (status : Int) (hrun : running_ok k)
    (hfd : fd_table_ok (k.threads k.running).fd) :
    ∃ (k1 : Kernel) (closed : List Nat),
      k1 = exit_cleanup k k.running status ∧
      exit k status = thread_exit k1 ∧
      (k1.threads k.running).exit_status = status ∧
      (∀ i, (k1.threads k.running).fd i = none) ∧
      k1.trace = k.trace ++ closed.map Event.file_close ∧
      closed.Nodup ∧
      (∀ h, h ∈ closed ↔ ∃ i, (k.threads k.running).fd i = some h) ∧
      k1.semas = k.semas ∧
      process_exit k1 = (match sema_up k1 (.exit k.running) with
        | none => .panic
        | some k2 =>
          if k2.running = k.running then process_exit_wait k2 k.running else .switched k2) := by
  obtain ⟨h1, h2, h3, h4, h5⟩ := exit_close_loop_spec k.running 125 3
    (set_thread k k.running (fun x => { x with exit_status := status }))
  have hfd0 : ∀ j, ((set_thread k k.running
      (fun x => { x with exit_status := status })).threads k.running).fd j
      = (k.threads k.running).fd j := by
    intro j; simp [set_thread]
  have hcur : thread_current (exit_cleanup k k.running status) = some k.running := by
    have hr2 : (exit_cleanup k k.running status).running = k.running := h2
    have hst : ((exit_cleanup k k.running status).threads k.running).status
        = .THREAD_RUNNING := by
      have := (h3 k.running).2.1
      unfold exit_cleanup
      rw [this]; simpa [set_thread] using hrun.2
    have hmg : ((exit_cleanup k k.running status).threads k.running).magic
        = THREAD_MAGIC := by
      have := (h3 k.running).2.2
      unfold exit_cleanup
      rw [this]
      have h := hrun.1
      unfold is_thread at h
      simpa [set_thread] using h
    simp [thread_current, is_thread, hr2, hst, hmg]
  refine ⟨exit_cleanup k k.running status,
    (List.range' 3 125).filterMap (fun j => (k.threads k.running).fd j), rfl, ?_, ?_, ?_, ?_,
    ?_, ?_, ?_, ?_⟩
  · unfold exit
    rw [thread_current_of_running_ok k hrun]
  · unfold exit_cleanup
    rw [(h3 _).1]; simp [set_thread]
  · intro i
    unfold exit_cleanup
    rw [h4 i, hfd0 i]
    split
    · rfl
    · rename_i hc
      cases hi : (k.threads k.running).fd i with
      | none => rfl
      | some h =>
        exfalso
        have := hfd.1 i h hi
        omega
  · unfold exit_cleanup
    rw [h5]
    have : (fun j => ((set_thread k k.running
        (fun x => { x with exit_status := status })).threads k.running).fd j)
        = (fun j => (k.threads k.running).fd j) := funext hfd0
    rw [this]; rfl
  · refine List.Nodup.filterMap ?_ (List.nodup_range' 3 125)
    intro a a1 b ha ha1
    exact hfd.2 a a1 b (by simpa using ha) (by simpa using ha1)
  · intro h
    rw [List.mem_filterMap]
    constructor
    · rintro ⟨j, -, hj⟩; exact ⟨j, hj⟩
    · rintro ⟨i, hi⟩
      have := hfd.1 i h hi
      exact ⟨i, List.mem_range'_1.2 ⟨by omega, by omega⟩, hi⟩
  · unfold exit_cleanup; rw [h1]; rfl
  · unfold process_exit
    rw [hcur]

theorem fd_table_ok_close_file (k : Kernel) (cur fd curfd : Nat)
    (h : fd_table_ok (k.threads cur).fd) :
    fd_table_ok ((close_file k cur fd curfd).threads cur).fd := by
  have hcf : ∀ j, ((close_file k cur fd curfd).threads cur).fd j
      = if j = fd then none else (k.threads cur).fd j := by
    intro j; simp [close_file, log, set_thread]
  constructor
  · intro i x hi
    rw [hcf i] at hi
    split at hi
    · cases hi
    · exact h.1 i x hi
  · intro i j x hi hj
    rw [hcf i] at hi
    rw [hcf j] at hj
    split at hi
    · cases hi
    · split at hj
      · cases hj
      · exact h.2 i j x hi hj

theorem fd_table_ok_open_loop (cur filest : Nat) :
    ∀ (n i : Nat) (k : Kernel), 3 ≤ i → i + n ≤ 128 → fd_table_ok (k.threads cur).fd →
      (∀ j, (k.threads cur).fd j ≠ some filest) →
      fd_table_ok ((open_loop k cur filest n i).2.threads cur).fd := by
  intro n
  induction n with
  | zero => intro i k _ _ h _; exact h
  | succ n ih =>
    intro i k h3 hn h hfresh
    cases hfd : (k.threads cur).fd i with
    | some x =>
      have : open_loop k cur filest (n + 1) i = open_loop k cur filest n (i + 1) := by
        rw [open_loop]; simp only [hfd]
      rw [this]
      exact ih (i + 1) k (by omega) (by omega) h hfresh
    | none =>
      have : open_loop k cur filest (n + 1) i = ((i : Int), set_thread k cur (fun x =>
          { x with fd := fun j => if j = i then some filest else x.fd j })) := by
        rw [open_loop]; simp only [hfd]
      rw [this]
      have hof : ∀ j, ((set_thread k cur (fun x =>
          { x with fd := fun j => if j = i then some filest else x.fd j })).threads cur).fd j
          = if j = i then some filest else (k.threads cur).fd j := by
        intro j; simp [set_thread]
      constructor
      · intro a x ha
        rw [hof a] at ha
        split at ha
        · rename_i hai; rw [hai]; omega
        · exact h.1 a x ha
      · intro a b x ha hb
        rw [hof a] at ha
        rw [hof b] at hb
        split at ha
        · rename_i hai
          split at hb
          · rename_i hbi; rw [hai, hbi]
          · exfalso
            have hx := Option.some.inj ha
            rw [← hx] at hb
            exact hfresh b hb
        · split at hb
          · exfalso
            have hx := Option.some.inj hb
            rw [← hx] at ha
            exact hfresh a ha
          · exact h.2 a b x ha hb

/-- A control block set up by `init_thread` has an empty descriptor table. -/
theorem init_thread_fd (k k1 : Kernel) (t : Nat) (p : Int) (h : init_thread k t p = some k1) :
    ∀ i, (k1.threads t).fd i = none := by
  intro i
  unfold init_thread at h
  split at h
  · have h1 := Option.some.inj h
    subst h1
    by_cases ht : t = k.running
    · subst ht; simp [set_thread, sema_init, set_sema, thread_zero]
    · simp [set_thread, sema_init, set_sema, thread_zero, ht]
  · cases h

theorem fd_table_ok_of_empty (fd : Nat → Option Nat) (h : ∀ i, fd i = none) :
    fd_table_ok fd := by
  constructor
  · intro i x hi; rw [h i] at hi; cases hi
  · intro i j x hi; rw [h i] at hi; cases hi

theorem booted_fd (i : Nat) : (booted.threads 0).fd i = none := by
  show (if i < 128 then none else none : Option Nat) = none
  split <;> rfl

theorem files_open_fd_table_ok : fd_table_ok (files_open.threads files_open.running).fd := by
  have h0 : fd_table_ok (booted.threads 0).fd := fd_table_ok_of_empty _ booted_fd
  have h1 := fd_table_ok_open_loop 0 100 125 3 booted (by omega) (by omega) h0
    (by intro j; rw [booted_fd j]; simp)
  have hrun : files_open.running = 0 := rfl
  rw [hrun]
  refine fd_table_ok_open_loop 0 101 125 3 _ (by omega) (by omega) h1 ?_
  intro j
  show (if j = 3 then some 100 else (booted.threads 0).fd j) ≠ some 101
  rw [booted_fd j]
  split <;> simp

/-! ## The lifecycle on concrete states -/

/-- Witness of C4: the initial thread has children with tids 1 and 2, and
`process_wait (99)` returns -1 with the trace unchanged. -/
theorem process_wait_not_child_witness :
    ∃ k1, process_wait child_ready 99 = .returned (-1) k1 ∧ k1.trace = child_ready.trace := by
  obtain ⟨k1, h1, h2, -⟩ := process_wait_not_child child_ready 99 ⟨rfl, rfl⟩ (by decide)
  exact ⟨k1, h1, h2⟩

/-- C3 fails on the code: the child (tid 2) of the initial thread calls `process_wait`
itself (which returns -1 and sets the flag `waiting` of the child), then exits with
status 7 and signals its exit rendezvous.  The child is still in the child list of the
initial thread and has never been waited on, yet `process_wait (2)` by the initial thread
returns -1, leaves the child in the child list and does not signal its reaped
rendezvous. -/
theorem process_wait_refuses_child_that_waited :
    process_wait child_running 99 = .returned (-1) child_waited ∧
    exit child_waited 7 = .switched child_exited ∧
    child_exited.running = 0 ∧
    (child_exited.threads 0).child = [0, 1] ∧
    (child_exited.threads 1).tid = 2 ∧
    (child_exited.threads 1).parent = some 0 ∧
    (child_exited.threads 1).exit_status = 7 ∧
    (child_exited.threads 1).waiting = true ∧
    child_exited.semas (.exit 1) = { value := 1, waiters := [] } ∧
    (process_wait child_exited 2).value = some (-1) ∧
    (((process_wait child_exited 2).state_or child_exited).threads 0).child = [0, 1] ∧
    ((process_wait child_exited 2).state_or child_exited).semas (.wait 1)
      = { value := 0, waiters := [] } := by
  refine ⟨rfl, rfl, ?_⟩
  decide

/-- C5 fails on the code: `process_execute` returns the tid 2 of the new thread while that
thread is still ready and has not called `load`; the trace holds the `filesys_open` and
the `tid_lock` operations of two `allocate_tid` calls and no `sema_down` on a `load`
semaphore.  When the child then runs `start_process` and its `load` fails, it signals the
`load` semaphore of the parent (which nobody downs), records `loaded = 0` and exits with
status -1. -/
theorem process_execute_returns_before_load :
    process_execute booted (some 9) true (some 1) = .returned 2 exec_returned ∧
    exec_returned.running = 0 ∧
    (exec_returned.threads 1).status = .THREAD_READY ∧
    exec_returned.trace =
      [.sema_down (.lock 0), .sema_up (.lock 0), .filesys_open true,
       .sema_down (.lock 0), .sema_up (.lock 0)] ∧
    start_process exec_parent_waits 9 (some 5) false = .switched exec_child_failed ∧
    (exec_child_failed.threads 1).loaded = false ∧
    (exec_child_failed.threads 1).exit_status = -1 ∧
    exec_child_failed.semas (.load 0) = { value := 1, waiters := [] } := by
  refine ⟨rfl, ?_, ?_, ?_, rfl, ?_⟩
  · decide
  · decide
  · decide
  · decide

set_option maxHeartbeats 4000000 in
/-- C6 as stated fails: thread `B` (page 2) calls `exit (5)` after its parent `A` (page 1)
has exited, been reaped and died.  `process_exit` signals the exit rendezvous and, when
`B` runs again, performs the down on the reaped rendezvous: `B` blocks there, its page
directory 5 is not destroyed. -/
theorem orphan_exit_blocks :
    (orphan_8.threads 2).parent = some 1 ∧
    (orphan_8.threads 1).status = .THREAD_DYING ∧
    1 ∉ orphan_8.all_list ∧
    orphan_8.running = 2 ∧
    exit orphan_8 5 = .switched orphan_9 ∧
    orphan_10.running = 2 ∧
    process_exit_wait orphan_10 2 = .blocked orphan_11 ∧
    (orphan_11.threads 2).status = .THREAD_BLOCKED ∧
    (orphan_11.threads 2).pagedir = some 5 ∧
    orphan_11.semas (.wait 2) = { value := 0, waiters := [2] } ∧
    Event.sema_down (.wait 2) ∈ orphan_11.trace ∧
    Event.pagedir_destroy 5 ∉ orphan_11.trace := by
  refine ⟨?_, ?_, ?_, ?_, rfl, ?_, rfl, ?_⟩
  · decide
  · decide
  · decide
  · decide
  · decide
  · decide

set_option maxHeartbeats 4000000 in
/-- Witness of C6 (as amended): the orphan `B` at the down on its reaped rendezvous. -/
theorem process_exit_waits_for_reap_witness :
    ∃ k1, process_exit_wait orphan_10 orphan_10.running = .blocked k1 ∧
      (k1.threads orphan_10.running).pagedir = (orphan_10.threads orphan_10.running).pagedir :=
  by
  obtain ⟨k1, h1, -, -, -, h5, -⟩ := (process_exit_waits_for_reap orphan_10 ⟨rfl, rfl⟩
    (by unfold ready_ok; decide) (Or.inl (by decide))).2.1 (by decide)
  exact ⟨k1, h1, h5⟩

/-- Witness of C7: the initial thread exits with two files open. -/
theorem exit_closes_descriptors_witness :
    ∃ (k1 : Kernel) (closed : List Nat), exit files_open 7 = thread_exit k1 ∧
      (∀ i, (k1.threads 0).fd i = none) ∧
      k1.trace = files_open.trace ++ closed.map Event.file_close ∧
      closed.Nodup ∧ 100 ∈ closed ∧ 101 ∈ closed := by
  obtain ⟨k1, closed, -, h2, -, h4, h5, h6, h7, -⟩ :=
    exit_closes_descriptors files_open 7 ⟨rfl, rfl⟩ files_open_fd_table_ok
  exact ⟨k1, closed, h2, h4, h5, h6, (h7 100).2 ⟨3, by decide⟩, (h7 101).2 ⟨4, by decide⟩⟩

/-! ## Niceness and the usage update -/

/-- The usage expression of `thread_aging` in closed form: the decayed usage plus the
niceness in fixed point. -/
theorem aging_recent_cpu_nice (l n u : Int) (h0 : 0 ≤ l) (h1 : 2 * l + 16384 < 2147483648)
    (hn1 : -20 ≤ n) (hn2 : n ≤ 20)
    (hu1 : -2147155968 ≤ u) (hu2 : u < 2147155968) :
    aging_recent_cpu l n u
      = some (n * 16384 + Int.tdiv (Int.tdiv (2 * l * 16384) (2 * l + 16384) * u) 16384) := by
  have e1 : CalculatefNumber 2 l 2 true = some (2 * l) :=
    CalculatefNumber_int_mul _ _ (by omega) (by omega)
  have e2 : CalculatefNumber 1 (2 * l) 0 true = some (16384 + 2 * l) := by
    have := CalculatefNumber_scale_add 1 (2 * l) (by omega) (by omega) (by omega) (by omega)
    simpa using this
  obtain ⟨e3, hc0, hc1⟩ := aging_coef l h0 h1
  generalize Int.tdiv (2 * l * 16384) (2 * l + 16384) = c at e3 hc0 hc1
  have hp1 : -(16384 * 2147155968) ≤ c * u := by nlinarith
  have hp2 : c * u ≤ 16384 * 2147155968 - 16384 := by nlinarith
  have hq : Int.tdiv (c * u) 16384 = if 0 ≤ c * u then (c * u) / 16384 else -((-(c * u)) / 16384) :=
    tdiv_pos_eq _ _ (by omega)
  have hq1 : -2147155968 ≤ Int.tdiv (c * u) 16384 := by rw [hq]; split <;> omega
  have hq2 : Int.tdiv (c * u) 16384 < 2147155968 := by rw [hq]; split <;> omega
  have e4 : CalculatefNumber c u 2 false = some (Int.tdiv (c * u) 16384) := by
    have hmode : CalculatefNumber c u 2 false
        = (int64_div (toInt64 (c * u)) 16384).map toInt32 := by
      simp [CalculatefNumber]
    rw [hmode, toInt64_of_range _ (by omega) (by omega), int64_div_pos _ _ (by omega)]
    simp [toInt32_of_range _ (by omega : -2147483648 ≤ Int.tdiv (c * u) 16384) (by omega)]
  have e5 : CalculatefNumber n (Int.tdiv (c * u) 16384) 0 true
      = some (n * 16384 + Int.tdiv (c * u) 16384) :=
    CalculatefNumber_scale_add n (Int.tdiv (c * u) 16384) (by omega) (by omega)
      (by omega) (by omega)
  unfold aging_recent_cpu
  simp only [e1, e2, e3, e4, e5, Option.bind_eq_bind, Option.some_bind]

/-- C11 (as amended): the once-per-second update of `thread_aging (0)` adds the niceness of
the thread in 17.14 fixed point to its decayed usage.  For two threads other than the idle
thread with equal usage, the usages after the update differ by the difference of the two
niceness values times `2^14`; they are equal exactly when the niceness values are equal. -/
theorem thread_aging_usage_adds_nice (k : Kernel) (hrun : running_ok k)
    (hnd : k.all_list.Nodup) (hl : 0 ≤ k.averageloading)
    (hov : 59 * k.averageloading + ((k.ready_list.length : Int) + 1) * 2 ^ 14 < 2 ^ 31)
    (t1 t2 : Nat) (h1 : t1 ∈ k.all_list) (h2 : t2 ∈ k.all_list)
    (hi1 : some t1 ≠ k.idle_thread) (hi2 : some t2 ≠ k.idle_thread)
    (hu : (k.threads t1).recent_cpu = (k.threads t2).recent_cpu)
    (hu1 : -2147155968 ≤ (k.threads t1).recent_cpu)
    (hu2 : (k.threads t1).recent_cpu < 2147155968)
    (hn1 : -20 ≤ (k.threads t1).nice ∧ (k.threads t1).nice ≤ 20)
    (hn2 : -20 ≤ (k.threads t2).nice ∧ (k.threads t2).nice ≤ 20) :
    ∃ k', thread_aging k 0 = some k' ∧
      (k'.threads t1).recent_cpu = (k.threads t1).nice * 2 ^ 14 +
        Int.tdiv (Int.tdiv (2 * k'.averageloading * 2 ^ 14) (2 * k'.averageloading + 2 ^ 14)
          * (k.threads t1).recent_cpu) (2 ^ 14) ∧
      (k'.threads t1).recent_cpu - (k'.threads t2).recent_cpu
        = ((k.threads t1).nice - (k.threads t2).nice) * 2 ^ 14 ∧
      ((k'.threads t1).recent_cpu = (k'.threads t2).recent_cpu ↔
        (k.threads t1).nice = (k.threads t2).nice) := by
  have h14 : (2 : Int) ^ 14 = 16384 := by norm_num
  have h31 : (2 : Int) ^ 31 = 2147483648 := by norm_num
  rw [h14, h31] at hov
  obtain ⟨k', e1, -, e3, e4, e5⟩ := thread_aging_zero k hrun hnd _ rfl hl hov
  have a1 := e5 t1 h1 hi1
  have a2 := e5 t2 h2 hi2
  rw [aging_recent_cpu_nice _ _ _ e3 e4 hn1.1 hn1.2 hu1 hu2] at a1
  rw [← hu, aging_recent_cpu_nice _ _ _ e3 e4 hn2.1 hn2.2 hu1 hu2] at a2
  have b1 := Option.some.inj a1
  have b2 := Option.some.inj a2
  rw [h14]
  refine ⟨k', e1, b1, ?_, ?_⟩
  · rw [b1, b2]; ring
  · rw [b1, b2]; constructor <;> intro h <;> omega

/-- C11 as stated fails: the initial thread (niceness 0) and its child (niceness 5 after
`thread_set_nice (5)`) both have usage 0 and neither is the idle thread; after
`thread_aging (0)` the usage of the initial thread is 0 and the usage of the child is
`5 * 2^14`. -/
theorem usage_update_depends_on_nice :
    nice_example.all_list = [0, 1] ∧ nice_example.idle_thread = none ∧
    (nice_example.threads 0).recent_cpu = 0 ∧ (nice_example.threads 1).recent_cpu = 0 ∧
    (nice_example.threads 0).nice = 0 ∧ (nice_example.threads 1).nice = 5 ∧
    ∃ k1, thread_aging nice_example 0 = some k1 ∧
      (k1.threads 0).recent_cpu = 0 ∧ (k1.threads 1).recent_cpu = 81920 := by
  refine ⟨by decide, by decide, by decide, by decide, by decide, by decide, _, rfl, ?_, ?_⟩
  · decide
  · decide

/-- Witness of C11 (as amended): the initial thread and its child of niceness 5. -/
theorem thread_aging_usage_adds_nice_witness :
    ∃ k1, thread_aging nice_example 0 = some k1 ∧
      (k1.threads 0).recent_cpu - (k1.threads 1).recent_cpu = (0 - 5) * 2 ^ 14 := by
  obtain ⟨k1, h1, -, h3, -⟩ := thread_aging_usage_adds_nice nice_example ⟨rfl, rfl⟩
    (by decide) (by decide) (by decide) 0 1 (by decide) (by decide) (by decide) (by decide)
    (by decide) (by decide) (by decide) (by decide) (by decide)
  exact ⟨k1, h1, h3⟩

/-! ## `thread_set_nice` in feedback mode -/

/-- In feedback mode `thread_set_priority` returns at once, so `thread_set_nice` stores the
niceness and changes nothing else. -/
theorem thread_set_nice_feedback (k : Kernel) (hrun : running_ok k) (nice : Int) :
    thread_set_nice true k nice
      = some (set_thread k k.running (fun t => { t with nice := nice })) := by
  unfold thread_set_nice
  rw [thread_current_of_running_ok k hrun]
  obtain ⟨p, hp⟩ := aging_priority_total
    ((set_thread k k.running (fun t => { t with nice := nice })).threads k.running).recent_cpu
    ((set_thread k k.running (fun t => { t with nice := nice })).threads k.running).nice
  simp only [hp]
  simp [thread_set_priority]

/-- C12 fails on the code: in feedback mode the initial thread (usage 0, priority 31, one
ready thread of priority 31) calls `thread_set_nice (20)`.  The priority expression gives
23, which is lower than 31, but the call only stores the niceness: the priority is still 31
and the caller still runs, with the ready list unchanged. -/
theorem thread_set_nice_feedback_keeps_priority :
    (child_ready.threads 0).recent_cpu = 0 ∧ (child_ready.threads 0).priority = 31 ∧
    child_ready.running = 0 ∧ child_ready.ready_list = [1] ∧
    aging_priority 0 20 = some 23 ∧
    ∃ k1, thread_set_nice true child_ready 20 = some k1 ∧
      (k1.threads 0).nice = 20 ∧ (k1.threads 0).priority = 31 ∧
      k1.running = 0 ∧ k1.ready_list = [1] ∧ (k1.threads 0).status = .THREAD_RUNNING := by
  refine ⟨by decide, by decide, by decide, by decide, by decide, _, rfl, ?_⟩
  decide

/-! ## Descriptors and pointers in the system calls -/

set_option maxHeartbeats 4000000 in
/-- C13 fails on the code: a user process with no file open (slot 5 of its table is empty)
calls `filesize (5)`, `seek (5, 0)` and `tell (5)`.  Each call hands the absent handle to
the file layer and returns; the process is not terminated. -/
theorem filesize_passes_absent_handle :
    user_running.running = 1 ∧ (user_running.threads 1).fd 5 = none ∧
    (∀ len, ∃ k1, filesize user_running 5 len = .returned len k1 ∧
      k1.trace = user_running.trace ++ [.file_length none] ∧ k1.running = 1 ∧
      (k1.threads 1).status = .THREAD_RUNNING) ∧
    (∃ k1, seek user_running 5 0 = .returned () k1 ∧
      k1.trace = user_running.trace ++ [.file_seek none 0]) ∧
    (∀ pos, ∃ k1, tell user_running 5 pos = .returned pos k1 ∧
      k1.trace = user_running.trace ++ [.file_tell none]) := by
  refine ⟨by decide, by decide, fun len => ⟨_, rfl, rfl, by decide, by decide⟩,
    ⟨_, rfl, rfl⟩, fun pos => ⟨_, rfl, rfl⟩⟩

set_option maxHeartbeats 4000000 in
/-- C14 fails on the code: a user process whose only mapped page ends at `0x08049000` calls
`write (1, buffer, 8)` with the buffer at the last 4 bytes of that page.  `check_add` tests
the first byte only: the bytes from `0x08049000` on are not mapped, yet `putbuf` receives
the whole range and the call returns 8. -/
theorem write_checks_first_byte_only :
    (user_running.threads 1).pagedir = some 5 ∧
    one_page.pagedir_get_page (some 5) 134516732 = true ∧
    one_page.pagedir_get_page (some 5) 134516736 = false ∧
    ∃ k1, write one_page user_running 1 134516732 8 0 = .returned 8 k1 ∧
      Event.putbuf 134516732 8 ∈ k1.trace ∧ k1.running = 1 ∧
      (k1.threads 1).status = .THREAD_RUNNING := by
  refine ⟨by decide, by decide, by decide, _, rfl, ?_⟩
  decide

/-! ## The position `thread_unblock` inserts at -/

theorem list_insert_ordered_split (less : Nat → Nat → Bool) (l : List Nat) (x : Nat) :
    ∃ pre post, l = pre ++ post ∧ list_insert_ordered less l x = pre ++ x :: post ∧
      (∀ e ∈ pre, less x e = false) ∧ (∀ y, post.head? = some y → less x y = true) := by
  induction l with
  | nil => exact ⟨[], [], rfl, rfl, by simp, by simp⟩
  | cons e es ih =>
    by_cases h : less x e = true
    · refine ⟨[], e :: es, rfl, ?_, by simp, ?_⟩
      · simp [list_insert_ordered, h]
      · intro y hy
        simp at hy
        rw [← hy]; exact h
    · obtain ⟨pre, post, h1, h2, h3, h4⟩ := ih
      refine ⟨e :: pre, post, by simp [h1], ?_, ?_, h4⟩
      · simp [list_insert_ordered, h, h2]
      · intro a ha
        rcases List.mem_cons.1 ha with rfl | ha
        · simpa using h
        · exact h3 a ha

theorem thread_yield_ok (k : Kernel) (hrun : running_ok k) (hready : ready_ok k)
    (hnd : k.ready_list.Nodup) :
    ∃ k', thread_yield k = some k' ∧ running_ok k' ∧ ready_ok k' ∧ k'.ready_list.Nodup ∧
      k'.semas = k.semas ∧ k'.holder = k.holder ∧ k'.trace = k.trace ∧
      (∀ t, is_thread k' t = is_thread k t) ∧
      (∀ t, (k'.threads t).priority = (k.threads t).priority) ∧
      (∀ t, (k'.threads t).status = .THREAD_BLOCKED ↔
        (k.threads t).status = .THREAD_BLOCKED) := by
  obtain ⟨k', n, rest, hy, hL, hn, hrest, -, hrn, hrl, hsem, htr, -, -, -, -, hhold, -, -,
    hth⟩ := thread_yield_facts k hrun hready
  have hrnot : k.running ∉ k.ready_list := by
    intro h
    have := (hready _ h).2
    rw [hrun.2] at this
    cases this
  have hLnd : (n :: rest).Nodup := by
    rcases hL with hL | ⟨-, -, -, hr⟩
    · rw [← hL]
      split
      · exact list_insert_ordered_nodup _ _ _ hnd hrnot
      · exact hnd
    · rw [hr]; simp
  have hnrest : n ∉ rest := (List.nodup_cons.1 hLnd).1
  have hisn : is_thread k n = true := by
    rcases hn with h | h
    · rw [h]; exact hrun.1
    · exact (hready n h).1
  have hmagic : ∀ t, (k'.threads t).magic = (k.threads t).magic := by
    intro t
    rw [hth t]
    split
    · rfl
    · split <;> rfl
  have hist : ∀ t, is_thread k' t = is_thread k t := by
    intro t
    unfold is_thread
    rw [hmagic t]
  refine ⟨k', hy, ?_, ?_, ?_, hsem, hhold, htr, hist, ?_, ?_⟩
  · constructor
    · rw [hrn, hist]; exact hisn
    · rw [hrn, hth n, if_pos rfl]
  · intro t ht
    rw [hrl] at ht
    have htn : t ≠ n := fun h => hnrest (h ▸ ht)
    have hit : is_thread k t = true := by
      rcases hrest t ht with h | h
      · rw [h]; exact hrun.1
      · exact (hready t h).1
    refine ⟨by rw [hist]; exact hit, ?_⟩
    rw [hth t, if_neg htn]
    split
    · rfl
    · rename_i hne
      rcases hrest t ht with h | h
      · exact absurd h hne
      · exact (hready t h).2
  · rw [hrl]; exact (List.nodup_cons.1 hLnd).2
  · intro t
    rw [hth t]
    split
    · rfl
    · split <;> rfl
  · intro t
    rw [hth t]
    by_cases h1 : t = n
    · rw [if_pos h1]
      have hnb : (k.threads t).status ≠ .THREAD_BLOCKED := by
        rw [h1]
        rcases hn with h | h
        · rw [h, hrun.2]; decide
        · rw [(hready n h).2]; decide
      constructor
      · intro h; cases h
      · intro h; exact absurd h hnb
    · rw [if_neg h1]
      by_cases h2 : t = k.running
      · rw [if_pos h2]
        constructor
        · intro h; cases h
        · intro h; rw [h2, hrun.2] at h; cases h
      · rw [if_neg h2]

theorem sema_up_ok (k : Kernel) (sema : sema_ref) (hrun : running_ok k) (hready : ready_ok k)
    (hnd : k.ready_list.Nodup) (hwait : waiters_ok k sema) :
    ∃ k', sema_up k sema = some k' ∧ running_ok k' ∧ ready_ok k' ∧ k'.ready_list.Nodup ∧
      k'.holder = k.holder ∧ k'.trace = k.trace ++ [.sema_up sema] ∧
      (∀ r, r ≠ sema → k'.semas r = k.semas r) ∧
      (k'.semas sema).value = ((k.semas sema).value + 1) % 4294967296 ∧
      ((k.semas sema).waiters = [] → (k'.semas sema).waiters = []) ∧
      ((k.semas sema).waiters ≠ [] → ∃ i m, first_max k (k.semas sema).waiters i m ∧
        (k'.semas sema).waiters = (k.semas sema).waiters.eraseIdx i ∧
        (k'.threads m).status ≠ .THREAD_BLOCKED) ∧
      (∀ t, is_thread k' t = is_thread k t) ∧
      (∀ t, (k'.threads t).priority = (k.threads t).priority) ∧
      (∀ t, t ∉ (k.semas sema).waiters →
        ((k'.threads t).status = .THREAD_BLOCKED ↔ (k.threads t).status = .THREAD_BLOCKED)) := by
  by_cases hnil : (k.semas sema).waiters = []
  · have hwake : sema_up_wake (log k (.sema_up sema)) sema = some (log k (.sema_up sema)) := by
      unfold sema_up_wake
      have : ((log k (.sema_up sema)).semas sema).waiters = [] := hnil
      simp only [this]
    obtain ⟨k', hy, h1, h2, h3, h4, h5, h6, h7, h8, h9⟩ :=
      thread_yield_ok (sema_incr (log k (.sema_up sema)) sema) hrun hready hnd
    refine ⟨k', ?_, h1, h2, h3, h5, h6, ?_, ?_, ?_, fun h => absurd hnil h, h7, h8,
      fun t _ => h9 t⟩
    · unfold sema_up; rw [hwake]; exact hy
    · intro r hr; rw [h4]; simp [sema_incr, set_sema, hr, log]
    · rw [h4]; simp [sema_incr, set_sema, log]
    · intro _; rw [h4]; simp [sema_incr, set_sema, log]; exact hnil
  · obtain ⟨i, m, hfm, hwake⟩ := sema_up_wake_cons (log k (.sema_up sema)) sema hwait hnil
    have hmw : m ∈ (k.semas sema).waiters := List.getElem?_mem hfm.1
    obtain ⟨hm1, hm2⟩ := hwait m hmw
    have hrunm : k.running ≠ m := by
      intro h; rw [← h, hrun.2] at hm2; cases hm2
    have hmr : m ∉ k.ready_list := by
      intro h
      have := (hready m h).2
      rw [hm2] at this; cases this
    generalize hK : (set_thread
        { set_sema (log k (.sema_up sema)) sema
            { (log k (.sema_up sema)).semas sema with
              waiters := ((log k (.sema_up sema)).semas sema).waiters.eraseIdx i } with
          ready_list := list_insert_ordered (biggerprior (log k (.sema_up sema)))
            (log k (.sema_up sema)).ready_list m } m
        (fun x => { x with status := .THREAD_READY })) = K1 at hwake
    have hKth : ∀ t, K1.threads t =
        if t = m then { k.threads t with status := .THREAD_READY } else k.threads t := by
      intro t; rw [← hK]; simp only [set_thread, set_sema, log]
    have hKrl : K1.ready_list = list_insert_ordered (biggerprior k) k.ready_list m := by
      rw [← hK]; rfl
    have hKrun : K1.running = k.running := by rw [← hK]; rfl
    have hKhold : K1.holder = k.holder := by rw [← hK]; rfl
    have hKtr : K1.trace = k.trace ++ [.sema_up sema] := by rw [← hK]; rfl
    have hKsem : K1.semas sema =
        { value := (k.semas sema).value, waiters := (k.semas sema).waiters.eraseIdx i } := by
      rw [← hK]; simp [set_thread, set_sema, log]
    have hKso : ∀ r, r ≠ sema → K1.semas r = k.semas r := by
      intro r hr; rw [← hK]; simp [set_thread, set_sema, log, hr]
    have hKist : ∀ t, is_thread K1 t = is_thread k t := by
      intro t; unfold is_thread; rw [hKth t]; split <;> rfl
    have hrun1 : running_ok K1 := by
      constructor
      · rw [hKrun, hKist]; exact hrun.1
      · rw [hKrun, hKth, if_neg hrunm]; exact hrun.2
    have hready1 : ready_ok K1 := by
      intro t ht
      rw [hKrl] at ht
      refine ⟨?_, ?_⟩
      · rw [hKist]
        rcases (mem_list_insert_ordered _ _ _ _).1 ht with h | h
        · rw [h]; exact hm1
        · exact (hready t h).1
      · rw [hKth t]
        split
        · rfl
        · rename_i hne
          rcases (mem_list_insert_ordered _ _ _ _).1 ht with h | h
          · exact absurd h hne
          · exact (hready t h).2
    have hnd1 : K1.ready_list.Nodup := by
      rw [hKrl]; exact list_insert_ordered_nodup _ _ _ hnd hmr
    obtain ⟨k', hy, h1, h2, h3, h4, h5, h6, h7, h8, h9⟩ :=
      thread_yield_ok (sema_incr K1 sema) hrun1 hready1 hnd1
    have hs' : k'.semas sema = semaphore.mk (((k.semas sema).value + 1) % 4294967296)
        ((k.semas sema).waiters.eraseIdx i) := by
      rw [h4]; simp [sema_incr, set_sema, hKsem]
    refine ⟨k', ?_, h1, h2, h3, ?_, ?_, ?_, ?_, fun h => absurd h hnil, ?_, ?_, ?_, ?_⟩
    · unfold sema_up; rw [hwake]; exact hy
    · rw [h5]; exact hKhold
    · rw [h6]; exact hKtr
    · intro r hr; rw [h4]; simp only [sema_incr, set_sema, if_neg hr]; exact hKso r hr
    · rw [hs']
    · intro _
      refine ⟨i, m, hfm, by rw [hs'], ?_⟩
      intro hb
      have := (h9 m).1 hb
      have e : ((sema_incr K1 sema).threads m).status = (K1.threads m).status := rfl
      rw [e, hKth m, if_pos rfl] at this
      cases this
    · intro t; rw [h7]; exact hKist t
    · intro t; rw [h8]
      show (K1.threads t).priority = _
      rw [hKth t]; split <;> rfl
    · intro t ht
      have htm : t ≠ m := fun h => ht (h ▸ hmw)
      rw [h9 t]
      show (K1.threads t).status = .THREAD_BLOCKED ↔ _
      rw [hKth t, if_neg htm]

/-! ## Locks -/

theorem lock_held_eq (k : Kernel) (l : Nat) (hrun : running_ok k) :
    lock_held_by_current_thread k l = some (decide (k.holder l = some k.running)) := by
  unfold lock_held_by_current_thread
  rw [thread_current_of_running_ok k hrun]
  rfl

/-- C18: in a well-formed state (the running thread and the ready list are valid, the
waiters of the lock are blocked threads, and another thread is available to run),
`lock_acquire` and `lock_try_acquire` fail an assertion exactly when the recorded holder is
the caller, and `lock_release` fails one exactly when the recorded holder is not the
caller.  A `lock_try_acquire` that finds a positive count takes one count and records the
caller as holder; one that finds the count zero reports failure and leaves the state
unchanged; `lock_release` clears the holder. -/
theorem lock_assertions (k : Kernel) (l : Nat) (hrun : running_ok k) (hready : ready_ok k)
    (hnd : k.ready_list.Nodup) (hwait : waiters_ok k (.lock l))
    (hnext : k.ready_list ≠ [] ∨
      ∃ i, k.idle_thread = some i ∧ is_thread k i = true ∧ i ≠ k.running) :
    (lock_acquire k l = .panic ↔ k.holder l = some k.running) ∧
    (lock_try_acquire k l = none ↔ k.holder l = some k.running) ∧
    (lock_release k l = none ↔ k.holder l ≠ some k.running) ∧
    (k.holder l ≠ some k.running → 0 < (k.semas (.lock l)).value →
      ∃ k1, lock_try_acquire k l = some (true, k1) ∧ k1.holder l = some k.running ∧
        (∀ x, x ≠ l → k1.holder x = k.holder x) ∧
        k1.semas (.lock l) = { value := (k.semas (.lock l)).value - 1,
                               waiters := (k.semas (.lock l)).waiters }) ∧
    (k.holder l ≠ some k.running → (k.semas (.lock l)).value = 0 →
      lock_try_acquire k l = some (false, k)) ∧
    (k.holder l = some k.running →
      ∃ k1, lock_release k l = some k1 ∧ k1.holder l = none ∧
        (∀ x, x ≠ l → k1.holder x = k.holder x)) := by
  have hheld := lock_held_eq k l hrun
  have hcur := thread_current_of_running_ok k hrun
  have htry_pos : k.holder l ≠ some k.running → 0 < (k.semas (.lock l)).value →
      ∃ k1, lock_try_acquire k l = some (true, k1) ∧ k1.holder l = some k.running ∧
        (∀ x, x ≠ l → k1.holder x = k.holder x) ∧
        k1.semas (.lock l) = { value := (k.semas (.lock l)).value - 1,
                               waiters := (k.semas (.lock l)).waiters } := by
    intro hne hv
    have hcur1 : thread_current (set_sema k (.lock l)
        { k.semas (.lock l) with value := (k.semas (.lock l)).value - 1 }) = some k.running :=
      hcur
    refine ⟨{ set_sema k (.lock l)
        { k.semas (.lock l) with value := (k.semas (.lock l)).value - 1 } with
        holder := fun x => if x = l then some k.running else k.holder x }, ?_, ?_, ?_, ?_⟩
    · unfold lock_try_acquire
      rw [hheld, decide_eq_false hne]
      simp only [sema_try_down, hv, if_true, hcur1]
      rfl
    · simp
    · intro x hx; simp [hx, set_sema]
    · simp [set_sema]
  have htry_zero : k.holder l ≠ some k.running → (k.semas (.lock l)).value = 0 →
      lock_try_acquire k l = some (false, k) := by
    intro hne hv
    unfold lock_try_acquire
    rw [hheld, decide_eq_false hne]
    simp [sema_try_down, hv]
  have hrel : k.holder l = some k.running →
      ∃ k1, lock_release k l = some k1 ∧ k1.holder l = none ∧
        (∀ x, x ≠ l → k1.holder x = k.holder x) := by
    intro he
    obtain ⟨k1, h1, -, -, -, h5, -⟩ := sema_up_ok
      { k with holder := fun x => if x = l then none else k.holder x } (.lock l)
      hrun hready hnd hwait
    refine ⟨k1, ?_, ?_, ?_⟩
    · unfold lock_release
      rw [hheld, decide_eq_true he]
      exact h1
    · rw [h5]; simp
    · intro x hx; rw [h5]; simp [hx]
  refine ⟨⟨?_, ?_⟩, ⟨?_, ?_⟩, ⟨?_, ?_⟩, htry_pos, htry_zero, hrel⟩
  · intro hp
    by_contra hne
    unfold lock_acquire at hp
    rw [hheld, decide_eq_false hne] at hp
    by_cases hv : (k.semas (.lock l)).value = 0
    · obtain ⟨k1, hb, -⟩ := thread_block_facts
        (set_sema (log k (.sema_down (.lock l))) (.lock l)
          (semaphore.mk 0
            (((log k (.sema_down (.lock l))).semas (.lock l)).waiters ++ [k.running])))
        hrun hready hnext
      have hcur0 : thread_current (log k (.sema_down (.lock l))) = some k.running := hcur
      have hv0 : ((log k (.sema_down (.lock l))).semas (.lock l)).value = 0 := hv
      simp only [sema_down, hv0, if_true, hcur0, hb] at hp
      cases hp
    · have hv0 : ¬ ((log k (.sema_down (.lock l))).semas (.lock l)).value = 0 := hv
      have hcur1 : thread_current (set_sema (log k (.sema_down (.lock l))) (.lock l)
          { (log k (.sema_down (.lock l))).semas (.lock l) with
            value := ((log k (.sema_down (.lock l))).semas (.lock l)).value - 1 })
          = some k.running := hcur
      simp only [sema_down, hv0, if_false, hcur1] at hp
      cases hp
  · intro he
    unfold lock_acquire
    rw [hheld, decide_eq_true he]
  · intro hp
    by_contra hne
    by_cases hv : (k.semas (.lock l)).value = 0
    · rw [htry_zero hne hv] at hp; cases hp
    · obtain ⟨k1, h1, -⟩ := htry_pos hne (Nat.pos_of_ne_zero hv)
      rw [h1] at hp; cases hp
  · intro he
    unfold lock_try_acquire
    rw [hheld, decide_eq_true he]
  · intro hp he
    obtain ⟨k1, h1, -⟩ := hrel he
    rw [h1] at hp; cases hp
  · intro hne
    unfold lock_release
    rw [hheld, decide_eq_false hne]

/-- Witness of C18: the initial thread takes the free lock 5 with `lock_try_acquire`. -/
theorem lock_assertions_witness :
    ∃ k1, lock_try_acquire lock_example 5 = some (true, k1) ∧ k1.holder 5 = some 0 := by
  obtain ⟨k1, h1, h2, -⟩ := (lock_assertions lock_example 5 ⟨rfl, rfl⟩
    (by unfold ready_ok; decide) (by decide) (by unfold waiters_ok; decide)
    (Or.inl (by decide))).2.2.2.1 (by decide) (by decide)
  exact ⟨k1, h1, h2⟩

theorem thread_schedule_tail_frame (k k1 : Kernel) (prev : Option Nat)
    (h : thread_schedule_tail k prev = some k1) :
    k1.semas = k.semas ∧ k1.holder = k.holder := by
  unfold thread_schedule_tail at h
  cases prev with
  | none => simp only at h; cases h; exact ⟨rfl, rfl⟩
  | some p =>
    simp only at h
    split at h
    · split at h
      · cases h
      · cases h; exact ⟨rfl, rfl⟩
    · cases h; exact ⟨rfl, rfl⟩

theorem schedule_frame (k k1 : Kernel) (h : schedule k = some k1) :
    k1.semas = k.semas ∧ k1.holder = k.holder := by
  unfold schedule next_thread_to_run at h
  cases hl : k.ready_list with
  | nil =>
    simp only [hl] at h
    split at h
    · cases h
    · split at h
      · cases h
      · split at h
        · have hf := thread_schedule_tail_frame _ _ _ h; exact hf
        · cases h
  | cons n rest =>
    simp only [hl] at h
    split at h
    · cases h
    · split at h
      · have hf := thread_schedule_tail_frame _ _ _ h; exact hf
      · cases h

theorem thread_yield_frame (k k1 : Kernel) (h : thread_yield k = some k1) :
    k1.semas = k.semas ∧ k1.holder = k.holder := by
  unfold thread_yield at h
  split at h
  · cases h
  · have hf := schedule_frame _ _ h; exact hf

/-! ## Mutual exclusion -/

theorem thread_current_eq (k : Kernel) (cur : Nat) (h : thread_current k = some cur) :
    cur = k.running := by
  unfold thread_current at h
  simp only at h
  split at h
  · cases h; rfl
  · cases h

theorem lock_try_acquire_cases (k k1 : Kernel) (l : Nat) (b : Bool)
    (h : lock_try_acquire k l = some (b, k1)) :
    (b = true ∧ 0 < (k.semas (.lock l)).value ∧ k.holder l ≠ some k.running ∧
      k1.semas (.lock l) = { value := (k.semas (.lock l)).value - 1,
                             waiters := (k.semas (.lock l)).waiters } ∧
      k1.holder l = some k.running) ∨
    (b = false ∧ (k.semas (.lock l)).value = 0 ∧ k1 = k) := by
  unfold lock_try_acquire lock_held_by_current_thread at h
  cases hc : thread_current k with
  | none => rw [hc] at h; cases h
  | some cur =>
    have hcur := thread_current_eq k cur hc
    subst hcur
    rw [hc] at h
    simp only [Option.map_some'] at h
    by_cases hh : k.holder l = some k.running
    · simp [hh] at h
    · simp only [decide_eq_false hh] at h
      by_cases hv : 0 < (k.semas (.lock l)).value
      · left
        have hc1 : thread_current (set_sema k (.lock l)
            { k.semas (.lock l) with value := (k.semas (.lock l)).value - 1 })
            = some k.running := hc
        simp only [sema_try_down, hv, if_true, hc1] at h
        have h2 := Option.some.inj h
        have hb : true = b := congrArg Prod.fst h2
        have hk : _ = k1 := congrArg Prod.snd h2
        refine ⟨hb.symm, hv, hh, ?_, ?_⟩
        · rw [← hk]; simp [set_sema]
        · rw [← hk]; simp
      · right
        simp only [sema_try_down, hv, if_false] at h
        have h2 := Option.some.inj h
        have hb : false = b := congrArg Prod.fst h2
        have hk : k = k1 := congrArg Prod.snd h2
        exact ⟨hb.symm, by omega, hk.symm⟩

theorem lock_release_cases (k k1 : Kernel) (l : Nat) (h : lock_release k l = some k1)
    (hw : (k.semas (.lock l)).waiters = []) :
    k.holder l = some k.running ∧ k1.holder l = none ∧
      k1.semas (.lock l) = { value := ((k.semas (.lock l)).value + 1) % 4294967296,
                             waiters := [] } := by
  unfold lock_release lock_held_by_current_thread at h
  cases hc : thread_current k with
  | none => rw [hc] at h; cases h
  | some cur =>
    have hcur := thread_current_eq k cur hc
    subst hcur
    rw [hc] at h
    simp only [Option.map_some'] at h
    by_cases hh : k.holder l = some k.running
    · simp only [decide_eq_true hh] at h
      generalize hkh :
        ({ k with holder := fun x => if x = l then none else k.holder x } : Kernel) = kh at h
      have hks : kh.semas = k.semas := by rw [← hkh]
      have hkl : kh.holder l = none := by rw [← hkh]; simp
      unfold sema_up at h
      have hwake : sema_up_wake (log kh (.sema_up (.lock l))) (.lock l)
          = some (log kh (.sema_up (.lock l))) := by
        unfold sema_up_wake
        have : ((log kh (.sema_up (.lock l))).semas (.lock l)).waiters = [] := by
          show (kh.semas (.lock l)).waiters = []
          rw [hks]; exact hw
        simp only [this]
      rw [hwake] at h
      obtain ⟨h1, h2⟩ := thread_yield_frame _ _ h
      refine ⟨hh, ?_, ?_⟩
      · rw [h2]; exact hkl
      · rw [h1]; simp [sema_incr, set_sema, log, hks, hw]
    · simp [decide_eq_false hh] at h

theorem lock_step_consistent (l : Nat) (k k1 : Kernel) (hs : lock_step l k k1)
    (h : lock_consistent k l) : lock_consistent k1 l := by
  obtain ⟨hv, hh, hw⟩ := h
  cases hs with
  | try_acquire b ht =>
    rcases lock_try_acquire_cases k k1 l b ht with ⟨-, h1, -, h3, h4⟩ | ⟨-, -, h3⟩
    · have hv1 : (k.semas (.lock l)).value = 1 := by omega
      refine ⟨Or.inl (by rw [h3]; simp [hv1]), ?_, by rw [h3]; exact hw⟩
      rw [h3]
      exact ⟨fun _ => ⟨_, h4⟩, fun _ => by simp [hv1]⟩
    · rw [h3]; exact ⟨hv, hh, hw⟩
  | release hr =>
    obtain ⟨h1, h2, h3⟩ := lock_release_cases k k1 l hr hw
    have hv0 : (k.semas (.lock l)).value = 0 := hh.2 ⟨_, h1⟩
    refine ⟨Or.inr (by rw [h3]; simp [hv0]), ?_, by rw [h3]⟩
    rw [h3, h2]
    simp [hv0]
  | other h1 h2 =>
    unfold lock_consistent
    rw [h1, h2]
    exact ⟨hv, hh, hw⟩

theorem lock_reachable_consistent (l : Nat) (k : Kernel) (hr : lock_reachable l k) :
    lock_consistent k l := by
  induction hr with
  | init k0 =>
    unfold lock_consistent
    simp [lock_init, sema_init, set_sema]
  | step k0 k1 _ hs ih => exact lock_step_consistent l k0 k1 hs ih

/-- C19: in every state reached from `lock_init` by `lock_try_acquire` and `lock_release`
calls that pass their assertions (made by whichever thread runs, with anything in between
that leaves the lock alone), the count of the lock is 0 or 1, it is 0 exactly when a holder
is recorded, and a `lock_try_acquire` succeeds only when no holder is recorded; it then
records the caller and brings the count to 0. -/
theorem lock_mutual_exclusion (l : Nat) (k : Kernel) (hr : lock_reachable l k) :
    ((k.semas (.lock l)).value = 0 ∨ (k.semas (.lock l)).value = 1) ∧
    ((k.semas (.lock l)).value = 0 ↔ ∃ t, k.holder l = some t) ∧
    (∀ k1, lock_try_acquire k l = some (true, k1) →
      k.holder l = none ∧ k1.holder l = some k.running ∧
        (k1.semas (.lock l)).value = 0) := by
  obtain ⟨hv, hh, hw⟩ := lock_reachable_consistent l k hr
  refine ⟨hv, hh, ?_⟩
  intro k1 ht
  rcases lock_try_acquire_cases k k1 l true ht with ⟨-, h1, -, h3, h4⟩ | ⟨hb, -, -⟩
  · have hv1 : (k.semas (.lock l)).value = 1 := by omega
    refine ⟨?_, h4, by rw [h3]; simp [hv1]⟩
    cases hk : k.holder l with
    | none => rfl
    | some t =>
      have := hh.2 ⟨t, hk⟩
      omega
  · cases hb

/-- Witness of C19: the lock 5 after `lock_init` and one successful `lock_try_acquire` by
the initial thread is held, its count is 0, and a second `lock_try_acquire` does not
succeed. -/
theorem lock_mutual_exclusion_witness :
    lock_reachable 5 lock_taken ∧ (lock_taken.semas (.lock 5)).value = 0 ∧
    lock_taken.holder 5 = some 0 ∧
    ∀ k1, lock_try_acquire lock_taken 5 ≠ some (true, k1) := by
  have hr : lock_reachable 5 lock_taken :=
    .step lock_example lock_taken (.init child_ready)
      (.try_acquire lock_example lock_taken true rfl)
  obtain ⟨-, h2, h3⟩ := lock_mutual_exclusion 5 lock_taken hr
  refine ⟨hr, by decide, by decide, ?_⟩
  intro k1 hk
  have := (h3 k1 hk).1
  revert this
  decide

/-! ## Condition variables -/

/-- The broadcast on `cond_example`: both waiters have a lower priority than the caller,
which keeps the CPU, and the loop ends after upping both semaphores in order. -/
theorem cond_broadcast_example :
    ∃ kf, cond_broadcast 3 cond_example [10, 11] 5 = some (.finished kf) ∧
      kf.trace = cond_example.trace ++ [.sema_up (.cell 10), .sema_up (.cell 11)] ∧
      kf.ready_list = [2, 1] ∧ kf.running = 0 :=
  ⟨_, rfl, by decide, by decide, by decide⟩

/-! ## The argument stack of `calculate_esp` -/

theorem sub32_eq (a n : Nat) (h1 : n ≤ a) (h2 : a < 4294967296) : sub32 a n = a - n := by
  unfold sub32
  omega

theorem store_bytes_above (mem : Nat → Nat) (a : Nat) (bs : List Nat) (x : Nat)
    (h : a + bs.length ≤ x) : store_bytes mem a bs x = mem x := by
  unfold store_bytes
  rw [if_neg (by omega)]

theorem store_bytes_at (mem : Nat → Nat) (a : Nat) (bs : List Nat) (j : Nat)
    (h : j < bs.length) : store_bytes mem a bs (a + j) = bs.getD j 0 := by
  unfold store_bytes
  rw [if_pos (by omega)]
  congr 1
  omega

theorem store_word_above (mem : Nat → Nat) (a v x : Nat) (h : a + 4 ≤ x) :
    store_word mem a v x = mem x :=
  store_bytes_above mem a _ x (by simpa using h)

theorem load_word_congr (m1 m2 : Nat → Nat) (a : Nat) (h : ∀ x, a ≤ x → m1 x = m2 x) :
    load_word m1 a = load_word m2 a := by
  unfold load_word
  rw [h a (le_refl _), h (a + 1) (by omega), h (a + 2) (by omega), h (a + 3) (by omega)]

theorem load_store_word (mem : Nat → Nat) (a v : Nat) (hv : v < 4294967296) :
    load_word (store_word mem a v) a = v := by
  unfold load_word store_word
  have h0 := store_bytes_at mem a [v % 256, v / 256 % 256, v / 65536 % 256, v / 16777216 % 256]
    0 (by simp)
  have h1 := store_bytes_at mem a [v % 256, v / 256 % 256, v / 65536 % 256, v / 16777216 % 256]
    1 (by simp)
  have h2 := store_bytes_at mem a [v % 256, v / 256 % 256, v / 65536 % 256, v / 16777216 % 256]
    2 (by simp)
  have h3 := store_bytes_at mem a [v % 256, v / 256 % 256, v / 65536 % 256, v / 16777216 % 256]
    3 (by simp)
  simp only [Nat.add_zero] at h0
  rw [h0, h1, h2, h3]
  simp only [List.getD_cons_zero, List.getD_cons_succ]
  omega

theorem load_store_word_above (mem : Nat → Nat) (a v b : Nat) (h : a + 4 ≤ b) :
    load_word (store_word mem a v) b = load_word mem b :=
  load_word_congr _ _ b (fun x hx => store_word_above mem a v x (by omega))

/-- The text of a command line after its first token. -/
theorem command_line_eq (first : List Nat) (more : List (Nat × List Nat)) :
    command_line first more
      = first ++ (more.map (fun p => List.replicate (p.1 + 1) 32 ++ p.2)).flatten := rfl

theorem strtok_r_spaces (n : Nat) (s : List Nat) :
    strtok_r (List.replicate n 32 ++ s) = strtok_r s := by
  induction n with
  | zero => simp
  | succ n ih =>
    rw [List.replicate_succ, List.cons_append]
    unfold strtok_r
    rw [List.dropWhile_cons_of_pos (by simp)]
    exact ih

theorem strtok_r_token (arg rest : List Nat) (ha : is_token arg)
    (hr : rest = [] ∨ ∃ r, rest = 32 :: r) :
    strtok_r (arg ++ rest) = some (arg, rest.drop 1) := by
  obtain ⟨hne, hc⟩ := ha
  have htake : (arg ++ rest).takeWhile (fun c => c != 32) = arg := by
    rw [List.takeWhile_append_of_pos (fun c hcm => by simpa using (hc c hcm).1)]
    rcases hr with h | ⟨r, h⟩ <;> simp [h]
  have hdrop : (arg ++ rest).dropWhile (fun c => c != 32) = rest := by
    rw [List.dropWhile_append_of_pos (fun c hcm => by simpa using (hc c hcm).1)]
    rcases hr with h | ⟨r, h⟩ <;> simp [h]
  cases arg with
  | nil => exact absurd rfl hne
  | cons c cs =>
    have hc32 : c ≠ 32 := (hc c (List.mem_cons_self _ _)).1
    unfold strtok_r
    rw [List.cons_append, List.dropWhile_cons_of_neg (by simpa using hc32)]
    simp only
    rw [← List.cons_append, htake, hdrop]

theorem line_tail_cases (more : List (Nat × List Nat)) :
    (more.map (fun p => List.replicate (p.1 + 1) 32 ++ p.2)).flatten = [] ∨
    ∃ r, (more.map (fun p => List.replicate (p.1 + 1) 32 ++ p.2)).flatten = 32 :: r := by
  cases more with
  | nil => left; rfl
  | cons p m =>
    right
    exact ⟨_, by simp [List.replicate_succ]; rfl⟩

theorem strtok_r_after_token (n : Nat) (arg : List Nat) (m : List (Nat × List Nat))
    (ha : is_token arg) :
    strtok_r (after_token ((n, arg) :: m)) = some (arg, after_token m) := by
  have h : after_token ((n, arg) :: m) = List.replicate n 32 ++
      (arg ++ (m.map (fun p => List.replicate (p.1 + 1) 32 ++ p.2)).flatten) := by
    simp [after_token, List.replicate_succ]
  rw [h, strtok_r_spaces, strtok_r_token arg _ ha (line_tail_cases m)]
  rfl

theorem strtok_r_command_line (first : List Nat) (more : List (Nat × List Nat))
    (ha : is_token first) :
    strtok_r (command_line first more) = some (first, after_token more) := by
  rw [command_line_eq, strtok_r_token first _ ha (line_tail_cases more)]
  rfl

theorem count_tokens_after (more : List (Nat × List Nat)) :
    ∀ (fuel argc : Nat), (∀ p ∈ more, is_token p.2) → more.length ≤ fuel →
      count_tokens fuel (strtok_r (after_token more)) argc = some (argc + more.length) := by
  induction more with
  | nil =>
    intro fuel argc _ _
    have : strtok_r (after_token []) = none := rfl
    rw [this]
    cases fuel <;> rfl
  | cons p m ih =>
    intro fuel argc hp hf
    obtain ⟨n, arg⟩ := p
    rw [strtok_r_after_token n arg m (hp _ (List.mem_cons_self _ _))]
    cases fuel with
    | zero => simp at hf
    | succ f =>
      show count_tokens f (strtok_r (after_token m)) (argc + 1) = _
      rw [ih f (argc + 1) (fun q hq => hp q (List.mem_cons_of_mem _ hq)) (by simpa using hf)]
      simp only [List.length_cons]
      congr 1
      omega

theorem collect_tokens_after (more : List (Nat × List Nat)) :
    ∀ n : Nat, (∀ p ∈ more, is_token p.2) → more.length ≤ n →
      collect_tokens n (strtok_r (after_token more)) = more.map Prod.snd := by
  induction more with
  | nil =>
    intro n _ _
    have : strtok_r (after_token []) = none := rfl
    rw [this]
    cases n <;> rfl
  | cons p m ih =>
    intro n hp hn
    obtain ⟨k, arg⟩ := p
    rw [strtok_r_after_token k arg m (hp _ (List.mem_cons_self _ _))]
    cases n with
    | zero => simp at hn
    | succ f =>
      show arg :: collect_tokens f (strtok_r (after_token m)) = _
      rw [ih f (fun q hq => hp q (List.mem_cons_of_mem _ hq)) (by simpa using hn)]
      rfl

/-- The two token loops of `calculate_esp` on a command line. -/
theorem tokens_of_command_line (first : List Nat) (more : List (Nat × List Nat))
    (ht : ∀ arg ∈ tokens_of first more, is_token arg) (fuel : Nat)
    (hf : more.length < fuel) :
    count_tokens fuel (strtok_r (command_line first more)) 0 = some (more.length + 1) ∧
    collect_tokens (more.length + 1) (strtok_r (command_line first more))
      = tokens_of first more := by
  have h1 : is_token first := ht first (List.mem_cons_self _ _)
  have h2 : ∀ p ∈ more, is_token p.2 := fun p hp =>
    ht p.2 (List.mem_cons_of_mem _ (List.mem_map_of_mem _ hp))
  rw [strtok_r_command_line first more h1]
  constructor
  · cases fuel with
    | zero => omega
    | succ f =>
      show count_tokens f (strtok_r (after_token more)) (0 + 1) = _
      rw [count_tokens_after more f (0 + 1) h2 (by omega)]
      congr 1
      omega
  · show first :: collect_tokens more.length (strtok_r (after_token more)) = _
    rw [collect_tokens_after more more.length h2 (le_refl _)]
    rfl

theorem push_strings_spec (args : List (List Nat)) :
    ∀ (esp : Nat) (mem : Nat → Nat) (total : Nat),
      strings_size args ≤ esp → esp < 4294967296 →
      (push_strings args esp mem total).1 = esp - strings_size args ∧
      (push_strings args esp mem total).2.2.1 = total + strings_size args ∧
      (push_strings args esp mem total).2.2.2.length = args.length ∧
      (∀ x, esp ≤ x → (push_strings args esp mem total).2.1 x = mem x) ∧
      (∀ (i a : Nat) (arg : List Nat),
        (push_strings args esp mem total).2.2.2[i]? = some a → args[i]? = some arg →
        (push_strings args esp mem total).1 ≤ a ∧ a + arg.length < esp ∧
        is_cstring (push_strings args esp mem total).2.1 a arg) := by
  induction args with
  | nil =>
    intro esp mem total _ _
    simp [push_strings, strings_size]
  | cons arg rest ih =>
    intro esp mem total h1 h2
    have hsz : strings_size (arg :: rest) = (arg.length + 1) + strings_size rest := by
      simp [strings_size]
    rw [hsz] at h1
    have hsub : sub32 esp (arg.length + 1) = esp - (arg.length + 1) :=
      sub32_eq _ _ (by omega) h2
    obtain ⟨e1, e2, e3, e4, e5⟩ := ih (esp - (arg.length + 1))
      (store_bytes mem (esp - (arg.length + 1)) (arg ++ [0])) (total + (arg.length + 1))
      (by omega) (by omega)
    simp only [push_strings, hsub]
    refine ⟨by rw [e1, hsz]; omega, by rw [e2, hsz]; omega, by simp [e3], ?_, ?_⟩
    · intro x hx
      rw [e4 x (by omega), store_bytes_above _ _ _ _ (by simp; omega)]
    · intro i a arg1 ha harg
      cases i with
      | zero =>
        simp only [List.getElem?_cons_zero, Option.some.injEq] at ha harg
        subst ha; subst harg
        refine ⟨by rw [e1]; omega, by omega, ?_, ?_⟩
        · intro j hj
          rw [e4 _ (by omega), store_bytes_at _ _ _ _ (by simp; omega)]
          simp [List.getD_eq_getElem?_getD, List.getElem?_append_left hj]
        · rw [e4 _ (by omega), store_bytes_at _ _ _ _ (by simp)]
          simp [List.getD_eq_getElem?_getD]
      | succ i =>
        simp only [List.getElem?_cons_succ] at ha harg
        obtain ⟨f1, f2, f3⟩ := e5 i a arg1 ha harg
        exact ⟨f1, by omega, f3⟩

theorem push_words_spec (ws : List Nat) :
    ∀ (esp : Nat) (mem : Nat → Nat), 4 * ws.length ≤ esp → esp < 4294967296 →
      (∀ w ∈ ws, w < 4294967296) →
      (push_words ws esp mem).1 = esp - 4 * ws.length ∧
      (∀ x, esp ≤ x → (push_words ws esp mem).2 x = mem x) ∧
      (∀ (i w : Nat), ws[i]? = some w → load_word (push_words ws esp mem).2 (esp - 4 * (i + 1)) = w) := by
  induction ws with
  | nil =>
    intro esp mem _ _ _
    simp [push_words]
  | cons w ws ih =>
    intro esp mem h1 h2 hw
    simp only [List.length_cons] at h1
    have hsub : sub32 esp 4 = esp - 4 := sub32_eq _ _ (by omega) h2
    obtain ⟨e1, e2, e3⟩ := ih (esp - 4) (store_word mem (esp - 4) w) (by omega) (by omega)
      (fun v hv => hw v (List.mem_cons_of_mem _ hv))
    simp only [push_words, hsub]
    refine ⟨by rw [e1]; simp only [List.length_cons]; omega, ?_, ?_⟩
    · intro x hx
      rw [e2 x (by omega), store_word_above _ _ _ _ (by omega)]
    · intro i v hv
      cases i with
      | zero =>
        simp only [List.getElem?_cons_zero, Option.some.injEq] at hv
        subst hv
        rw [load_word_congr _ (store_word mem (esp - 4) w) _ (fun x hx => e2 x (by omega))]
        exact load_store_word _ _ _ (hw w (List.mem_cons_self _ _))
      | succ i =>
        simp only [List.getElem?_cons_succ] at hv
        have := e3 i v hv
        have hidx : esp - 4 * (i + 1 + 1) = esp - 4 - 4 * (i + 1) := by omega
        rw [hidx]; exact this

theorem strings_size_cons (arg : List Nat) (rest : List (List Nat)) :
    strings_size (arg :: rest) = (arg.length + 1) + strings_size rest := by
  simp [strings_size]

theorem strings_size_reverse (args : List (List Nat)) :
    strings_size args.reverse = strings_size args := by
  unfold strings_size
  rw [List.map_reverse, List.sum_reverse]

theorem strings_size_tail_le (more : List (Nat × List Nat)) :
    strings_size (more.map Prod.snd)
      ≤ ((more.map (fun p => List.replicate (p.1 + 1) 32 ++ p.2)).flatten).length := by
  induction more with
  | nil => simp [strings_size]
  | cons p m ih =>
    simp only [List.map_cons, strings_size_cons, List.flatten_cons, List.length_append,
      List.length_replicate]
    omega

theorem strings_size_le (first : List Nat) (more : List (Nat × List Nat)) :
    strings_size (tokens_of first more) ≤ (command_line first more).length + 1 := by
  have := strings_size_tail_le more
  rw [command_line_eq, List.length_append]
  unfold tokens_of
  rw [strings_size_cons]
  omega

theorem strings_size_ge (args : List (List Nat)) (h : ∀ arg ∈ args, arg ≠ []) :
    2 * args.length ≤ strings_size args := by
  induction args with
  | nil => simp [strings_size]
  | cons a rest ih =>
    rw [strings_size_cons, List.length_cons]
    have h1 := ih (fun x hx => h x (List.mem_cons_of_mem _ hx))
    have h2 : 0 < a.length := List.length_pos.2 (h a (List.mem_cons_self _ _))
    omega

theorem align_stack_spec (esp size : Nat) (hal : esp % 4 = 0) (h1 : size + 3 ≤ esp)
    (h2 : esp < 4294967296) :
    align_stack (esp - size) size % 4 = 0 ∧ align_stack (esp - size) size ≤ esp - size ∧
      esp - size ≤ align_stack (esp - size) size + 3 := by
  unfold align_stack
  split
  · rw [sub32_eq _ _ (by omega) (by omega)]
    omega
  · omega

theorem push_header_spec (argc esp : Nat) (mem : Nat → Nat) (h1 : 12 ≤ esp)
    (h2 : esp < 4294967296) (h3 : argc < 4294967296) :
    (push_header argc esp mem).1 = esp - 12 ∧
    load_word (push_header argc esp mem).2 (esp - 12) = 0 ∧
    load_word (push_header argc esp mem).2 (esp - 8) = argc ∧
    load_word (push_header argc esp mem).2 (esp - 4) = esp ∧
    (∀ x, esp ≤ x → (push_header argc esp mem).2 x = mem x) := by
  have e5 : sub32 esp 4 = esp - 4 := sub32_eq _ _ (by omega) h2
  have e6 : sub32 (esp - 4) 4 = esp - 8 := by rw [sub32_eq _ _ (by omega) (by omega)]; omega
  have e7 : sub32 (esp - 8) 4 = esp - 12 := by rw [sub32_eq _ _ (by omega) (by omega)]; omega
  have hv5 : (esp - 4 + 4) % 4294967296 = esp := by omega
  have hv6 : argc % 4294967296 = argc := Nat.mod_eq_of_lt h3
  have ha : esp - 12 + 4 ≤ esp - 8 := by omega
  have hb : esp - 12 + 4 ≤ esp - 4 := by omega
  have hc : esp - 8 + 4 ≤ esp - 4 := by omega
  unfold push_header
  simp only [e5, e6, e7, hv5, hv6]
  refine ⟨trivial, ?_, ?_, ?_, ?_⟩
  · exact load_store_word _ _ _ (by omega)
  · rw [load_store_word_above _ _ _ _ ha]
    exact load_store_word _ _ _ h3
  · rw [load_store_word_above _ _ _ _ hb, load_store_word_above _ _ _ _ hc]
    exact load_store_word _ _ _ h2
  · intro x hx
    have h12 : esp - 12 + 4 ≤ x := by omega
    have h8 : esp - 8 + 4 ≤ x := by omega
    have h4 : esp - 4 + 4 ≤ x := by omega
    rw [store_word_above _ _ _ _ h12, store_word_above _ _ _ _ h8, store_word_above _ _ _ _ h4]

/-- The stack after the arguments, the alignment, the null word and the addresses have been
pushed, ahead of the three last words. -/
theorem stack_frame_layout (args : List (List Nat)) (esp : Nat) (mem : Nat → Nat)
    (hs : 2 * args.length ≤ strings_size args) (hs2 : strings_size args ≤ 256)
    (hal : esp % 4 = 0) (hlo : 4096 ≤ esp) (hhi : esp < 4294967296) :
    ∃ (rm : Nat → Nat) (ra : List Nat) (esp2 : Nat) (wm : Nat → Nat),
      stack_frame args.length args esp mem
        = push_header args.length (esp2 - 4 - 4 * args.length) wm ∧
      esp2 % 4 = 0 ∧ esp2 ≤ esp - strings_size args ∧ esp - strings_size args ≤ esp2 + 3 ∧
      ra.length = args.length ∧
      (∀ x, esp ≤ x → rm x = mem x) ∧
      (∀ (i a : Nat) (arg : List Nat), ra[i]? = some a → args.reverse[i]? = some arg →
        esp - strings_size args ≤ a ∧ a + arg.length < esp ∧ is_cstring rm a arg) ∧
      (∀ x, esp2 - 4 ≤ x → wm x = store_word rm (esp2 - 4) 0 x) ∧
      (∀ (i w : Nat), ra[i]? = some w → load_word wm (esp2 - 4 - 4 * (i + 1)) = w) := by
  obtain ⟨p1, p2, p3, p4, p5⟩ := push_strings_spec args.reverse esp mem 0
    (by rw [strings_size_reverse]; omega) hhi
  rw [strings_size_reverse] at p1 p2
  rw [List.length_reverse] at p3
  rw [Nat.zero_add] at p2
  obtain ⟨hal2, a1, a2⟩ := align_stack_spec esp (strings_size args) hal (by omega) hhi
  have hbound : ∀ w ∈ (push_strings args.reverse esp mem 0).2.2.2, w < 4294967296 := by
    intro w hw
    obtain ⟨i, hi⟩ := List.getElem?_of_mem hw
    have hlt : i < args.reverse.length := by
      rw [List.length_reverse, ← p3]
      exact (List.getElem?_eq_some.1 hi).1
    obtain ⟨-, f2, -⟩ := p5 i w _ hi (List.getElem?_eq_getElem hlt)
    omega
  have hge : 4 * (push_strings args.reverse esp mem 0).2.2.2.length
      ≤ align_stack (esp - strings_size args) (strings_size args) - 4 := by
    rw [p3]; omega
  have hlt2 : align_stack (esp - strings_size args) (strings_size args) - 4 < 4294967296 := by
    omega
  obtain ⟨w1, w2, w3⟩ := push_words_spec (push_strings args.reverse esp mem 0).2.2.2
    (align_stack (esp - strings_size args) (strings_size args) - 4)
    (store_word (push_strings args.reverse esp mem 0).2.1
      (align_stack (esp - strings_size args) (strings_size args) - 4) 0) hge hlt2 hbound
  have e3 : sub32 (align_stack (esp - strings_size args) (strings_size args)) 4
      = align_stack (esp - strings_size args) (strings_size args) - 4 :=
    sub32_eq _ _ (by omega) (by omega)
  refine ⟨(push_strings args.reverse esp mem 0).2.1, (push_strings args.reverse esp mem 0).2.2.2,
    align_stack (esp - strings_size args) (strings_size args), _, ?_, hal2, a1, a2, p3, p4, ?_,
    w2, w3⟩
  · unfold stack_frame
    simp only [p1, p2, e3]
    rw [w1, p3]
  · intro i a arg h1 h2
    have := p5 i a arg h1 h2
    rw [p1] at this
    exact this

theorem stack_frame_spec (args : List (List Nat)) (esp : Nat) (mem : Nat → Nat)
    (ha : ∀ arg ∈ args, arg ≠ []) (hs : strings_size args ≤ 256)
    (hal : esp % 4 = 0) (hlo : 4096 ≤ esp) (hhi : esp < 4294967296) :
    ∃ (esp1 : Nat) (mem1 : Nat → Nat), stack_frame args.length args esp mem = (esp1, mem1) ∧
      esp1 % 4 = 0 ∧ load_word mem1 esp1 = 0 ∧ load_word mem1 (esp1 + 4) = args.length ∧
      load_word mem1 (esp1 + 8) = esp1 + 12 ∧
      (∀ (i : Nat) (arg : List Nat), args[i]? = some arg →
        is_cstring mem1 (load_word mem1 (esp1 + 12 + 4 * i)) arg) ∧
      load_word mem1 (esp1 + 12 + 4 * args.length) = 0 ∧
      (∀ x, esp ≤ x → mem1 x = mem x) := by
  have hk := strings_size_ge args ha
  obtain ⟨rm, ra, esp2, wm, h0, hal2, a1, a2, hra, hrm, hstr, hwm, hw⟩ :=
    stack_frame_layout args esp mem hk hs hal hlo hhi
  obtain ⟨q1, q2, q3, q4, q5⟩ := push_header_spec args.length (esp2 - 4 - 4 * args.length) wm
    (by omega) (by omega) (by omega)
  generalize hP : push_header args.length (esp2 - 4 - 4 * args.length) wm = P at h0 q1 q2 q3 q4 q5
  obtain ⟨pe, pm⟩ := P
  simp only at q1 q2 q3 q4 q5
  have hwe : esp2 - 4 - 4 * args.length = pe + 12 := by omega
  rw [hwe] at q2 q3 q4 q5
  have hq2 : load_word pm pe = 0 := by
    have : pe + 12 - 12 = pe := by omega
    rw [this] at q2; exact q2
  have hq3 : load_word pm (pe + 4) = args.length := by
    have : pe + 12 - 8 = pe + 4 := by omega
    rw [this] at q3; exact q3
  have hq4 : load_word pm (pe + 8) = pe + 12 := by
    have : pe + 12 - 4 = pe + 8 := by omega
    rw [this] at q4; exact q4
  have hword : ∀ (j w : Nat), ra[j]? = some w → load_word pm (esp2 - 4 - 4 * (j + 1)) = w := by
    intro j w hj
    have hjl : j < ra.length := (List.getElem?_eq_some.1 hj).1
    rw [load_word_congr pm wm _ (fun x hx => q5 x (by omega))]
    exact hw j w hj
  have hmem : ∀ x, esp2 ≤ x → pm x = rm x := by
    intro x hx
    rw [q5 x (by omega), hwm x (by omega), store_word_above _ _ _ _ (by omega)]
  refine ⟨pe, pm, h0, by omega, hq2, hq3, hq4, ?_, ?_, ?_⟩
  · intro i arg hi
    have hil : i < args.length := (List.getElem?_eq_some.1 hi).1
    have hrev : args.reverse[args.length - 1 - i]? = some arg := by
      rw [List.getElem?_reverse (by omega)]
      have : args.length - 1 - (args.length - 1 - i) = i := by omega
      rw [this]; exact hi
    have hjl : args.length - 1 - i < ra.length := by omega
    obtain ⟨f1, f2, f3, f4⟩ :=
      hstr (args.length - 1 - i) _ arg (List.getElem?_eq_getElem hjl) hrev
    have haddr : pe + 12 + 4 * i = esp2 - 4 - 4 * (args.length - 1 - i + 1) := by omega
    rw [haddr, hword _ _ (List.getElem?_eq_getElem hjl)]
    exact ⟨fun j hj => by rw [hmem _ (by omega)]; exact f3 j hj,
      by rw [hmem _ (by omega)]; exact f4⟩
  · have haddr : pe + 12 + 4 * args.length = esp2 - 4 := by omega
    rw [haddr, load_word_congr pm wm _ (fun x hx => q5 x (by omega)),
      load_word_congr wm (store_word rm (esp2 - 4) 0) _ (fun x hx => hwm x hx)]
    exact load_store_word _ _ _ (by omega)
  · intro x hx
    rw [hmem x (by omega)]
    exact hrm x hx

/-- C15: for a command line of at most 255 bytes made of `k ≥ 1` tokens separated by one
or more spaces, `calculate_esp` started from a 4-byte aligned stack pointer (with a stack
page below it) returns, given fuel for one loop test per byte, an aligned stack pointer
`esp1` with the word 0 at `esp1`, the word `k` at `esp1 + 4`, the word `esp1 + 12` at
`esp1 + 8`, at `esp1 + 12 + 4 * i` the address of a terminated copy of token `i`, and the
word 0 at `esp1 + 12 + 4 * k`; the memory from the old stack pointer upwards is
unchanged. -/
theorem calculate_esp_round_trip (first : List Nat) (more : List (Nat × List Nat))
    (esp : Nat) (mem : Nat → Nat) (fuel : Nat)
    (ht : ∀ arg ∈ tokens_of first more, is_token arg)
    (hlen : (command_line first more).length ≤ 255)
    (hal : esp % 4 = 0) (hlo : 4096 ≤ esp) (hhi : esp < 4294967296)
    (hf : (command_line first more).length < fuel) :
    ∃ (esp1 : Nat) (mem1 : Nat → Nat),
      calculate_esp fuel (command_line first more) esp mem = some (esp1, mem1) ∧
      esp1 % 4 = 0 ∧ load_word mem1 esp1 = 0 ∧
      load_word mem1 (esp1 + 4) = (tokens_of first more).length ∧
      load_word mem1 (esp1 + 8) = esp1 + 12 ∧
      (∀ (i : Nat) (arg : List Nat), (tokens_of first more)[i]? = some arg →
        is_cstring mem1 (load_word mem1 (esp1 + 12 + 4 * i)) arg) ∧
      load_word mem1 (esp1 + 12 + 4 * (tokens_of first more).length) = 0 ∧
      (∀ x, esp ≤ x → mem1 x = mem x) := by
  have hS1 := strings_size_le first more
  have hS2 := strings_size_ge (tokens_of first more) (fun a ha => (ht a ha).1)
  have hk : (tokens_of first more).length = more.length + 1 := by simp [tokens_of]
  obtain ⟨hc1, hc2⟩ := tokens_of_command_line first more ht fuel (by omega)
  obtain ⟨esp1, mem1, h0, h1⟩ := stack_frame_spec (tokens_of first more) esp mem
    (fun a ha => (ht a ha).1) (by omega) hal hlo hhi
  refine ⟨esp1, mem1, ?_, h1⟩
  unfold calculate_esp
  rw [if_neg (by omega), hc1]
  simp only [hc2]
  rw [if_neg (by rw [hk]; simp), ← hk, h0]

/-- Witness of C15: the command line `"prog arg1  x"` on a stack that starts at
`0xc0000000`. -/
theorem calculate_esp_round_trip_witness :
    ∃ (esp1 : Nat) (mem1 : Nat → Nat),
      calculate_esp 13 prog_line 3221225472 (fun _ => 0) = some (esp1, mem1) ∧
      esp1 % 4 = 0 ∧ load_word mem1 (esp1 + 4) = 3 ∧
      is_cstring mem1 (load_word mem1 (esp1 + 12 + 4 * 1)) [97, 114, 103, 49] := by
  obtain ⟨esp1, mem1, h0, h1, -, h3, -, h5, -⟩ := calculate_esp_round_trip
    [112, 114, 111, 103] [(0, [97, 114, 103, 49]), (1, [120])] 3221225472 (fun _ => 0) 13
    (by unfold is_token; decide) (by decide) (by decide) (by decide) (by decide) (by decide)
  exact ⟨esp1, mem1, h0, h1, h3, h5 1 _ rfl⟩

/-- The stack of the specification example: the stack pointer, the three header words and
the first bytes of the argument copies. -/
theorem calculate_esp_example :
    (calculate_esp 13 prog_line 3221225472 (fun _ => 0)).map
        (fun r => (r.1, load_word r.2 r.1, load_word r.2 (r.1 + 4), load_word r.2 (r.1 + 8),
          load_word r.2 (r.1 + 12), (List.range 12).map (fun i => r.2 (r.1 + 28 + i))))
      = some (3221225432, 0, 3, 3221225444, 3221225460,
          [112, 114, 111, 103, 0, 97, 114, 103, 49, 0, 120, 0]) := by
  decide

/-! ## First in, first out among equal priorities -/

theorem fifo_insert (s : Timed) (l : List Nat) (t : Nat)
    (hp : l.Pairwise (fifo_order s)) (hnew : ∀ x ∈ l, s.since x < s.since t) :
    (list_insert_ordered (biggerprior s.k) l t).Pairwise (fifo_order s) := by
  induction l with
  | nil => simp [list_insert_ordered]
  | cons e es ih =>
    obtain ⟨he, hes⟩ := List.pairwise_cons.1 hp
    unfold list_insert_ordered
    by_cases hgt : (s.k.threads t).priority > (s.k.threads e).priority
    · have hb : biggerprior s.k t e = true := by simp [biggerprior, hgt]
      rw [if_pos hb]
      refine List.pairwise_cons.2 ⟨?_, hp⟩
      intro y hy
      rcases List.mem_cons.1 hy with rfl | hy
      · exact Or.inl hgt
      · left
        rcases he y hy with h1 | ⟨h1, -⟩
        · exact lt_trans h1 hgt
        · rw [h1]; exact hgt
    · have hb : ¬ biggerprior s.k t e = true := by simp [biggerprior, hgt]
      rw [if_neg hb]
      refine List.pairwise_cons.2 ⟨?_, ih hes (fun x hx => hnew x (List.mem_cons_of_mem _ hx))⟩
      intro y hy
      rcases (mem_list_insert_ordered _ _ _ _).1 hy with rfl | hy
      · rcases lt_or_eq_of_le (not_lt.1 hgt) with h1 | h1
        · exact Or.inl h1
        · exact Or.inr ⟨h1, hnew e (List.mem_cons_self _ _)⟩
      · exact he y hy

theorem fifo_order_congr (s s1 : Timed) (l : List Nat)
    (hp : ∀ x ∈ l, (s1.k.threads x).priority = (s.k.threads x).priority)
    (hs : ∀ x ∈ l, s1.since x = s.since x) (h : l.Pairwise (fifo_order s)) :
    l.Pairwise (fifo_order s1) := by
  refine h.imp_of_mem ?_
  intro a b ha hb hab
  unfold fifo_order at hab ⊢
  rw [hp a ha, hp b hb, hs a ha, hs b hb]
  exact hab

theorem thread_unblock_some (k k1 : Kernel) (t : Nat) (h : thread_unblock k t = some k1) :
    is_thread k t = true ∧ (k.threads t).status = .THREAD_BLOCKED := by
  unfold thread_unblock at h
  split at h
  · split at h
    · exact ⟨by assumption, by assumption⟩
    · cases h
  · cases h

theorem timed_ok_unblock (s : Timed) (k1 : Kernel) (t : Nat) (h : timed_ok s)
    (hu : thread_unblock s.k t = some k1) : timed_ok ((s.enter t).move k1) := by
  obtain ⟨hth, hst⟩ := thread_unblock_some s.k k1 t hu
  obtain ⟨h1, -, -, hprio, -⟩ := sched_ok_unblock s.k k1 t h.sched hu
  have hk1 := thread_unblock_eq s.k t hth hst
  rw [hu] at hk1
  have hrl : k1.ready_list = list_insert_ordered (biggerprior s.k) s.k.ready_list t := by
    rw [Option.some.inj hk1]; rfl
  have htl : t ∉ s.k.ready_list := by
    intro hc
    have := (h.sched.ready t hc).2
    rw [hst] at this; cases this
  refine ⟨h1, ?_, ?_⟩
  · intro x hx
    show (if x = t then s.clock else s.since x) < s.clock + 1
    rw [show ((s.enter t).move k1).k.ready_list = k1.ready_list from rfl, hrl] at hx
    split
    · omega
    · rcases (mem_list_insert_ordered _ _ _ _).1 hx with hc | hc
      · contradiction
      · have := h.stamped x hc; omega
  · show k1.ready_list.Pairwise _
    rw [hrl]
    have hf : s.k.ready_list.Pairwise (fifo_order (s.enter t)) :=
      fifo_order_congr s (s.enter t) _ (fun x _ => rfl)
        (fun x hx => by
          have hxt : x ≠ t := fun hc => htl (hc ▸ hx)
          show (if x = t then s.clock else s.since x) = s.since x
          rw [if_neg hxt]) h.fifo
    have hins := fifo_insert (s.enter t) s.k.ready_list t hf (fun x hx => by
      have hxt : x ≠ t := fun hc => htl (hc ▸ hx)
      show (if x = t then s.clock else s.since x) < (if t = t then s.clock else s.since t)
      rw [if_neg hxt, if_pos rfl]
      exact h.stamped x hx)
    exact fifo_order_congr (s.enter t) ((s.enter t).move k1) _
      (fun x _ => hprio x) (fun x _ => rfl) hins

theorem timed_ok_yield (s : Timed) (h : timed_ok s) :
    ∃ k1, thread_yield s.k = some k1 ∧ timed_ok ((s.enter s.k.running).move k1) ∧
      k1.all_list = s.k.all_list ∧ k1.next_tid = s.k.next_tid ∧
      (∀ x, (k1.threads x).priority = (s.k.threads x).priority) ∧
      (∀ x, is_thread k1 x = is_thread s.k x) ∧
      (∀ x, x ≠ s.k.running → x ≠ k1.running →
        (k1.threads x).status = (s.k.threads x).status) ∧
      (k1.running = s.k.running ∨ (k1.running ∈ s.k.ready_list ∧
        (k1.threads s.k.running).status = .THREAD_READY)) := by
  obtain ⟨k1, hy, h1, -, hall, hnt, hprio, hist, hst, hrun⟩ := sched_ok_yield s.k h.sched
  obtain ⟨k2, n, rest, hy2, hlist, -, -, -, -, hrl, -⟩ :=
    thread_yield_facts s.k h.sched.run h.sched.ready
  rw [hy] at hy2
  have hk : k1 = k2 := Option.some.inj hy2
  subst hk
  have hL : list_insert_ordered (biggerprior s.k) s.k.ready_list s.k.running = n :: rest := by
    rcases hlist with hl | ⟨-, hi, -, -⟩
    · rw [if_pos (by rw [h.sched.idle]; simp)] at hl; exact hl
    · rw [h.sched.idle] at hi; cases hi
  have hcur : s.k.running ∉ s.k.ready_list := by
    intro hc; have := (h.sched.ready _ hc).2; rw [h.sched.run.2] at this; cases this
  have hmem : ∀ x, x ∈ rest → x = s.k.running ∨ x ∈ s.k.ready_list := by
    intro x hx
    have : x ∈ n :: rest := List.mem_cons_of_mem _ hx
    rw [← hL] at this
    exact (mem_list_insert_ordered _ _ _ _).1 this
  refine ⟨k1, hy, ⟨h1, ?_, ?_⟩, hall, hnt, hprio, hist, hst, hrun⟩
  · intro x hx
    rw [show ((s.enter s.k.running).move k1).k.ready_list = k1.ready_list from rfl, hrl] at hx
    show (if x = s.k.running then s.clock else s.since x) < s.clock + 1
    split
    · omega
    · rename_i hne
      rcases hmem x hx with hc | hc
      · exact absurd hc hne
      · have := h.stamped x hc; omega
  · show k1.ready_list.Pairwise _
    rw [hrl]
    have hf : s.k.ready_list.Pairwise (fifo_order (s.enter s.k.running)) :=
      fifo_order_congr s (s.enter s.k.running) _ (fun x _ => rfl)
        (fun x hx => by
          have hxt : x ≠ s.k.running := fun hc => hcur (hc ▸ hx)
          show (if x = s.k.running then s.clock else s.since x) = s.since x
          rw [if_neg hxt]) h.fifo
    have hins := fifo_insert (s.enter s.k.running) s.k.ready_list s.k.running hf
      (fun x hx => by
        have hxt : x ≠ s.k.running := fun hc => hcur (hc ▸ hx)
        show (if x = s.k.running then s.clock else s.since x)
          < (if s.k.running = s.k.running then s.clock else s.since s.k.running)
        rw [if_neg hxt, if_pos rfl]
        exact h.stamped x hx)
    have hins2 : (n :: rest).Pairwise (fifo_order (s.enter s.k.running)) := by
      rw [← hL]; exact hins
    exact fifo_order_congr (s.enter s.k.running) ((s.enter s.k.running).move k1) _
      (fun x _ => hprio x) (fun x _ => rfl) (List.pairwise_cons.1 hins2).2

theorem timed_ok_block (s : Timed) (k1 : Kernel) (h : timed_ok s)
    (hb : thread_block s.k = some k1) : timed_ok (s.move k1) := by
  obtain ⟨h1, -⟩ := sched_ok_block s.k k1 h.sched hb
  have hfacts : ∃ n rest, s.k.ready_list = n :: rest ∧ k1.ready_list = rest ∧
      ∀ x, (k1.threads x).priority = (s.k.threads x).priority := by
    unfold thread_block at hb
    rw [thread_current_of_running_ok s.k h.sched.run] at hb
    simp only at hb
    cases hl : s.k.ready_list with
    | nil =>
      exfalso
      unfold schedule next_thread_to_run at hb
      simp [set_thread, hl, h.sched.idle] at hb
    | cons n rest =>
      have hn := h.sched.ready n (by rw [hl]; simp)
      have hnc : n ≠ s.k.running := by
        intro hc; have := hn.2; rw [hc, h.sched.run.2] at this; cases this
      rw [schedule_cons _ n rest (by simpa [set_thread] using hl)
        (by simpa using hn.1) (by simp [set_thread]) (by simp [set_thread])] at hb
      have hk1 := Option.some.inj hb
      refine ⟨n, rest, rfl, by rw [← hk1]; rfl, ?_⟩
      intro x
      rw [← hk1]
      by_cases hx : x = n
      · subst hx; simp [set_thread, hnc]
      · by_cases hx2 : x = s.k.running
        · subst hx2; simp [set_thread, hx]
        · simp [set_thread, hx, hx2]
  obtain ⟨n, rest, hl, hrl, hprio⟩ := hfacts
  have hsub : ∀ x ∈ rest, x ∈ s.k.ready_list := fun x hx => by
    rw [hl]; exact List.mem_cons_of_mem _ hx
  refine ⟨h1, ?_, ?_⟩
  · intro x hx
    rw [show (s.move k1).k.ready_list = k1.ready_list from rfl, hrl] at hx
    exact h.stamped x (hsub x hx)
  · show k1.ready_list.Pairwise _
    rw [hrl]
    have hp := h.fifo
    rw [hl] at hp
    exact fifo_order_congr s (s.move k1) _ (fun x _ => hprio x) (fun x _ => rfl)
      (List.pairwise_cons.1 hp).2

/-- A new entry for a thread outside the ready list changes nothing the invariant is
about. -/
theorem timed_ok_enter (s : Timed) (t : Nat) (h : timed_ok s) (ht : t ∉ s.k.ready_list) :
    timed_ok (s.enter t) := by
  refine ⟨h.sched, ?_, ?_⟩
  · intro x hx
    have hxt : x ≠ t := fun hc => ht (hc ▸ hx)
    show (if x = t then s.clock else s.since x) < s.clock + 1
    rw [if_neg hxt]
    have := h.stamped x hx; omega
  · exact fifo_order_congr s (s.enter t) _ (fun x _ => rfl)
      (fun x hx => by
        have hxt : x ≠ t := fun hc => ht (hc ▸ hx)
        show (if x = t then s.clock else s.since x) = s.since x
        rw [if_neg hxt]) h.fifo

theorem timed_ok_congr (s : Timed) (k1 : Kernel) (h : timed_ok s) (h1 : sched_ok k1)
    (hrl : k1.ready_list = s.k.ready_list)
    (hp : ∀ x ∈ s.k.ready_list, (k1.threads x).priority = (s.k.threads x).priority) :
    timed_ok (s.move k1) := by
  refine ⟨h1, ?_, ?_⟩
  · intro x hx
    rw [show (s.move k1).k.ready_list = k1.ready_list from rfl, hrl] at hx
    exact h.stamped x hx
  · show k1.ready_list.Pairwise _
    rw [hrl]
    exact fifo_order_congr s (s.move k1) _ hp (fun x _ => rfl) h.fifo

theorem init_thread_frame (k k1 : Kernel) (t : Nat) (p : Int) (h : sched_ok k)
    (ht : t ∉ k.all_list) (hi : init_thread k t p = some k1) :
    k1.ready_list = k.ready_list ∧
      ∀ x ∈ k.ready_list, (k1.threads x).priority = (k.threads x).priority := by
  have hnt : is_thread k t ≠ true := fun hc => ht (h.registered t hc)
  have htr : t ≠ k.running := fun hc => hnt (hc ▸ h.run.1)
  have htl : t ∉ k.ready_list := fun hc => hnt (h.ready t hc).1
  have hp : PRI_MIN ≤ p ∧ p ≤ PRI_MAX := by
    by_contra hc; simp [init_thread, hc] at hi
  obtain ⟨k2, e0, hrl, -, -, -, -, -, -, hth, -⟩ := init_thread_facts k t p htr hp.1 hp.2
  rw [hi] at e0
  have := Option.some.inj e0
  subst this
  refine ⟨hrl, ?_⟩
  intro x hx
  have hxt : x ≠ t := fun hc => htl (hc ▸ hx)
  exact (hth x hxt).2.1

theorem timed_move_move (s : Timed) (k1 k2 : Kernel) : (s.move k1).move k2 = s.move k2 := rfl

theorem timed_move_self (s : Timed) : s.move s.k = s := rfl

theorem timed_enter_move (s : Timed) (k1 : Kernel) (t : Nat) :
    (s.move k1).enter t = (s.enter t).move k1 := rfl

/-- The last part of `thread_create` keeps the invariant. -/
theorem timed_ok_create_finish (s : Timed) (k1 : Kernel) (t : Nat) (tid tid1 p : Int)
    (h : timed_ok s) (hf : thread_create_finish s.k t tid p = .returned tid1 k1) :
    timed_ok (((s.enter t).enter s.k.running).move k1) := by
  obtain ⟨hs, -⟩ := sched_ok_congr s.k (set_thread s.k t (fun x => { x with tid := tid }))
    h.sched (by intro x; by_cases hx : x = t <;> simp [set_thread, hx]) rfl rfl rfl
    (fun x hx => hx) h.sched.lock_free
  have h0 : timed_ok (s.move (set_thread s.k t (fun x => { x with tid := tid }))) :=
    timed_ok_congr s _ h hs rfl (by
      intro x _; by_cases hx : x = t <;> simp [set_thread, hx])
  unfold thread_create_finish at hf
  cases hu : thread_unblock (set_thread s.k t (fun x => { x with tid := tid })) t with
  | none => rw [hu] at hf; cases hf
  | some k2 =>
    rw [hu] at hf
    have h2 : timed_ok ((s.enter t).move k2) :=
      timed_ok_unblock (s.move (set_thread s.k t (fun x => { x with tid := tid }))) k2 t h0 hu
    have hs2 : sched_ok k2 := h2.sched
    obtain ⟨-, hrun2, -⟩ := sched_ok_unblock _ k2 t hs hu
    have hrun2' : k2.running = s.k.running := hrun2
    have hgp : thread_get_priority k2 = some (k2.threads k2.running).priority := by
      simp [thread_get_priority, thread_current_of_running_ok k2 hs2.run]
    simp only [hgp] at hf
    by_cases hgt : p > (k2.threads k2.running).priority
    · rw [if_pos hgt] at hf
      obtain ⟨k3, hy, h3, -⟩ := timed_ok_yield _ h2
      have hy' : thread_yield k2 = some k3 := hy
      have h3' : timed_ok ((((s.enter t).enter k2.running)).move k3) := h3
      rw [hy'] at hf
      simp only [Outcome.returned.injEq] at hf
      rw [← hf.2, ← hrun2']
      exact h3'
    · rw [if_neg hgt] at hf
      simp only [Outcome.returned.injEq] at hf
      rw [← hf.2, ← hrun2']
      have hnot : k2.running ∉ k2.ready_list := by
        intro hc
        have := (hs2.ready _ hc).2
        rw [hs2.run.2] at this; cases this
      have h4 : timed_ok (((s.enter t).move k2).enter k2.running) :=
        timed_ok_enter _ k2.running h2 hnot
      exact h4

/-- Every outcome of `thread_create` on a page that is not in use keeps the invariant. -/
theorem timed_ok_create (s : Timed) (t : Nat) (p : Int) (h : timed_ok s)
    (ht : t ∉ s.k.all_list) :
    (∀ tid k1, thread_create s.k (some t) p = .returned tid k1 →
      timed_ok ((((s.enter s.k.running).enter t).enter s.k.running).move k1)) ∧
    (∀ k1, thread_create s.k (some t) p = .switched k1 →
      timed_ok ((s.enter s.k.running).move k1)) := by
  unfold thread_create
  cases hi : init_thread s.k t p with
  | none => simp only [hi]; constructor <;> intros <;> contradiction
  | some ka =>
    obtain ⟨ha, -, -, -, hruna, -, -, -⟩ := sched_ok_init_thread s.k ka t p h.sched ht hi
    obtain ⟨hrla, hpa⟩ := init_thread_frame s.k ka t p h.sched ht hi
    obtain ⟨kmid, hal, e1, e2, e3, e4, e5, e6, e7⟩ :=
      allocate_tid_facts ka ha.run ha.lock_free
    obtain ⟨hm, -⟩ := sched_ok_congr ka kmid ha (by intro x; rw [e1]; exact ⟨rfl, rfl, rfl⟩)
      e2 e3 e4 (by intro x hx; rw [e5]; exact hx) ⟨e6, e7⟩
    have hmid : timed_ok (s.move kmid) :=
      timed_ok_congr s kmid h hm (by rw [e2, hrla]) (by
        intro x hx; rw [e1]; exact hpa x hx)
    obtain ⟨kb, hy, hb, -⟩ := timed_ok_yield _ hmid
    have hy' : thread_yield kmid = some kb := hy
    have hrm : kmid.running = s.k.running := by rw [e3, hruna]
    have hb' : timed_ok ((s.enter s.k.running).move kb) := by
      have : (s.move kmid).k.running = s.k.running := hrm
      rw [this] at hb
      exact hb
    simp only [hi, hal, hy']
    constructor
    · intro tid k1 hc
      by_cases hr : kb.running = s.k.running
      · rw [if_pos hr] at hc
        have := timed_ok_create_finish _ k1 t _ tid p hb' hc
        have hr' : ((s.enter s.k.running).move kb).k.running = s.k.running := hr
        rw [hr'] at this
        exact this
      · rw [if_neg hr] at hc; cases hc
    · intro k1 hc
      by_cases hr : kb.running = s.k.running
      · rw [if_pos hr] at hc
        exfalso
        unfold thread_create_finish at hc
        revert hc
        split
        · intro hc; cases hc
        · split
          · intro hc; cases hc
          · split
            · split <;> intro hc <;> cases hc
            · intro hc; cases hc
      · rw [if_neg hr] at hc
        simp only [Outcome.switched.injEq] at hc
        rw [← hc]; exact hb'

theorem sched_ok_set_running_priority (k : Kernel) (p : Int) (h : sched_ok k) :
    sched_ok (set_thread k k.running (fun t => { t with priority := p })) := by
  have hcur : k.running ∉ k.ready_list := by
    intro hc; have := (h.ready _ hc).2; rw [h.run.2] at this; cases this
  have hst : ∀ x, ((set_thread k k.running (fun t => { t with priority := p })).threads x).status
      = (k.threads x).status := by
    intro x; by_cases hx : x = k.running <;> simp [set_thread, hx]
  have hist : ∀ x, is_thread (set_thread k k.running (fun t => { t with priority := p })) x
      = is_thread k x := by
    intro x; unfold is_thread
    by_cases hx : x = k.running <;> simp [set_thread, hx]
  have hpr : ∀ x, x ≠ k.running →
      ((set_thread k k.running (fun t => { t with priority := p })).threads x).priority
        = (k.threads x).priority := by
    intro x hx; simp [set_thread, hx]
  refine ⟨⟨?_, ?_⟩, ?_, h.nodup, ?_, ?_, h.idle, h.lock_free, ?_⟩
  · rw [hist]; exact h.run.1
  · rw [hst]; exact h.run.2
  · intro x hx
    exact ⟨by rw [hist]; exact (h.ready x hx).1, by rw [hst]; exact (h.ready x hx).2⟩
  · refine h.sorted.imp_of_mem ?_
    intro a b ha hb hab
    rw [hpr a (fun hc => hcur (hc ▸ ha)), hpr b (fun hc => hcur (hc ▸ hb))]
    exact hab
  · intro x hx
    rw [hst] at hx
    exact h.complete x hx
  · intro x hx
    rw [hist] at hx
    exact h.registered x hx

theorem timed_ok_set_priority (thread_mlfqs : Bool) (s : Timed) (k1 : Kernel)
    (new_priority : Int) (h : timed_ok s)
    (hp : thread_set_priority thread_mlfqs s.k new_priority = some k1) :
    timed_ok ((s.enter s.k.running).move k1) := by
  have hcur : s.k.running ∉ s.k.ready_list := by
    intro hc; have := (h.sched.ready _ hc).2; rw [h.sched.run.2] at this; cases this
  unfold thread_set_priority at hp
  cases thread_mlfqs with
  | true =>
    simp only [Bool.true_eq_false, if_false, Option.some.injEq] at hp
    rw [← hp]
    exact timed_ok_enter s _ h hcur
  | false =>
    simp only [if_true, thread_current_of_running_ok s.k h.sched.run] at hp
    have h1 : timed_ok (s.move (set_thread s.k s.k.running
        (fun t => { t with priority := new_priority }))) :=
      timed_ok_congr s _ h (sched_ok_set_running_priority s.k new_priority h.sched) rfl (by
        intro x hx
        have hxr : x ≠ s.k.running := fun hc => hcur (hc ▸ hx)
        simp [set_thread, hxr])
    by_cases hgt : (s.k.threads s.k.running).priority > new_priority
    · rw [if_pos hgt] at hp
      obtain ⟨k2, hy, h2, -⟩ := timed_ok_yield _ h1
      have hy' : thread_yield (set_thread s.k s.k.running
          (fun t => { t with priority := new_priority })) = some k2 := hy
      rw [hy'] at hp
      have h2' : timed_ok ((s.enter s.k.running).move k2) := h2
      rw [← Option.some.inj hp]
      exact h2'
    · rw [if_neg hgt] at hp
      rw [← Option.some.inj hp]
      have h3 : timed_ok ((s.move (set_thread s.k s.k.running
          (fun t => { t with priority := new_priority }))).enter s.k.running) :=
        timed_ok_enter _ _ h1 hcur
      exact h3

/-- Without `thread_aging`, every reachable state satisfies the invariant. -/
theorem timed_reachable_ok (thread_mlfqs : Bool) (s : Timed)
    (hr : timed_reachable thread_mlfqs false s) : timed_ok s := by
  induction hr with
  | init page k0 h0 =>
    obtain ⟨k, hk, hok, hrl, -⟩ := thread_init_boot page
    rw [h0] at hk
    simp only [Outcome.returned.injEq, true_and] at hk
    subst hk
    refine ⟨hok, ?_, ?_⟩
    · intro x hx
      rw [show ({ k := k0, clock := 0, since := fun _ => 0 } : Timed).k.ready_list
        = k0.ready_list from rfl, hrl] at hx
      cases hx
    · show k0.ready_list.Pairwise _
      rw [hrl]; exact List.Pairwise.nil
  | step s s1 _ hs ih =>
    cases hs with
    | create_failed k1 priority tid hc =>
      have : k1 = s.k := by
        unfold thread_create at hc
        simp only [Outcome.returned.injEq] at hc
        exact hc.2.symm
      rw [this]
      exact ih
    | create k1 t priority tid ht hc => exact (timed_ok_create s t priority ih ht).1 tid k1 hc
    | create_switched k1 t priority ht hc => exact (timed_ok_create s t priority ih ht).2 k1 hc
    | create_resumed k1 t tid hc => exact timed_ok_create_finish s k1 t tid tid _ ih hc
    | block k1 hb => exact timed_ok_block s k1 ih hb
    | unblock k1 t hu => exact timed_ok_unblock s k1 t ih hu
    | yield k1 hy =>
      obtain ⟨k2, hy2, h2, -⟩ := timed_ok_yield s ih
      rw [hy] at hy2
      rw [Option.some.inj hy2]
      exact h2
    | set_priority k1 p hp => exact timed_ok_set_priority thread_mlfqs s k1 p ih hp
    | aging k1 mode ha _ => cases ha

/-- C17 (as amended): in every state reached from `thread_init` by `thread_create`,
`thread_block`, `thread_unblock`, `thread_yield` and `thread_set_priority` calls (no
`thread_aging`), `next_thread_to_run` returns the idle thread and leaves the state unchanged
when the ready list is empty, and otherwise removes and returns the front of the ready list,
whose priority no remaining thread exceeds and which entered the ready list before every
remaining thread of equal priority. -/
theorem next_thread_to_run_picks_first (thread_mlfqs : Bool) (s : Timed)
    (hr : timed_reachable thread_mlfqs false s) : picks_first s := by
  have h := timed_reachable_ok thread_mlfqs s hr
  constructor
  · intro hl
    unfold next_thread_to_run
    rw [hl]
  · intro a rest hl
    constructor
    · unfold next_thread_to_run
      rw [hl]
    · intro x hx
      have hp := h.fifo
      rw [hl] at hp
      rcases (List.pairwise_cons.1 hp).1 x hx with h1 | ⟨h1, h2⟩
      · exact ⟨le_of_lt h1, fun he => absurd he (ne_of_lt h1)⟩
      · exact ⟨le_of_eq h1, fun _ => h2⟩

theorem outcome_returned_eq {α : Type} (o : Outcome α) (v : α) (k : Kernel)
    (h : o.value = some v) : o = .returned v (o.state_or k) := by
  cases o with
  | returned w k1 =>
    simp only [Outcome.value, Option.some.injEq] at h
    rw [h]; rfl
  | blocked k1 => cases h
  | switched k1 => cases h
  | exited k1 => cases h
  | panic => cases h

set_option maxHeartbeats 4000000 in
theorem low_created_eq : thread_create booted (some 1) 10 = .returned 2 low_created :=
  outcome_returned_eq _ 2 booted (by decide!)

set_option maxHeartbeats 4000000 in
theorem high_created_eq : thread_create low_created (some 2) 20 = .returned 3 high_created :=
  outcome_returned_eq _ 3 low_created (by decide!)

theorem timed_0_k : timed_0.k = booted := by
  simp only [timed_0]

theorem timed_1_k : timed_1.k = low_created := by
  simp only [timed_1, Timed.move]

theorem timed_2_k : timed_2.k = high_created := by
  simp only [timed_2, Timed.move]

theorem timed_2_reachable (thread_mlfqs with_aging : Bool) :
    timed_reachable thread_mlfqs with_aging timed_2 :=
  .step timed_1 timed_2
    (.step timed_0 timed_1 (.init 0 booted booted_eq)
      (.create timed_0 low_created 1 10 2 (by rw [timed_0_k]; decide!)
        (by rw [timed_0_k]; exact low_created_eq)))
    (.create timed_1 high_created 2 20 3 (by rw [timed_1_k]; decide!)
      (by rw [timed_1_k]; exact high_created_eq))

theorem both_aged_eq : thread_aging timed_2.k 1 = some both_aged := by
  rw [timed_2_k]
  have h : (thread_aging high_created 1).isSome = true := by decide!
  obtain ⟨k, hk⟩ := Option.isSome_iff_exists.1 h
  unfold both_aged
  rw [hk]; rfl

theorem timed_3_reachable : timed_reachable true true timed_3 :=
  .step timed_2 timed_3 (timed_2_reachable true true)
    (.aging timed_2 both_aged 1 rfl both_aged_eq)

/-- C17 as stated fails: the initial thread creates `L` (priority 10), then `H` (priority
20), which `thread_unblock` puts in front of `L`; `thread_aging (1)` then gives every thread
the priority 63 and leaves the ready list as it is.  `next_thread_to_run` now returns `H`,
while `L`, of equal priority, entered the ready list before `H`. -/
theorem aging_breaks_first_in_first_out :
    timed_reachable true true timed_3 ∧
    timed_3.k.ready_list = [2, 1] ∧
    (next_thread_to_run timed_3.k).1 = some 2 ∧
    (timed_3.k.threads 1).priority = (timed_3.k.threads 2).priority ∧
    timed_3.since 1 < timed_3.since 2 ∧
    ¬ picks_first timed_3 := by
  refine ⟨timed_3_reachable, by decide!, by decide!, by decide!, by decide!, ?_⟩
  intro h
  have h2 := (h.2 2 [1] (by decide!)).2 1 (by simp)
  have h3 := h2.2 (by decide!)
  revert h3
  decide!

/-- Witness of C17 (as amended): the state after the two creations, before any
recomputation. -/
theorem next_thread_to_run_picks_first_witness :
    timed_reachable false false timed_2 ∧ picks_first timed_2 :=
  ⟨timed_2_reachable false false,
    next_thread_to_run_picks_first false timed_2 (timed_2_reachable false false)⟩

/-! ## `thread_set_priority` in static mode -/

/-- C21 (as amended): in static mode `thread_set_priority (p)` stores `p` as the priority of
the caller and changes no other priority.  When `p` is not lower than the old priority
nothing else happens: the caller keeps running, whatever the ready list holds.  When `p` is
lower, the caller yields: with an empty ready list, or a front thread of priority below
`p`, it is chosen again at once and the ready list is as before; with a front thread of
priority `p` or more, that thread runs and the caller is ready, in the ready list. -/
theorem thread_set_priority_static (k : Kernel) (p : Int) (hrun : running_ok k)
    (hready : ready_ok k) (hidle : some k.running ≠ k.idle_thread) :
    ∃ k1, thread_set_priority false k p = some k1 ∧
      (k1.threads k.running).priority = p ∧
      (∀ x, x ≠ k.running → (k1.threads x).priority = (k.threads x).priority) ∧
      ((k.threads k.running).priority ≤ p →
        k1 = set_thread k k.running (fun t => { t with priority := p })) ∧
      (p < (k.threads k.running).priority →
        (k.ready_list = [] → k1.running = k.running ∧ k1.ready_list = [] ∧
          (k1.threads k.running).status = .THREAD_RUNNING) ∧
        (∀ h rest, k.ready_list = h :: rest →
          (p ≤ (k.threads h).priority → k1.running = h ∧
            (k1.threads k.running).status = .THREAD_READY ∧ k.running ∈ k1.ready_list) ∧
          ((k.threads h).priority < p → k1.running = k.running ∧
            k1.ready_list = h :: rest ∧
            (k1.threads k.running).status = .THREAD_RUNNING))) := by
  have hcur := thread_current_of_running_ok k hrun
  generalize hK : set_thread k k.running (fun t => { t with priority := p }) = K
  have hKth : ∀ x, K.threads x =
      if x = k.running then { k.threads x with priority := p } else k.threads x := by
    intro x; rw [← hK]; rfl
  have hKrun : K.running = k.running := by rw [← hK]; rfl
  have hKrl : K.ready_list = k.ready_list := by rw [← hK]; rfl
  have hKidle : K.idle_thread = k.idle_thread := by rw [← hK]; rfl
  have hKp : (K.threads k.running).priority = p := by rw [hKth, if_pos rfl]
  have hKo : ∀ x, x ≠ k.running → K.threads x = k.threads x := by
    intro x hx; rw [hKth, if_neg hx]
  have hrunK : running_ok K := by
    constructor
    · unfold is_thread; rw [hKrun, hKth, if_pos rfl]; exact hrun.1
    · rw [hKrun, hKth, if_pos rfl]; exact hrun.2
  have hnotin : k.running ∉ k.ready_list := by
    intro hc; have := (hready _ hc).2; rw [hrun.2] at this; cases this
  have hreadyK : ready_ok K := by
    intro t ht
    rw [hKrl] at ht
    have htr : t ≠ k.running := fun hc => hnotin (hc ▸ ht)
    unfold is_thread
    rw [hKo t htr]
    exact hready t ht
  by_cases hle : (k.threads k.running).priority ≤ p
  · refine ⟨K, ?_, hKp, fun x hx => by rw [hKo x hx], fun _ => rfl, fun h => absurd hle (not_le.2 h)⟩
    unfold thread_set_priority
    simp only [if_true, hcur, hK]
    rw [if_neg (not_lt.2 hle)]
  · have hlt : p < (k.threads k.running).priority := not_le.1 hle
    obtain ⟨k1, n, rest, hy, hlist, -, -, -, hrn, hrl, -, -, -, -, -, -, -, -, -, hth⟩ :=
      thread_yield_facts K hrunK hreadyK
    have hL : list_insert_ordered (biggerprior K) k.ready_list k.running = n :: rest := by
      rcases hlist with hl | ⟨-, hi, -, -⟩
      · rw [hKrun, hKidle, if_pos hidle, hKrl] at hl; exact hl
      · rw [hKrun, hKidle] at hi; exact absurd hi.symm hidle
    have hp1 : ∀ x, (k1.threads x).priority = (K.threads x).priority := by
      intro x; rw [hth x]; split
      · rfl
      · split <;> rfl
    refine ⟨k1, ?_, by rw [hp1, hKp], fun x hx => by rw [hp1, hKo x hx],
      fun h => absurd h hle, fun _ => ⟨?_, ?_⟩⟩
    · unfold thread_set_priority
      simp only [if_true, hcur, hK]
      rw [if_pos hlt]; exact hy
    · intro hnil
      rw [hnil] at hL
      simp only [list_insert_ordered, List.cons.injEq] at hL
      refine ⟨by rw [hrn]; exact hL.1.symm, by rw [hrl]; exact hL.2.symm, ?_⟩
      rw [hth, if_pos hL.1]
    · intro h r hl
      have hhr : h ≠ k.running := fun hc => hnotin (by rw [hl, ← hc]; simp)
      have hbp : biggerprior K k.running h = decide ((k.threads h).priority < p) := by
        unfold biggerprior
        rw [hKp, hKo h hhr]
        by_cases hc : (k.threads h).priority < p
        · simp [hc]
        · simp [hc]
      rw [hl] at hL
      unfold list_insert_ordered at hL
      rw [hbp] at hL
      constructor
      · intro hge
        rw [decide_eq_false (not_lt.2 hge)] at hL
        simp only [Bool.false_eq_true, if_false, List.cons.injEq] at hL
        have hnr : n ≠ k.running := by rw [← hL.1]; exact hhr
        refine ⟨by rw [hrn]; exact hL.1.symm, ?_, ?_⟩
        · rw [hth, if_neg (Ne.symm hnr), hKrun, if_pos rfl]
        · rw [hrl, ← hL.2]
          exact (mem_list_insert_ordered _ _ _ _).2 (Or.inl rfl)
      · intro hlow
        rw [decide_eq_true hlow] at hL
        simp only [if_true, List.cons.injEq] at hL
        refine ⟨by rw [hrn]; exact hL.1.symm, by rw [hrl]; exact hL.2.symm, ?_⟩
        rw [hth, if_pos hL.1]

theorem lowered_to_20_eq : thread_set_priority false high_created 20 = some lowered_to_20 := by
  have h : (thread_set_priority false high_created 20).isSome = true := by decide!
  obtain ⟨v, hv⟩ := Option.isSome_iff_exists.1 h
  unfold lowered_to_20
  rw [hv]; rfl

/-- C21 (counterexample): the initial thread, of priority 31, has created a thread of
priority 10 and one of priority 20, so the front of the ready list is thread 2 with
priority 20.  It calls `thread_set_priority (20)`: the front thread's priority is not
higher than 20, yet the caller is no longer running when the call ends; thread 2 is. -/
theorem thread_set_priority_yields_to_equal_head :
    high_created.running = 0 ∧ high_created.ready_list = [2, 1] ∧
    (high_created.threads 0).priority = 31 ∧
    ¬ (high_created.threads 2).priority > 20 ∧
    thread_set_priority false high_created 20 = some lowered_to_20 ∧
    lowered_to_20.running = 2 ∧ lowered_to_20.ready_list = [0, 1] ∧
    (lowered_to_20.threads 0).status = .THREAD_READY := by
  refine ⟨by decide!, by decide!, by decide!, by decide!, lowered_to_20_eq, by decide!,
    by decide!, by decide!⟩

theorem high_created_running_ok : running_ok high_created := ⟨by decide!, by decide!⟩

theorem high_created_ready_ok : ready_ok high_created := by
  have h : high_created.ready_list = [2, 1] := by decide!
  intro t ht
  rw [h] at ht
  simp only [List.mem_cons, List.mem_singleton, List.not_mem_nil, or_false] at ht
  rcases ht with rfl | rfl
  · exact ⟨by decide!, by decide!⟩
  · exact ⟨by decide!, by decide!⟩

theorem thread_set_priority_static_witness :
    running_ok high_created ∧ ready_ok high_created ∧
    some high_created.running ≠ high_created.idle_thread ∧
    ∃ k1, thread_set_priority false high_created 15 = some k1 ∧
      (k1.threads high_created.running).priority = 15 ∧
      (∀ x, x ≠ high_created.running →
        (k1.threads x).priority = (high_created.threads x).priority) ∧
      ((high_created.threads high_created.running).priority ≤ 15 →
        k1 = set_thread high_created high_created.running
          (fun t => { t with priority := 15 })) ∧
      (15 < (high_created.threads high_created.running).priority →
        (high_created.ready_list = [] → k1.running = high_created.running ∧
          k1.ready_list = [] ∧
          (k1.threads high_created.running).status = .THREAD_RUNNING) ∧
        (∀ h rest, high_created.ready_list = h :: rest →
          (15 ≤ (high_created.threads h).priority → k1.running = h ∧
            (k1.threads high_created.running).status = .THREAD_READY ∧
            high_created.running ∈ k1.ready_list) ∧
          ((high_created.threads h).priority < 15 → k1.running = high_created.running ∧
            k1.ready_list = h :: rest ∧
            (k1.threads high_created.running).status = .THREAD_RUNNING))) :=
  ⟨high_created_running_ok, high_created_ready_ok, by decide!,
    thread_set_priority_static high_created 15 high_created_running_ok
      high_created_ready_ok (by decide!)⟩

/-! ## The deferred yield of `thread_aging (1)` -/

theorem list_insert_ordered_front (less : Nat → Nat → Bool) (l : List Nat) (a : Nat)
    (h : ∀ x ∈ l, less a x = true) : list_insert_ordered less l a = a :: l := by
  cases l with
  | nil => rfl
  | cons e es =>
    unfold list_insert_ordered
    rw [if_pos (h e (List.mem_cons_self e es))]

theorem biggerprior_eq (k : Kernel) (a b : Nat) :
    biggerprior k a b = decide ((k.threads b).priority < (k.threads a).priority) := by
  unfold biggerprior
  by_cases hc : (k.threads b).priority < (k.threads a).priority
  · simp [hc]
  · simp [hc]

/-- The rest of `thread_create` in a state whose running thread is strictly above every
ready thread: the new thread is made ready in its ordered position, and it gets the CPU
exactly when its priority is strictly greater than that of the creator. -/
theorem thread_create_finish_facts (k : Kernel) (t : Nat) (tid p : Int) (hrun : running_ok k)
    (hready : ready_ok k) (hidle : some k.running ≠ k.idle_thread)
    (hit : is_thread k t = true) (hst : (k.threads t).status = .THREAD_BLOCKED)
    (hp : (k.threads t).priority = p)
    (htop : ∀ x ∈ k.ready_list, (k.threads x).priority < (k.threads k.running).priority) :
    ∃ k1, thread_create_finish k t tid p = .returned tid k1 ∧
      (k1.threads t).tid = tid ∧
      (∀ x, (k1.threads x).priority = (k.threads x).priority) ∧
      (∀ x, x ≠ t → x ≠ k.running → (k1.threads x).status = (k.threads x).status) ∧
      ((k.threads k.running).priority < p →
        k1.running = t ∧ k1.ready_list = k.running :: k.ready_list ∧
        (k1.threads t).status = .THREAD_RUNNING ∧
        (k1.threads k.running).status = .THREAD_READY) ∧
      (p ≤ (k.threads k.running).priority →
        k1.running = k.running ∧ (k1.threads t).status = .THREAD_READY ∧
        (k1.threads k.running).status = .THREAD_RUNNING ∧
        ∃ pre post, k.ready_list = pre ++ post ∧ k1.ready_list = pre ++ t :: post ∧
          (∀ e ∈ pre, p ≤ (k.threads e).priority) ∧
          (∀ y, post.head? = some y → (k.threads y).priority < p)) := by
  have htr : t ≠ k.running := by
    intro hc; rw [hc, hrun.2] at hst; cases hst
  have htl : t ∉ k.ready_list := by
    intro hc; have := (hready t hc).2; rw [hst] at this; cases this
  have hrl : k.running ∉ k.ready_list := by
    intro hc; have := (hready _ hc).2; rw [hrun.2] at this; cases this
  generalize hK : set_thread k t (fun x => { x with tid := tid }) = K
  have hKth : ∀ x, K.threads x = if x = t then { k.threads x with tid := tid } else k.threads x := by
    intro x; rw [← hK]; rfl
  have hKrun : K.running = k.running := by rw [← hK]; rfl
  have hKrl : K.ready_list = k.ready_list := by rw [← hK]; rfl
  have hKidle : K.idle_thread = k.idle_thread := by rw [← hK]; rfl
  have hKp : ∀ x, (K.threads x).priority = (k.threads x).priority := by
    intro x; rw [hKth]; split <;> rfl
  have hKs : ∀ x, (K.threads x).status = (k.threads x).status := by
    intro x; rw [hKth]; split <;> rfl
  have hKm : ∀ x, is_thread K x = is_thread k x := by
    intro x; unfold is_thread; rw [hKth]; split <;> rfl
  have hKtid : (K.threads t).tid = tid := by rw [hKth, if_pos rfl]
  have hu := thread_unblock_eq K t (by rw [hKm]; exact hit) (by rw [hKs]; exact hst)
  generalize hK1 : set_thread
      { K with ready_list := list_insert_ordered (biggerprior K) K.ready_list t } t
      (fun x => { x with status := .THREAD_READY }) = K1 at hu
  have h1th : ∀ x, K1.threads x =
      if x = t then { K.threads x with status := .THREAD_READY } else K.threads x := by
    intro x; rw [← hK1]; rfl
  have h1run : K1.running = k.running := by rw [← hK1]; exact hKrun
  have h1rl : K1.ready_list = list_insert_ordered (biggerprior K) k.ready_list t := by
    rw [← hK1, ← hKrl]; rfl
  have h1idle : K1.idle_thread = k.idle_thread := by rw [← hK1]; exact hKidle
  have h1p : ∀ x, (K1.threads x).priority = (k.threads x).priority := by
    intro x; rw [h1th, ← hKp x]; split <;> rfl
  have h1m : ∀ x, is_thread K1 x = is_thread k x := by
    intro x; rw [← hKm x]; unfold is_thread; rw [h1th]; split <;> rfl
  have h1st : (K1.threads t).status = .THREAD_READY := by rw [h1th, if_pos rfl]
  have h1so : ∀ x, x ≠ t → (K1.threads x).status = (k.threads x).status := by
    intro x hx; rw [h1th, if_neg hx, hKs]
  have h1tid : (K1.threads t).tid = tid := by rw [h1th, if_pos rfl]; exact hKtid
  have hrun1 : running_ok K1 := by
    constructor
    · rw [h1run, h1m]; exact hrun.1
    · rw [h1run, h1so _ (Ne.symm htr)]; exact hrun.2
  have hready1 : ready_ok K1 := by
    intro x hx
    rw [h1rl] at hx
    rcases (mem_list_insert_ordered _ _ _ _).1 hx with rfl | hx
    · exact ⟨by rw [h1m]; exact hit, h1st⟩
    · have hxt : x ≠ t := fun hc => htl (hc ▸ hx)
      exact ⟨by rw [h1m]; exact (hready x hx).1, by rw [h1so x hxt]; exact (hready x hx).2⟩
  have hgp : thread_get_priority K1 = some (k.threads k.running).priority := by
    simp [thread_get_priority, thread_current_of_running_ok K1 hrun1, h1run, h1p]
  unfold thread_create_finish
  rw [hK, hu]
  simp only [hgp]
  by_cases hgt : p > (k.threads k.running).priority
  · rw [if_pos hgt]
    obtain ⟨k2, n, rest, hy, hlist, -, -, -, hrn, hrl2, -, -, -, -, -, -, -, -, -, hth⟩ :=
      thread_yield_facts K1 hrun1 hready1
    have hins1 : list_insert_ordered (biggerprior K) k.ready_list t = t :: k.ready_list := by
      apply list_insert_ordered_front
      intro x hx
      rw [biggerprior_eq, hKp, hKp, hp]
      exact decide_eq_true (lt_trans (htop x hx) hgt)
    have hL : t :: k.running :: k.ready_list = n :: rest := by
      rcases hlist with hl | ⟨-, hi, -, -⟩
      · rw [h1run, h1idle, if_pos hidle, h1rl, hins1] at hl
        unfold list_insert_ordered at hl
        rw [biggerprior_eq, h1p, h1p, hp, decide_eq_false (not_lt.2 (le_of_lt hgt))] at hl
        simp only [Bool.false_eq_true, if_false] at hl
        rw [list_insert_ordered_front] at hl
        · exact hl
        · intro x hx
          rw [biggerprior_eq, h1p, h1p]
          exact decide_eq_true (htop x hx)
      · rw [h1run, h1idle] at hi; exact absurd hi.symm hidle
    simp only [List.cons.injEq] at hL
    have hnt : n = t := hL.1.symm
    rw [hy]
    refine ⟨k2, rfl, ?_, ?_, ?_, fun _ => ⟨by rw [hrn, hnt], by rw [hrl2, ← hL.2], ?_, ?_⟩,
      fun hle => absurd hgt (not_lt.2 hle)⟩
    · rw [hth, if_pos hnt.symm]; exact h1tid
    · intro x; rw [hth, ← h1p x]; split
      · rfl
      · split <;> rfl
    · intro x hx hxr
      rw [hth, if_neg (by rw [hnt]; exact hx), h1run, if_neg hxr, h1so x hx]
    · rw [hth, if_pos hnt.symm]
    · rw [hth, if_neg (by rw [hnt]; exact Ne.symm htr), h1run, if_pos rfl]
  · rw [if_neg hgt]
    have hle : p ≤ (k.threads k.running).priority := not_lt.1 hgt
    refine ⟨K1, rfl, h1tid, h1p, fun x hx _ => h1so x hx,
      fun hlt => absurd hlt hgt, fun _ => ⟨h1run, h1st, ?_, ?_⟩⟩
    · rw [h1so _ (Ne.symm htr)]; exact hrun.2
    · obtain ⟨pre, post, e1, e2, e3, e4⟩ :=
        list_insert_ordered_split (biggerprior K) k.ready_list t
      refine ⟨pre, post, e1, by rw [h1rl]; exact e2, ?_, ?_⟩
      · intro e he
        have := e3 e he
        rw [biggerprior_eq, hKp, hKp, hp] at this
        exact not_lt.1 (of_decide_eq_false this)
      · intro y hy
        have := e4 y hy
        rw [biggerprior_eq, hKp, hKp, hp] at this
        exact of_decide_eq_true this

/-- C22 (as amended): `thread_create (name, p, f, aux)` on a fresh page `t`, made by a
thread other than the idle thread whose priority is strictly greater than that of every
ready thread, with `tid_lock` free and `p` in `[PRI_MIN, PRI_MAX]`, returns the next tid;
the priorities of the other threads are unchanged.  When `p` is strictly greater than the
priority of the caller, the new thread runs and the caller is ready at the front of the
ready list.  When `p` is at most the priority of the caller, the caller keeps running and
the new thread is ready, inserted in the ready list behind the leading threads of priority
`p` or more and in front of the first thread of lower priority.  When the page allocation
fails, `TID_ERROR` is returned in the unchanged state. -/
theorem thread_create_strict_top (k : Kernel) (t : Nat) (p : Int) (hrun : running_ok k)
    (hready : ready_ok k) (hidle : some k.running ≠ k.idle_thread)
    (hlock : k.semas (.lock tid_lock) = { value := 1, waiters := [] } ∧
      k.holder tid_lock = none)
    (ht : is_thread k t = false) (hp1 : PRI_MIN ≤ p) (hp2 : p ≤ PRI_MAX)
    (htop : ∀ x ∈ k.ready_list, (k.threads x).priority < (k.threads k.running).priority) :
    thread_create k none p = .returned TID_ERROR k ∧
    ∃ k1, thread_create k (some t) p = .returned k.next_tid k1 ∧
      (k1.threads t).tid = k.next_tid ∧ (k1.threads t).priority = p ∧
      (∀ x, x ≠ t → (k1.threads x).priority = (k.threads x).priority) ∧
      (∀ x, x ≠ t → x ≠ k.running → (k1.threads x).status = (k.threads x).status) ∧
      ((k.threads k.running).priority < p →
        k1.running = t ∧ k1.ready_list = k.running :: k.ready_list ∧
        (k1.threads t).status = .THREAD_RUNNING ∧
        (k1.threads k.running).status = .THREAD_READY) ∧
      (p ≤ (k.threads k.running).priority →
        k1.running = k.running ∧ (k1.threads t).status = .THREAD_READY ∧
        (k1.threads k.running).status = .THREAD_RUNNING ∧
        ∃ pre post, k.ready_list = pre ++ post ∧ k1.ready_list = pre ++ t :: post ∧
          (∀ e ∈ pre, p ≤ (k.threads e).priority) ∧
          (∀ y, post.head? = some y → (k.threads y).priority < p)) := by
  refine ⟨rfl, ?_⟩
  have htr : t ≠ k.running := by
    intro hc; rw [hc, hrun.1] at ht; cases ht
  have htl : t ∉ k.ready_list := by
    intro hc; have := (hready t hc).1; rw [ht] at this; cases this
  have hrl : k.running ∉ k.ready_list := by
    intro hc; have := (hready _ hc).2; rw [hrun.2] at this; cases this
  obtain ⟨ka, hi, a1, a2, a3, -, a5, a6, a7, a8, a9, a10, a11⟩ :=
    init_thread_facts k t p htr hp1 hp2
  have hruna : running_ok ka := by
    constructor
    · unfold is_thread; rw [a2, (a8 _ (Ne.symm htr)).2.2]; exact hrun.1
    · rw [a2, (a8 _ (Ne.symm htr)).1]; exact hrun.2
  obtain ⟨kmid, hal, e1, e2, e3, e4, -, -, -⟩ :=
    allocate_tid_facts ka hruna ⟨by rw [a7]; exact hlock.1, by rw [a6]; exact hlock.2⟩
  have hrunm : running_ok kmid := by
    constructor
    · unfold is_thread; rw [e1, e3]; exact hruna.1
    · rw [e1, e3]; exact hruna.2
  have hreadym : ready_ok kmid := by
    intro x hx
    rw [e2, a1] at hx
    have hxt : x ≠ t := fun hc => htl (hc ▸ hx)
    unfold is_thread
    rw [e1, (a8 x hxt).2.2, (a8 x hxt).1]
    exact hready x hx
  obtain ⟨kb, n, rest, hy, hlist, -, -, -, hrn, hrlb, -, -, hidb, -, -, -, -, -, -, hth⟩ :=
    thread_yield_facts kmid hrunm hreadym
  have hL : k.running :: k.ready_list = n :: rest := by
    rcases hlist with hl | ⟨-, hid, -, -⟩
    · rw [e3, e4, a2, a3, if_pos hidle, e2, a1, list_insert_ordered_front] at hl
      · exact hl
      · intro x hx
        have hxt : x ≠ t := fun hc => htl (hc ▸ hx)
        rw [biggerprior_eq, e1, (a8 x hxt).2.1, (a8 _ (Ne.symm htr)).2.1]
        exact decide_eq_true (htop x hx)
    · rw [e3, e4, a2, a3] at hid; exact absurd hid.symm hidle
  simp only [List.cons.injEq] at hL
  have hbrun : kb.running = k.running := by rw [hrn]; exact hL.1.symm
  have hbrl : kb.ready_list = k.ready_list := by rw [hrlb]; exact hL.2.symm
  have hbs : ∀ x, (kb.threads x).status = (ka.threads x).status := by
    intro x
    rw [hth, e1]
    by_cases hx : x = n
    · rw [if_pos hx, hx, ← hL.1, ← a2]; exact hruna.2.symm
    · rw [if_neg hx, e3, a2, if_neg (by rw [hL.1]; exact hx)]
  have hbp : ∀ x, (kb.threads x).priority = (ka.threads x).priority := by
    intro x; rw [hth, e1]; split
    · rfl
    · split <;> rfl
  have hbm : ∀ x, is_thread kb x = is_thread ka x := by
    intro x; unfold is_thread; rw [hth, e1]; split
    · rfl
    · split <;> rfl
  have hrunb : running_ok kb := by
    constructor
    · rw [hbrun, hbm, ← a2]; exact hruna.1
    · rw [hbrun, hbs, ← a2]; exact hruna.2
  have hreadyb : ready_ok kb := by
    intro x hx
    rw [hbrl] at hx
    have hxt : x ≠ t := fun hc => htl (hc ▸ hx)
    rw [hbm, hbs]
    unfold is_thread
    rw [(a8 x hxt).2.2, (a8 x hxt).1]
    exact hready x hx
  have hprun : (kb.threads kb.running).priority = (k.threads k.running).priority := by
    rw [hbrun, hbp, (a8 _ (Ne.symm htr)).2.1]
  obtain ⟨k1, hf, f1, f2, f3, f4, f5⟩ := thread_create_finish_facts kb t ka.next_tid p hrunb
    hreadyb (by rw [hbrun, hidb, e4, a3]; exact hidle) (by rw [hbm]; exact a11)
    (by rw [hbs]; exact a9) (by rw [hbp]; exact a10)
    (by
      intro x hx
      rw [hbrl] at hx
      have hxt : x ≠ t := fun hc => htl (hc ▸ hx)
      rw [hprun, hbp, (a8 x hxt).2.1]
      exact htop x hx)
  refine ⟨k1, ?_, by rw [f1, a5], by rw [f2, hbp, a10], ?_, ?_, ?_, ?_⟩
  · unfold thread_create
    simp only [hi, hal, hy]
    rw [if_pos hbrun, hf, a5]
  · intro x hx; rw [f2, hbp, (a8 x hx).2.1]
  · intro x hx hxr
    rw [f3 x hx (by rw [hbrun]; exact hxr), hbs, (a8 x hx).1]
  · intro hlt
    have := f4 (by rw [hprun]; exact hlt)
    rw [hbrun, hbrl] at this
    exact this
  · intro hle
    obtain ⟨g1, g2, g3, pre, post, g4, g5, g6, g7⟩ := f5 (by rw [hprun]; exact hle)
    rw [hbrun] at g1 g3
    rw [hbrl] at g4
    refine ⟨g1, g2, g3, pre, post, g4, g5, ?_, ?_⟩
    · intro e he
      have het : e ≠ t := by
        intro hc; apply htl; rw [g4, ← hc]; exact List.mem_append_left _ he
      have := g6 e he
      rw [hbp, (a8 e het).2.1] at this
      exact this
    · intro y hy
      have hyp : y ∈ post := by
        cases post with
        | nil => cases hy
        | cons b bs =>
          simp only [List.head?_cons, Option.some.injEq] at hy
          rw [← hy]; exact List.mem_cons_self b bs
      have hyt : y ≠ t := by
        intro hc; apply htl; rw [g4, ← hc]; exact List.mem_append_right _ hyp
      have := g7 y hy
      rw [hbp, (a8 y hyt).2.1] at this
      exact this

theorem outcome_switched_eq {α : Type} (o : Outcome α) (k : Kernel)
    (h : (match o with | .switched _ => true | _ => false) = true) :
    o = .switched (o.state_or k) := by
  cases o with
  | returned w k1 => cases h
  | blocked k1 => cases h
  | switched k1 => rfl
  | exited k1 => cases h
  | panic => cases h

theorem create_lost_cpu_eq :
    thread_create child_ready (some 2) 10 = .switched create_lost_cpu :=
  outcome_switched_eq _ child_ready (by decide!)

/-- C22 (counterexample): the initial thread and its child both have priority 31, so the
caller's priority is at least that of every ready thread.  The initial thread calls
`thread_create` with priority 10, which is not greater than its own: the yield at the end
of `allocate_tid` gives the CPU to the child, so the caller does not keep running, and the
new thread on page 2 is still blocked and not in the ready list. -/
theorem thread_create_loses_cpu_to_equal :
    child_ready.running = 0 ∧ child_ready.ready_list = [1] ∧
    (child_ready.threads 0).priority = 31 ∧ (child_ready.threads 1).priority = 31 ∧
    is_thread child_ready 2 = false ∧
    thread_create child_ready (some 2) 10 = .switched create_lost_cpu ∧
    create_lost_cpu.running = 1 ∧ create_lost_cpu.ready_list = [0] ∧
    (create_lost_cpu.threads 0).status = .THREAD_READY ∧
    (create_lost_cpu.threads 2).status = .THREAD_BLOCKED := by
  refine ⟨by decide!, by decide!, by decide!, by decide!, by decide!, create_lost_cpu_eq,
    by decide!, by decide!, by decide!, by decide!⟩

theorem low_created_running_ok : running_ok low_created := ⟨by decide!, by decide!⟩

theorem low_created_ready_ok : ready_ok low_created := by
  have h : low_created.ready_list = [1] := by decide!
  intro t ht
  rw [h] at ht
  simp only [List.mem_singleton] at ht
  subst ht
  exact ⟨by decide!, by decide!⟩

theorem low_created_top :
    ∀ x ∈ low_created.ready_list,
      (low_created.threads x).priority < (low_created.threads low_created.running).priority := by
  have h : low_created.ready_list = [1] := by decide!
  intro t ht
  rw [h] at ht
  simp only [List.mem_singleton] at ht
  subst ht
  decide!

theorem thread_create_strict_top_witness :
    running_ok low_created ∧ ready_ok low_created ∧
    some low_created.running ≠ low_created.idle_thread ∧
    is_thread low_created 2 = false ∧
    (∀ x ∈ low_created.ready_list,
      (low_created.threads x).priority < (low_created.threads low_created.running).priority) ∧
    thread_create low_created none 20 = .returned TID_ERROR low_created ∧
    ∃ k1, thread_create low_created (some 2) 20 = .returned low_created.next_tid k1 ∧
      (k1.threads 2).tid = low_created.next_tid ∧ (k1.threads 2).priority = 20 ∧
      (∀ x, x ≠ 2 → (k1.threads x).priority = (low_created.threads x).priority) ∧
      (∀ x, x ≠ 2 → x ≠ low_created.running →
        (k1.threads x).status = (low_created.threads x).status) ∧
      ((low_created.threads low_created.running).priority < 20 →
        k1.running = 2 ∧ k1.ready_list = low_created.running :: low_created.ready_list ∧
        (k1.threads 2).status = .THREAD_RUNNING ∧
        (k1.threads low_created.running).status = .THREAD_READY) ∧
      (20 ≤ (low_created.threads low_created.running).priority →
        k1.running = low_created.running ∧ (k1.threads 2).status = .THREAD_READY ∧
        (k1.threads low_created.running).status = .THREAD_RUNNING ∧
        ∃ pre post, low_created.ready_list = pre ++ post ∧
          k1.ready_list = pre ++ 2 :: post ∧
          (∀ e ∈ pre, 20 ≤ (low_created.threads e).priority) ∧
          (∀ y, post.head? = some y → (low_created.threads y).priority < 20)) :=
  ⟨low_created_running_ok, low_created_ready_ok, by decide!, by decide!, low_created_top,
    thread_create_strict_top low_created 2 20 low_created_running_ok low_created_ready_ok
      (by decide!) ⟨by decide!, by decide!⟩ (by decide!) (by decide!) (by decide!)
      low_created_top⟩

/-! ## Sortedness of the ready list in static mode -/

theorem static_ok_unblock (k k1 : Kernel) (t : Nat) (h : static_ok k)
    (hu : thread_unblock k t = some k1) : static_ok k1 := by
  obtain ⟨hit, hst⟩ := thread_unblock_some k k1 t hu
  rw [thread_unblock_eq k t hit hst] at hu
  have hk1 := Option.some.inj hu
  have htr : t ≠ k.running := by
    intro hc; rw [hc, h.run.2] at hst; cases hst
  have htl : t ∉ k.ready_list := by
    intro hc; have := (h.ready t hc).2; rw [hst] at this; cases this
  have hth : ∀ x, k1.threads x =
      if x = t then { k.threads x with status := .THREAD_READY } else k.threads x := by
    intro x; rw [← hk1]; rfl
  have hrun : k1.running = k.running := by rw [← hk1]; rfl
  have hrl : k1.ready_list = list_insert_ordered (biggerprior k) k.ready_list t := by
    rw [← hk1]; rfl
  have hp : ∀ x, (k1.threads x).priority = (k.threads x).priority := by
    intro x; rw [hth]; split <;> rfl
  have hm : ∀ x, is_thread k1 x = is_thread k x := by
    intro x; unfold is_thread; rw [hth]; split <;> rfl
  refine ⟨⟨?_, ?_⟩, ?_, ?_, ?_⟩
  · rw [hrun, hm]; exact h.run.1
  · rw [hrun, hth, if_neg (Ne.symm htr)]; exact h.run.2
  · intro x hx
    rw [hrl] at hx
    rcases (mem_list_insert_ordered _ _ _ _).1 hx with rfl | hx
    · exact ⟨by rw [hm]; exact hit, by rw [hth, if_pos rfl]⟩
    · have hxt : x ≠ t := fun hc => htl (hc ▸ hx)
      exact ⟨by rw [hm]; exact (h.ready x hx).1, by rw [hth, if_neg hxt]; exact (h.ready x hx).2⟩
  · rw [hrl]; exact list_insert_ordered_nodup _ _ _ h.nodup htl
  · unfold ready_sorted
    rw [hrl]
    refine (list_insert_ordered_sorted k k.ready_list t h.sorted).imp ?_
    intro a b hab; rw [hp a, hp b]; exact hab

theorem static_ok_yield (k k1 : Kernel) (h : static_ok k) (hy : thread_yield k = some k1) :
    static_ok k1 := by
  obtain ⟨k2, hy2, hrun, hready, hnd, -, -, -, -, hp, -⟩ :=
    thread_yield_ok k h.run h.ready h.nodup
  obtain ⟨k3, n, rest, hy3, hlist, -, -, -, -, hrl, -⟩ := thread_yield_facts k h.run h.ready
  rw [hy] at hy2 hy3
  have e2 : k1 = k2 := Option.some.inj hy2
  have e3 : k1 = k3 := Option.some.inj hy3
  subst e2
  subst e3
  refine ⟨hrun, hready, hnd, ?_⟩
  have hs : rest.Pairwise (fun a b => (k.threads b).priority ≤ (k.threads a).priority) := by
    rcases hlist with hl | ⟨-, -, -, hr⟩
    · have hL : (if some k.running ≠ k.idle_thread then
          list_insert_ordered (biggerprior k) k.ready_list k.running else k.ready_list).Pairwise
          (fun a b => (k.threads b).priority ≤ (k.threads a).priority) := by
        split
        · exact list_insert_ordered_sorted k k.ready_list k.running h.sorted
        · exact h.sorted
      rw [hl] at hL
      exact (List.pairwise_cons.1 hL).2
    · rw [hr]; exact List.Pairwise.nil
  unfold ready_sorted
  rw [hrl]
  refine hs.imp ?_
  intro a b hab; rw [hp a, hp b]; exact hab

theorem static_ok_next_thread (k : Kernel) (h : static_ok k) :
    static_ok (next_thread_to_run k).2 := by
  unfold next_thread_to_run
  cases hl : k.ready_list with
  | nil => exact h
  | cons e es =>
    have hr := h.ready
    have hn := h.nodup
    have hs := h.sorted
    unfold ready_sorted at hs
    unfold ready_ok at hr
    rw [hl] at hr hn hs
    refine ⟨h.run, ?_, (List.nodup_cons.1 hn).2, (List.pairwise_cons.1 hs).2⟩
    intro x hx
    exact hr x (List.mem_cons_of_mem e hx)

theorem static_ok_set_priority (k k1 : Kernel) (p : Int) (h : static_ok k)
    (hs : thread_set_priority false k p = some k1) : static_ok k1 := by
  have hcur := thread_current_of_running_ok k h.run
  have hnotin : k.running ∉ k.ready_list := by
    intro hc; have := (h.ready _ hc).2; rw [h.run.2] at this; cases this
  have hK : static_ok (set_thread k k.running (fun t => { t with priority := p })) := by
    have hth : ∀ x, (set_thread k k.running (fun t => { t with priority := p })).threads x =
        if x = k.running then { k.threads x with priority := p } else k.threads x :=
      fun x => rfl
    refine ⟨⟨?_, ?_⟩, ?_, h.nodup, ?_⟩
    · unfold is_thread; rw [hth]; split <;> exact h.run.1
    · rw [hth]; split <;> exact h.run.2
    · intro x hx
      have hx2 : x ∈ k.ready_list := hx
      have hxr : x ≠ k.running := fun hc => hnotin (hc ▸ hx2)
      unfold is_thread
      rw [hth, if_neg hxr]
      exact h.ready x hx2
    · have hs0 := h.sorted
      unfold ready_sorted at hs0 ⊢
      have hrl : (set_thread k k.running (fun t => { t with priority := p })).ready_list
          = k.ready_list := rfl
      rw [hrl]
      refine List.Pairwise.imp_of_mem ?_ hs0
      intro a b ha hb hab
      have har : a ≠ k.running := fun hc => hnotin (hc ▸ ha)
      have hbr : b ≠ k.running := fun hc => hnotin (hc ▸ hb)
      rw [hth, hth, if_neg har, if_neg hbr]; exact hab
  unfold thread_set_priority at hs
  simp only [if_true, hcur] at hs
  by_cases hlt : (k.threads k.running).priority > p
  · rw [if_pos hlt] at hs
    exact static_ok_yield _ k1 hK hs
  · rw [if_neg hlt] at hs
    rw [← Option.some.inj hs]; exact hK

theorem static_ok_step (k k1 : Kernel) (h : static_ok k) (hs : static_step k k1) :
    static_ok k1 := by
  cases hs
  · rename_i t hu; exact static_ok_unblock k k1 t h hu
  · rename_i hy; exact static_ok_yield k k1 h hy
  · exact static_ok_next_thread k h
  · rename_i p hp; exact static_ok_set_priority k k1 p h hp

theorem static_reachable_ok (k : Kernel) (h : static_reachable k) : static_ok k := by
  induction h with
  | init k hrun hready hnd hs => exact ⟨hrun, hready, hnd, hs⟩
  | step k k1 _ hs ih => exact static_ok_step k k1 ih hs

/-- C25: sortedness invariant of the ready list in static mode.  From a state whose ready
list is ordered by non-increasing priority (the empty list of `thread_init` included),
every state reached by calls of `thread_unblock`, `thread_yield`, `next_thread_to_run` and
`thread_set_priority` has a ready list ordered by non-increasing priority, whose front
thread has the maximal priority of the list. -/
theorem ready_list_sorted_static (k : Kernel) (h : static_reachable k) :
    ready_sorted k ∧ head_maximal k := by
  have hs := (static_reachable_ok k h).sorted
  refine ⟨hs, ?_⟩
  intro front rest hl x hx
  unfold ready_sorted at hs
  rw [hl] at hs hx
  rcases List.mem_cons.1 hx with rfl | hxr
  · exact le_refl _
  · exact (List.pairwise_cons.1 hs).1 x hxr

theorem high_created_sorted : ready_sorted high_created := by
  have h : high_created.ready_list = [2, 1] := by decide!
  unfold ready_sorted
  rw [h]
  simp only [List.pairwise_cons, List.mem_singleton, List.not_mem_nil, forall_eq,
    false_implies, implies_true, List.Pairwise.nil, and_true]
  decide!

theorem lowered_to_20_reachable : static_reachable lowered_to_20 :=
  .step high_created lowered_to_20
    (.init high_created high_created_running_ok high_created_ready_ok
      (by have h : high_created.ready_list = [2, 1] := by decide!
          rw [h]; decide) high_created_sorted)
    (.set_priority high_created lowered_to_20 20 lowered_to_20_eq)

theorem ready_list_sorted_static_witness :
    static_reachable lowered_to_20 ∧ ready_sorted lowered_to_20 ∧
    head_maximal lowered_to_20 :=
  ⟨lowered_to_20_reachable, ready_list_sorted_static lowered_to_20 lowered_to_20_reachable⟩

/-! ## The ready list and the thread states -/

theorem same_queue_refl (k : Kernel) : same_queue k k :=
  ⟨fun _ => ⟨rfl, rfl⟩, rfl, rfl, rfl, rfl⟩

theorem queue_ok_same (k k1 : Kernel) (h : queue_ok k) (hs : same_queue k k1) :
    queue_ok k1 := by
  obtain ⟨hth, hrl, hal, hrun, hidle⟩ := hs
  have hist : ∀ x, is_thread k1 x = is_thread k x := by
    intro x; unfold is_thread; rw [(hth x).2]
  refine ⟨⟨?_, ?_⟩, ?_, ?_, ?_, ?_, ?_⟩
  · rw [hrun, hist]; exact h.run.1
  · rw [hrun, (hth _).1]; exact h.run.2
  · intro x hx; rw [hrl] at hx
    exact ⟨by rw [hist]; exact (h.ready x hx).1, by rw [(hth x).1]; exact (h.ready x hx).2⟩
  · rw [hrl]; exact h.nodup
  · intro x hx; rw [hist] at hx; rw [hal]; exact h.registered x hx
  · intro x hx hi hst
    rw [hal] at hx; rw [hidle] at hi; rw [(hth x).1] at hst; rw [hrl]
    exact h.complete x hx hi hst
  · intro x hx hst
    rw [hal] at hx; rw [(hth x).1] at hst; rw [hrun]
    exact h.single x hx hst

/-- What a successful `schedule` does to the data of the scheduler, when the thread that
calls it is not dying and the ready list holds control blocks. -/
theorem schedule_spec (k k1 : Kernel) (h : schedule k = some k1)
    (hready : ∀ t ∈ k.ready_list, is_thread k t = true)
    (hd : (k.threads k.running).status ≠ .THREAD_DYING) :
    ∃ n, (k.ready_list = n :: k1.ready_list ∨
        (k.ready_list = [] ∧ k1.ready_list = [] ∧ k.idle_thread = some n)) ∧
      is_thread k n = true ∧ k1.running = n ∧ k1.all_list = k.all_list ∧
      k1.idle_thread = k.idle_thread ∧
      (∀ x, (k1.threads x).magic = (k.threads x).magic) ∧
      (∀ x, (k1.threads x).status =
        if x = n then .THREAD_RUNNING else (k.threads x).status) := by
  have hs : (k.threads k.running).status ≠ .THREAD_RUNNING := by
    intro hc
    unfold schedule next_thread_to_run at h
    cases hl : k.ready_list with
    | nil => rw [hl] at h; simp [hc] at h
    | cons e es => rw [hl] at h; simp [hc] at h
  cases hl : k.ready_list with
  | nil =>
    cases hi : k.idle_thread with
    | none =>
      unfold schedule next_thread_to_run at h
      rw [hl] at h
      simp [hs, hi] at h
    | some n =>
      have hn : is_thread k n = true := by
        by_contra hc
        unfold schedule next_thread_to_run at h
        rw [hl] at h
        simp [hs, hi, hc] at h
      rw [schedule_nil k n hl hi hn hs hd] at h
      have hk1 := Option.some.inj h
      subst hk1
      refine ⟨n, Or.inr ⟨rfl, hl, rfl⟩, hn, rfl, rfl, hi, ?_, ?_⟩
      · intro x; simp only [set_thread]; split <;> rfl
      · intro x; simp only [set_thread]; split <;> rfl
  | cons n rest =>
    have hn : is_thread k n = true := hready n (by rw [hl]; exact List.mem_cons_self n rest)
    rw [schedule_cons k n rest hl hn hs hd] at h
    have hk1 := Option.some.inj h
    subst hk1
    refine ⟨n, Or.inl rfl, hn, rfl, rfl, rfl, ?_, ?_⟩
    · intro x; simp only [set_thread]; split <;> rfl
    · intro x; simp only [set_thread]; split <;> rfl

/-- The scheduler re-establishes the invariant from a state in which the caller has left
state running: every thread of the ready list is a distinct ready control block, every
ready thread other than the idle thread is in the list, and no thread is running. -/
theorem queue_ok_schedule (k k1 : Kernel) (h : schedule k = some k1)
    (hready : ready_ok k) (hnd : k.ready_list.Nodup)
    (hreg : ∀ t, is_thread k t = true → t ∈ k.all_list)
    (hd : (k.threads k.running).status ≠ .THREAD_DYING)
    (hcomplete : ∀ t ∈ k.all_list, some t ≠ k.idle_thread →
      (k.threads t).status = .THREAD_READY → t ∈ k.ready_list)
    (hnone : ∀ t ∈ k.all_list, (k.threads t).status ≠ .THREAD_RUNNING) :
    queue_ok k1 := by
  obtain ⟨n, hcase, hn, hrun, hal, hidle, hm, hst⟩ :=
    schedule_spec k k1 h (fun t ht => (hready t ht).1) hd
  have hist : ∀ x, is_thread k1 x = is_thread k x := by
    intro x; unfold is_thread; rw [hm x]
  have hsub : ∀ t ∈ k1.ready_list, t ∈ k.ready_list ∧ t ≠ n := by
    intro t ht
    rcases hcase with hc | ⟨-, hc, -⟩
    · rw [hc] at hnd ⊢
      refine ⟨List.mem_cons_of_mem n ht, ?_⟩
      intro htn; rw [htn] at ht
      exact (List.nodup_cons.1 hnd).1 ht
    · rw [hc] at ht; cases ht
  refine ⟨⟨?_, ?_⟩, ?_, ?_, ?_, ?_, ?_⟩
  · rw [hrun, hist]; exact hn
  · rw [hrun, hst, if_pos rfl]
  · intro t ht
    obtain ⟨htk, htn⟩ := hsub t ht
    exact ⟨by rw [hist]; exact (hready t htk).1, by rw [hst, if_neg htn]; exact (hready t htk).2⟩
  · rcases hcase with hc | ⟨-, hc, -⟩
    · rw [hc] at hnd; exact (List.nodup_cons.1 hnd).2
    · rw [hc]; exact List.nodup_nil
  · intro t ht; rw [hist] at ht; rw [hal]; exact hreg t ht
  · intro t ht hi hs
    rw [hal] at ht; rw [hidle] at hi
    have htn : t ≠ n := by
      intro hc; rw [hst, if_pos hc] at hs; cases hs
    rw [hst, if_neg htn] at hs
    have hmem := hcomplete t ht hi hs
    rcases hcase with hc | ⟨hc, -, -⟩
    · rw [hc] at hmem
      rcases List.mem_cons.1 hmem with h1 | h1
      · exact absurd h1 htn
      · exact h1
    · rw [hc] at hmem; cases hmem
  · intro t ht hs
    rw [hal] at ht
    by_cases htn : t = n
    · rw [hrun]; exact htn
    · rw [hst, if_neg htn] at hs
      exact absurd hs (hnone t ht)

theorem queue_ok_block (k k1 : Kernel) (h : queue_ok k) (hb : thread_block k = some k1) :
    queue_ok k1 := by
  unfold thread_block at hb
  rw [thread_current_of_running_ok k h.run] at hb
  simp only at hb
  have hnotin : k.running ∉ k.ready_list := by
    intro hc; have := (h.ready _ hc).2; rw [h.run.2] at this; cases this
  have hth : ∀ x, (set_thread k k.running (fun t => { t with status := .THREAD_BLOCKED })).threads x
      = if x = k.running then { k.threads x with status := .THREAD_BLOCKED } else k.threads x :=
    fun x => rfl
  refine queue_ok_schedule _ k1 hb ?_ h.nodup ?_ ?_ ?_ ?_
  · intro t ht
    have ht2 : t ∈ k.ready_list := ht
    have htr : t ≠ k.running := fun hc => hnotin (hc ▸ ht2)
    unfold is_thread
    rw [hth, if_neg htr]
    exact h.ready t ht2
  · intro t ht
    apply h.registered t
    unfold is_thread at ht ⊢
    rw [hth] at ht
    split at ht <;> exact ht
  · have hr : (set_thread k k.running (fun t => { t with status := .THREAD_BLOCKED })).running
        = k.running := rfl
    rw [hr, hth, if_pos rfl]
    intro hc; cases hc
  · intro t ht hi hs
    have ht2 : t ∈ k.all_list := ht
    rw [hth] at hs
    by_cases htr : t = k.running
    · rw [if_pos htr] at hs; cases hs
    · rw [if_neg htr] at hs
      exact h.complete t ht2 hi hs
  · intro t ht hs
    have ht2 : t ∈ k.all_list := ht
    rw [hth] at hs
    by_cases htr : t = k.running
    · rw [if_pos htr] at hs; cases hs
    · rw [if_neg htr] at hs
      exact htr (h.single t ht2 hs)

theorem queue_ok_yield (k k1 : Kernel) (h : queue_ok k) (hy : thread_yield k = some k1) :
    queue_ok k1 := by
  unfold thread_yield at hy
  rw [thread_current_of_running_ok k h.run] at hy
  simp only at hy
  have hnotin : k.running ∉ k.ready_list := by
    intro hc; have := (h.ready _ hc).2; rw [h.run.2] at this; cases this
  generalize hl : (if some k.running ≠ k.idle_thread then
      list_insert_ordered (biggerprior k) k.ready_list k.running else k.ready_list) = l at hy
  have hmem : ∀ x, x ∈ l → x = k.running ∨ x ∈ k.ready_list := by
    intro x hx
    rw [← hl] at hx
    split at hx
    · exact (mem_list_insert_ordered _ _ _ _).1 hx
    · exact Or.inr hx
  have hmem2 : ∀ x, x ∈ k.ready_list → x ∈ l := by
    intro x hx
    rw [← hl]
    split
    · exact (mem_list_insert_ordered _ _ _ _).2 (Or.inr hx)
    · exact hx
  have hth : ∀ x, (set_thread { k with ready_list := l } k.running
      (fun t => { t with status := .THREAD_READY })).threads x
      = if x = k.running then { k.threads x with status := .THREAD_READY } else k.threads x :=
    fun x => rfl
  refine queue_ok_schedule _ k1 hy ?_ ?_ ?_ ?_ ?_ ?_
  · intro t ht
    have ht2 : t ∈ l := ht
    unfold is_thread
    rw [hth]
    by_cases htr : t = k.running
    · rw [if_pos htr, htr]; exact ⟨h.run.1, rfl⟩
    · rw [if_neg htr]
      rcases hmem t ht2 with h1 | h1
      · exact absurd h1 htr
      · exact h.ready t h1
  · show l.Nodup
    rw [← hl]
    split
    · exact list_insert_ordered_nodup _ _ _ h.nodup hnotin
    · exact h.nodup
  · intro t ht
    apply h.registered t
    unfold is_thread at ht ⊢
    rw [hth] at ht
    split at ht <;> exact ht
  · have hr : (set_thread { k with ready_list := l } k.running
        (fun t => { t with status := .THREAD_READY })).running = k.running := rfl
    rw [hr, hth, if_pos rfl]
    intro hc; cases hc
  · intro t ht hi hs
    have ht2 : t ∈ k.all_list := ht
    have hi2 : some t ≠ k.idle_thread := hi
    show t ∈ l
    by_cases htr : t = k.running
    · rw [← hl, if_pos (by rw [← htr]; exact hi2), htr]
      exact (mem_list_insert_ordered _ _ _ _).2 (Or.inl rfl)
    · rw [hth, if_neg htr] at hs
      exact hmem2 t (h.complete t ht2 hi2 hs)
  · intro t ht hs
    have ht2 : t ∈ k.all_list := ht
    rw [hth] at hs
    by_cases htr : t = k.running
    · rw [if_pos htr] at hs; cases hs
    · rw [if_neg htr] at hs
      exact htr (h.single t ht2 hs)

theorem queue_ok_unblock (k k1 : Kernel) (t : Nat) (h : queue_ok k)
    (hu : thread_unblock k t = some k1) : queue_ok k1 := by
  obtain ⟨hit, hst⟩ := thread_unblock_some k k1 t hu
  rw [thread_unblock_eq k t hit hst] at hu
  have hk1 := Option.some.inj hu
  have htr : t ≠ k.running := by
    intro hc; rw [hc, h.run.2] at hst; cases hst
  have htl : t ∉ k.ready_list := by
    intro hc; have := (h.ready t hc).2; rw [hst] at this; cases this
  have hth : ∀ x, k1.threads x =
      if x = t then { k.threads x with status := .THREAD_READY } else k.threads x := by
    intro x; rw [← hk1]; rfl
  have hrun : k1.running = k.running := by rw [← hk1]; rfl
  have hal : k1.all_list = k.all_list := by rw [← hk1]; rfl
  have hidle : k1.idle_thread = k.idle_thread := by rw [← hk1]; rfl
  have hrl : k1.ready_list = list_insert_ordered (biggerprior k) k.ready_list t := by
    rw [← hk1]; rfl
  have hm : ∀ x, is_thread k1 x = is_thread k x := by
    intro x; unfold is_thread; rw [hth]; split <;> rfl
  refine ⟨⟨?_, ?_⟩, ?_, ?_, ?_, ?_, ?_⟩
  · rw [hrun, hm]; exact h.run.1
  · rw [hrun, hth, if_neg (Ne.symm htr)]; exact h.run.2
  · intro x hx
    rw [hrl] at hx
    rcases (mem_list_insert_ordered _ _ _ _).1 hx with rfl | hx
    · exact ⟨by rw [hm]; exact hit, by rw [hth, if_pos rfl]⟩
    · have hxt : x ≠ t := fun hc => htl (hc ▸ hx)
      exact ⟨by rw [hm]; exact (h.ready x hx).1, by rw [hth, if_neg hxt]; exact (h.ready x hx).2⟩
  · rw [hrl]; exact list_insert_ordered_nodup _ _ _ h.nodup htl
  · intro x hx; rw [hm] at hx; rw [hal]; exact h.registered x hx
  · intro x hx hi hs
    rw [hal] at hx; rw [hidle] at hi; rw [hrl]
    by_cases hxt : x = t
    · exact (mem_list_insert_ordered _ _ _ _).2 (Or.inl hxt)
    · rw [hth, if_neg hxt] at hs
      exact (mem_list_insert_ordered _ _ _ _).2 (Or.inr (h.complete x hx hi hs))
  · intro x hx hs
    rw [hal] at hx; rw [hrun]
    by_cases hxt : x = t
    · rw [hth, if_pos hxt] at hs; cases hs
    · rw [hth, if_neg hxt] at hs
      exact h.single x hx hs

theorem queue_ok_sema_up (k k1 : Kernel) (sema : sema_ref) (h : queue_ok k)
    (hu : sema_up k sema = some k1) : queue_ok k1 := by
  unfold sema_up at hu
  cases hw : sema_up_wake (log k (.sema_up sema)) sema with
  | none => rw [hw] at hu; cases hu
  | some ka =>
    rw [hw] at hu
    simp only at hu
    have hlog : queue_ok (log k (.sema_up sema)) :=
      queue_ok_same k _ h ⟨fun _ => ⟨rfl, rfl⟩, rfl, rfl, rfl, rfl⟩
    have hka : queue_ok ka := by
      unfold sema_up_wake at hw
      simp only at hw
      cases hl : ((log k (.sema_up sema)).semas sema).waiters with
      | nil =>
        rw [hl] at hw
        simp only at hw
        rw [← Option.some.inj hw]; exact hlog
      | cons first rest =>
        rw [hl] at hw
        simp only at hw
        generalize sema_up_scan (log k (.sema_up sema)) rest 1
          (first, 0, ((log k (.sema_up sema)).threads first).priority) = r at hw
        obtain ⟨a, b, c⟩ := r
        simp only at hw
        refine queue_ok_unblock _ ka a ?_ hw
        exact queue_ok_same _ _ hlog ⟨fun _ => ⟨rfl, rfl⟩, rfl, rfl, rfl, rfl⟩
    refine queue_ok_yield _ k1 ?_ hu
    exact queue_ok_same ka _ hka ⟨fun _ => ⟨rfl, rfl⟩, rfl, rfl, rfl, rfl⟩

theorem queue_ok_sema_down (k k1 : Kernel) (sema : sema_ref) (h : queue_ok k)
    (hd : (sema_down k sema).state = some k1) : queue_ok k1 := by
  have hlog : queue_ok (log k (.sema_down sema)) :=
    queue_ok_same k _ h ⟨fun _ => ⟨rfl, rfl⟩, rfl, rfl, rfl, rfl⟩
  unfold sema_down at hd
  simp only at hd
  split at hd
  · rw [thread_current_of_running_ok _ hlog.run] at hd
    simp only at hd
    split at hd
    · cases hd
    · next kb hb =>
      simp only [Outcome.state, Option.some.injEq] at hd
      rw [← hd]
      refine queue_ok_block _ kb ?_ hb
      exact queue_ok_same _ _ hlog ⟨fun _ => ⟨rfl, rfl⟩, rfl, rfl, rfl, rfl⟩
  · simp only [Outcome.state, Option.some.injEq] at hd
    rw [← hd]
    exact queue_ok_same _ _ hlog ⟨fun _ => ⟨rfl, rfl⟩, rfl, rfl, rfl, rfl⟩

theorem queue_ok_lock_acquire (k k1 : Kernel) (l : Nat) (h : queue_ok k)
    (ha : (lock_acquire k l).state = some k1) : queue_ok k1 := by
  unfold lock_acquire at ha
  split at ha
  · cases ha
  · cases ha
  · cases hs : sema_down k (.lock l) with
    | returned v ka =>
      have hka : queue_ok ka := queue_ok_sema_down k ka (.lock l) h (by rw [hs]; rfl)
      rw [hs] at ha
      simp only at ha
      rw [thread_current_of_running_ok ka hka.run] at ha
      simp only [Outcome.state, Option.some.injEq] at ha
      rw [← ha]
      exact queue_ok_same _ _ hka ⟨fun _ => ⟨rfl, rfl⟩, rfl, rfl, rfl, rfl⟩
    | blocked ka =>
      rw [hs] at ha
      simp only [Outcome.state, Option.some.injEq] at ha
      rw [← ha]
      exact queue_ok_sema_down k ka (.lock l) h (by rw [hs]; rfl)
    | switched ka =>
      rw [hs] at ha
      simp only [Outcome.state, Option.some.injEq] at ha
      rw [← ha]
      exact queue_ok_sema_down k ka (.lock l) h (by rw [hs]; rfl)
    | exited ka =>
      rw [hs] at ha
      simp only [Outcome.state, Option.some.injEq] at ha
      rw [← ha]
      exact queue_ok_sema_down k ka (.lock l) h (by rw [hs]; rfl)
    | panic =>
      rw [hs] at ha
      cases ha

theorem queue_ok_lock_release (k k1 : Kernel) (l : Nat) (h : queue_ok k)
    (hr : lock_release k l = some k1) : queue_ok k1 := by
  unfold lock_release at hr
  split at hr
  · refine queue_ok_sema_up _ k1 (.lock l) ?_ hr
    exact queue_ok_same k _ h ⟨fun _ => ⟨rfl, rfl⟩, rfl, rfl, rfl, rfl⟩
  · cases hr

theorem queue_ok_allocate_tid (k k1 : Kernel) (h : queue_ok k)
    (ha : (allocate_tid k).state = some k1) : queue_ok k1 := by
  unfold allocate_tid at ha
  cases hs : lock_acquire k tid_lock with
  | returned v ka =>
    have hka : queue_ok ka := queue_ok_lock_acquire k ka tid_lock h (by rw [hs]; rfl)
    rw [hs] at ha
    simp only at ha
    split at ha
    · cases ha
    · next kb hb =>
      simp only [Outcome.state, Option.some.injEq] at ha
      rw [← ha]
      refine queue_ok_lock_release _ kb tid_lock ?_ hb
      exact queue_ok_same ka _ hka ⟨fun _ => ⟨rfl, rfl⟩, rfl, rfl, rfl, rfl⟩
  | blocked ka =>
    rw [hs] at ha
    simp only [Outcome.state, Option.some.injEq] at ha
    rw [← ha]
    exact queue_ok_lock_acquire k ka tid_lock h (by rw [hs]; rfl)
  | switched ka =>
    rw [hs] at ha
    simp only [Outcome.state, Option.some.injEq] at ha
    rw [← ha]
    exact queue_ok_lock_acquire k ka tid_lock h (by rw [hs]; rfl)
  | exited ka =>
    rw [hs] at ha
    simp only [Outcome.state, Option.some.injEq] at ha
    rw [← ha]
    exact queue_ok_lock_acquire k ka tid_lock h (by rw [hs]; rfl)
  | panic =>
    rw [hs] at ha
    cases ha

theorem queue_ok_init_thread (k k1 : Kernel) (t : Nat) (p : Int) (h : queue_ok k)
    (ht : t ∉ k.all_list) (hi : init_thread k t p = some k1) : queue_ok k1 := by
  have htr : t ≠ k.running := by
    intro hc; apply ht; rw [hc]; exact h.registered _ h.run.1
  have htl : t ∉ k.ready_list := fun hc => ht (h.registered t (h.ready t hc).1)
  by_cases hp : PRI_MIN ≤ p ∧ p ≤ PRI_MAX
  · obtain ⟨k2, hi2, a1, a2, a3, a4, -, -, -, a8, a9, -, a11⟩ :=
      init_thread_facts k t p htr hp.1 hp.2
    rw [hi] at hi2
    have e := Option.some.inj hi2
    subst e
    have hm : ∀ x, x ≠ t → is_thread k1 x = is_thread k x := by
      intro x hx; unfold is_thread; rw [(a8 x hx).2.2]
    refine ⟨⟨?_, ?_⟩, ?_, ?_, ?_, ?_, ?_⟩
    · rw [a2, hm _ (Ne.symm htr)]; exact h.run.1
    · rw [a2, (a8 _ (Ne.symm htr)).1]; exact h.run.2
    · intro x hx
      rw [a1] at hx
      have hxt : x ≠ t := fun hc => htl (hc ▸ hx)
      exact ⟨by rw [hm x hxt]; exact (h.ready x hx).1,
        by rw [(a8 x hxt).1]; exact (h.ready x hx).2⟩
    · rw [a1]; exact h.nodup
    · intro x hx
      rw [a4]
      by_cases hxt : x = t
      · rw [hxt]; exact List.mem_append_right _ (List.mem_singleton_self t)
      · rw [hm x hxt] at hx
        exact List.mem_append_left _ (h.registered x hx)
    · intro x hx hid hs
      rw [a4] at hx; rw [a3] at hid; rw [a1]
      by_cases hxt : x = t
      · rw [hxt, a9] at hs; cases hs
      · rw [(a8 x hxt).1] at hs
        rcases List.mem_append.1 hx with hx1 | hx1
        · exact h.complete x hx1 hid hs
        · exact absurd (List.mem_singleton.1 hx1) hxt
    · intro x hx hs
      rw [a4] at hx; rw [a2]
      by_cases hxt : x = t
      · rw [hxt, a9] at hs; cases hs
      · rw [(a8 x hxt).1] at hs
        rcases List.mem_append.1 hx with hx1 | hx1
        · exact h.single x hx1 hs
        · exact absurd (List.mem_singleton.1 hx1) hxt
  · unfold init_thread at hi
    rw [if_neg hp] at hi
    cases hi

theorem queue_ok_create_finish (k k1 : Kernel) (t : Nat) (tid p : Int) (h : queue_ok k)
    (hf : (thread_create_finish k t tid p).state = some k1) : queue_ok k1 := by
  unfold thread_create_finish at hf
  have hK : queue_ok (set_thread k t (fun x => { x with tid := tid })) := by
    refine queue_ok_same k _ h ⟨?_, rfl, rfl, rfl, rfl⟩
    intro x
    simp only [set_thread]
    split <;> exact ⟨rfl, rfl⟩
  cases hu : thread_unblock (set_thread k t (fun x => { x with tid := tid })) t with
  | none => rw [hu] at hf; cases hf
  | some ka =>
    rw [hu] at hf
    simp only at hf
    have hka : queue_ok ka := queue_ok_unblock _ ka t hK hu
    have hgp : thread_get_priority ka = some (ka.threads ka.running).priority := by
      simp [thread_get_priority, thread_current_of_running_ok ka hka.run]
    rw [hgp] at hf
    simp only at hf
    split at hf
    · cases hy : thread_yield ka with
      | none => rw [hy] at hf; cases hf
      | some kb =>
        rw [hy] at hf
        simp only [Outcome.state, Option.some.injEq] at hf
        rw [← hf]
        exact queue_ok_yield ka kb hka hy
    · simp only [Outcome.state, Option.some.injEq] at hf
      rw [← hf]; exact hka

theorem queue_ok_create (k k1 : Kernel) (page : Option Nat) (p : Int) (h : queue_ok k)
    (hfresh : ∀ t, page = some t → t ∉ k.all_list)
    (hc : (thread_create k page p).state = some k1) : queue_ok k1 := by
  unfold thread_create at hc
  cases page with
  | none =>
    simp only [Outcome.state, Option.some.injEq] at hc
    rw [← hc]; exact h
  | some t =>
    simp only at hc
    cases hi : init_thread k t p with
    | none => rw [hi] at hc; cases hc
    | some ka =>
      rw [hi] at hc
      simp only at hc
      have hka : queue_ok ka := queue_ok_init_thread k ka t p h (hfresh t rfl) hi
      cases hal : allocate_tid ka with
      | returned tid kb =>
        have hkb : queue_ok kb := queue_ok_allocate_tid ka kb hka (by rw [hal]; rfl)
        rw [hal] at hc
        simp only at hc
        split at hc
        · exact queue_ok_create_finish kb k1 t tid p hkb hc
        · simp only [Outcome.state, Option.some.injEq] at hc
          rw [← hc]; exact hkb
      | blocked kb =>
        rw [hal] at hc
        simp only [Outcome.state, Option.some.injEq] at hc
        rw [← hc]
        exact queue_ok_allocate_tid ka kb hka (by rw [hal]; rfl)
      | switched kb =>
        rw [hal] at hc
        simp only [Outcome.state, Option.some.injEq] at hc
        rw [← hc]
        exact queue_ok_allocate_tid ka kb hka (by rw [hal]; rfl)
      | exited kb =>
        rw [hal] at hc
        simp only [Outcome.state, Option.some.injEq] at hc
        rw [← hc]
        exact queue_ok_allocate_tid ka kb hka (by rw [hal]; rfl)
      | panic =>
        rw [hal] at hc
        cases hc

theorem queue_ok_start (k k1 : Kernel) (start_idle : Nat) (page : Option Nat)
    (h : queue_ok k) (hfresh : ∀ t, page = some t → t ∉ k.all_list)
    (hs : (thread_start k start_idle page).state = some k1) : queue_ok k1 := by
  have h0 : queue_ok (sema_init k (.cell start_idle) 0) :=
    queue_ok_same k _ h ⟨fun _ => ⟨rfl, rfl⟩, rfl, rfl, rfl, rfl⟩
  unfold thread_start at hs
  simp only at hs
  cases hc : thread_create (sema_init k (.cell start_idle) 0) page PRI_MIN with
  | returned tid kb =>
    have hkb : queue_ok kb := queue_ok_create _ kb page PRI_MIN h0 hfresh (by rw [hc]; rfl)
    rw [hc] at hs
    exact queue_ok_sema_down kb k1 (.cell start_idle) hkb hs
  | blocked kb =>
    rw [hc] at hs
    simp only [Outcome.state, Option.some.injEq] at hs
    rw [← hs]
    exact queue_ok_create _ kb page PRI_MIN h0 hfresh (by rw [hc]; rfl)
  | switched kb =>
    rw [hc] at hs
    simp only [Outcome.state, Option.some.injEq] at hs
    rw [← hs]
    exact queue_ok_create _ kb page PRI_MIN h0 hfresh (by rw [hc]; rfl)
  | exited kb =>
    rw [hc] at hs
    simp only [Outcome.state, Option.some.injEq] at hs
    rw [← hs]
    exact queue_ok_create _ kb page PRI_MIN h0 hfresh (by rw [hc]; rfl)
  | panic =>
    rw [hc] at hs
    cases hs

theorem queue_ok_idle (k k1 : Kernel) (idle_started : Nat) (h : queue_ok k)
    (hnone : k.idle_thread = none) (hi : idle k idle_started = some k1) : queue_ok k1 := by
  unfold idle at hi
  rw [thread_current_of_running_ok k h.run] at hi
  simp only at hi
  refine queue_ok_sema_up _ k1 (.cell idle_started) ?_ hi
  refine ⟨h.run, h.ready, h.nodup, h.registered, ?_, h.single⟩
  intro t ht _ hs
  exact h.complete t ht (by rw [hnone]; exact fun hc => by cases hc) hs

theorem queue_ok_step (k k1 : Kernel) (h : queue_ok k) (hs : queue_step k k1) :
    queue_ok k1 := by
  cases hs
  · rename_i start_idle page hfresh ho
    exact queue_ok_start k k1 start_idle page h hfresh ho
  · rename_i idle_started hnone hi
    exact queue_ok_idle k k1 idle_started h hnone hi
  · rename_i page priority hfresh ho
    exact queue_ok_create k k1 page priority h hfresh ho
  · rename_i t tid priority ho
    exact queue_ok_create_finish k k1 t tid priority h ho
  · rename_i hb; exact queue_ok_block k k1 h hb
  · rename_i t hu; exact queue_ok_unblock k k1 t h hu
  · rename_i hy; exact queue_ok_yield k k1 h hy
  · rename_i sema hu; exact queue_ok_sema_up k k1 sema h hu
  · rename_i sema hd; exact queue_ok_sema_down k k1 sema h hd
  · rename_i hq; exact queue_ok_same k k1 h hq

theorem queue_reachable_ok (k : Kernel) (h : queue_reachable k) : queue_ok k := by
  induction h with
  | init page k0 h0 =>
    obtain ⟨k0b, hb, hs, hrl, hrun, hal, -, -⟩ := thread_init_boot page
    rw [h0] at hb
    simp only [Outcome.returned.injEq, true_and] at hb
    subst hb
    refine ⟨hs.run, hs.ready, hs.nodup, hs.registered, ?_, ?_⟩
    · intro t _ _ hst; exact hs.complete t hst
    · intro t ht hst
      rw [hal] at ht
      rw [hrun]; exact List.mem_singleton.1 ht
  | step k k1 _ hs ih => exact queue_ok_step k k1 ih hs

/-- C24 (as amended): in every state reached from `thread_init` through `thread_start`, the
idle thread, `thread_create`, `thread_block`, `thread_unblock`, `thread_yield`, `sema_up`
and `sema_down`, every thread of the all-threads list other than the idle thread is in the
ready list exactly when its state is ready; every thread of the ready list is a ready
thread of the all-threads list; and exactly one thread of the all-threads list, the
running thread, has state running. -/
theorem ready_list_matches_status (k : Kernel) (h : queue_reachable k) :
    (∀ t ∈ k.all_list, some t ≠ k.idle_thread →
      (t ∈ k.ready_list ↔ (k.threads t).status = .THREAD_READY)) ∧
    (∀ t ∈ k.ready_list, t ∈ k.all_list ∧ (k.threads t).status = .THREAD_READY) ∧
    (∃! t, t ∈ k.all_list ∧ (k.threads t).status = .THREAD_RUNNING) ∧
    k.running ∈ k.all_list ∧ (k.threads k.running).status = .THREAD_RUNNING := by
  have hq := queue_reachable_ok k h
  have hrun : k.running ∈ k.all_list := hq.registered _ hq.run.1
  refine ⟨?_, ?_, ?_, hrun, hq.run.2⟩
  · intro t ht hi
    exact ⟨fun hm => (hq.ready t hm).2, fun hs => hq.complete t ht hi hs⟩
  · intro t ht
    exact ⟨hq.registered t (hq.ready t ht).1, (hq.ready t ht).2⟩
  · exact ⟨k.running, ⟨hrun, hq.run.2⟩, fun t ht => hq.single t ht.1 ht.2⟩

theorem outcome_state_eq {α : Type} (o : Outcome α) (k : Kernel)
    (h : o.state.isSome = true) : o.state = some (o.state_or k) := by
  cases o with
  | returned w k1 => rfl
  | blocked k1 => rfl
  | switched k1 => rfl
  | exited k1 => rfl
  | panic => cases h

theorem outcome_blocked_eq {α : Type} (o : Outcome α) (k : Kernel)
    (h : (match o with | .blocked _ => true | _ => false) = true) :
    o = .blocked (o.state_or k) := by
  cases o with
  | returned w k1 => cases h
  | blocked k1 => rfl
  | switched k1 => cases h
  | exited k1 => cases h
  | panic => cases h

theorem start_blocked_eq : thread_start booted 0 (some 1) = .blocked start_blocked :=
  outcome_blocked_eq _ booted (by decide!)

theorem idle_yielded_eq : idle start_blocked 0 = some idle_yielded := by
  have h : (idle start_blocked 0).isSome = true := by decide!
  obtain ⟨v, hv⟩ := Option.isSome_iff_exists.1 h
  unfold idle_yielded
  rw [hv]; rfl

theorem started_eq : sema_down idle_yielded (.cell 0) = .returned () started :=
  outcome_returned_eq _ () idle_yielded (by decide!)

theorem started_reachable : queue_reachable started := by
  have h0 : queue_reachable booted := .init 0 booted booted_eq
  have h1 : queue_reachable start_blocked :=
    .step booted start_blocked h0
      (.start booted start_blocked 0 (some 1)
        (by intro t ht; cases ht; decide!) (by rw [start_blocked_eq]; rfl))
  have h2 : queue_reachable idle_yielded :=
    .step start_blocked idle_yielded h1
      (.idle start_blocked idle_yielded 0 (by decide!) idle_yielded_eq)
  exact .step idle_yielded started h2
    (.sema_down idle_yielded started (.cell 0) (by rw [started_eq]; rfl))

/-- C24 (counterexample): after `thread_init` the initial thread calls `thread_start`,
which creates the idle thread on page 1 and sleeps on the semaphore; the idle thread sets
`idle_thread`, signals the semaphore and yields inside `sema_up`, where `thread_yield` does
not put the idle thread in the ready list; the initial thread completes its `sema_down`.
In the state in which `thread_start` returns, the idle thread is a thread of the
all-threads list in state ready, and the ready list is empty. -/
theorem idle_thread_ready_not_queued :
    thread_init (boot_memory 0) = .returned () booted ∧
    thread_start booted 0 (some 1) = .blocked start_blocked ∧
    start_blocked.running = 1 ∧ start_blocked.idle_thread = none ∧
    idle start_blocked 0 = some idle_yielded ∧
    sema_down idle_yielded (.cell 0) = .returned () started ∧
    queue_reachable started ∧
    started.running = 0 ∧ started.idle_thread = some 1 ∧ started.all_list = [0, 1] ∧
    (started.threads 1).status = .THREAD_READY ∧ started.ready_list = [] ∧
    ¬ (1 ∈ started.ready_list ↔ (started.threads 1).status = .THREAD_READY) := by
  have hst : (started.threads 1).status = .THREAD_READY := by decide!
  have hrl : started.ready_list = [] := by decide!
  refine ⟨booted_eq, start_blocked_eq, by decide!, by decide!, idle_yielded_eq, started_eq,
    started_reachable, by decide!, by decide!, by decide!, hst, hrl, ?_⟩
  intro hc
  have := hc.2 hst
  rw [hrl] at this
  cases this

theorem ready_list_matches_status_witness :
    queue_reachable started ∧
    (∀ t ∈ started.all_list, some t ≠ started.idle_thread →
      (t ∈ started.ready_list ↔ (started.threads t).status = .THREAD_READY)) ∧
    (∀ t ∈ started.ready_list,
      t ∈ started.all_list ∧ (started.threads t).status = .THREAD_READY) ∧
    (∃! t, t ∈ started.all_list ∧ (started.threads t).status = .THREAD_RUNNING) ∧
    started.running ∈ started.all_list ∧
    (started.threads started.running).status = .THREAD_RUNNING :=
  ⟨started_reachable, ready_list_matches_status started started_reachable⟩

end Pintos
